import Mathlib

/-!
A verification development for the KeystoneEmailParser extraction pipeline.

We give a shallow embedding of the repository's data-fusion (merge) engine
(`src/parsers/data_merger.py`), the staged orchestrator
(`src/parsers/enhanced_parser.py`: `EnhancedParser.parse`,
`EnhancedParser.parse_email`, `EnhancedParser.validate_input`,
`EnhancedParser.merge_parsed_data`, `EnhancedParser._validate_merged_data`,
`EnhancedParser._stage_schema_validation_internal`) and the static schema
(`src/utils/quickbase_schema.py`), and prove or refute the frozen claims
about them.

Python values flowing through the merge are modelled by the inductive
`PyVal` (strings, booleans, integers, lists, ordered dicts, None).  Python
dicts are modelled as insertion-ordered association lists; Python `==` on
the value domain exercised by the code is structural equality.  Fallible
Python code (statements that can raise) is modelled with `Except PyErr`.
-/

/-- The domain of Python values handled by the parsing pipeline: strings,
booleans, integers, lists, (insertion-ordered) dictionaries with string
keys, and `None`. -/
inductive PyVal where
  | vstr (s : String)
  | vbool (b : Bool)
  | vint (n : Int)
  | vlist (l : List PyVal)
  | vdict (entries : List (String × PyVal))
  | vnone

mutual

/-- Decidable structural equality on `PyVal` (Python `==` on this value
domain). -/
def PyVal.decEq : (a b : PyVal) → Decidable (a = b)
  | .vstr a, .vstr b =>
      if h : a = b then .isTrue (by rw [h]) else .isFalse (fun he => h (by cases he; rfl))
  | .vbool a, .vbool b =>
      if h : a = b then .isTrue (by rw [h]) else .isFalse (fun he => h (by cases he; rfl))
  | .vint a, .vint b =>
      if h : a = b then .isTrue (by rw [h]) else .isFalse (fun he => h (by cases he; rfl))
  | .vnone, .vnone => .isTrue rfl
  | .vlist l, .vlist m =>
      match PyVal.decEqList l m with
      | .isTrue h => .isTrue (by rw [h])
      | .isFalse h => .isFalse (fun he => h (by cases he; rfl))
  | .vdict d, .vdict e =>
      match PyVal.decEqDict d e with
      | .isTrue h => .isTrue (by rw [h])
      | .isFalse h => .isFalse (fun he => h (by cases he; rfl))
  | .vstr _, .vbool _ => .isFalse (fun h => PyVal.noConfusion h)
  | .vstr _, .vint _ => .isFalse (fun h => PyVal.noConfusion h)
  | .vstr _, .vlist _ => .isFalse (fun h => PyVal.noConfusion h)
  | .vstr _, .vdict _ => .isFalse (fun h => PyVal.noConfusion h)
  | .vstr _, .vnone => .isFalse (fun h => PyVal.noConfusion h)
  | .vbool _, .vstr _ => .isFalse (fun h => PyVal.noConfusion h)
  | .vbool _, .vint _ => .isFalse (fun h => PyVal.noConfusion h)
  | .vbool _, .vlist _ => .isFalse (fun h => PyVal.noConfusion h)
  | .vbool _, .vdict _ => .isFalse (fun h => PyVal.noConfusion h)
  | .vbool _, .vnone => .isFalse (fun h => PyVal.noConfusion h)
  | .vint _, .vstr _ => .isFalse (fun h => PyVal.noConfusion h)
  | .vint _, .vbool _ => .isFalse (fun h => PyVal.noConfusion h)
  | .vint _, .vlist _ => .isFalse (fun h => PyVal.noConfusion h)
  | .vint _, .vdict _ => .isFalse (fun h => PyVal.noConfusion h)
  | .vint _, .vnone => .isFalse (fun h => PyVal.noConfusion h)
  | .vlist _, .vstr _ => .isFalse (fun h => PyVal.noConfusion h)
  | .vlist _, .vbool _ => .isFalse (fun h => PyVal.noConfusion h)
  | .vlist _, .vint _ => .isFalse (fun h => PyVal.noConfusion h)
  | .vlist _, .vdict _ => .isFalse (fun h => PyVal.noConfusion h)
  | .vlist _, .vnone => .isFalse (fun h => PyVal.noConfusion h)
  | .vdict _, .vstr _ => .isFalse (fun h => PyVal.noConfusion h)
  | .vdict _, .vbool _ => .isFalse (fun h => PyVal.noConfusion h)
  | .vdict _, .vint _ => .isFalse (fun h => PyVal.noConfusion h)
  | .vdict _, .vlist _ => .isFalse (fun h => PyVal.noConfusion h)
  | .vdict _, .vnone => .isFalse (fun h => PyVal.noConfusion h)
  | .vnone, .vstr _ => .isFalse (fun h => PyVal.noConfusion h)
  | .vnone, .vbool _ => .isFalse (fun h => PyVal.noConfusion h)
  | .vnone, .vint _ => .isFalse (fun h => PyVal.noConfusion h)
  | .vnone, .vlist _ => .isFalse (fun h => PyVal.noConfusion h)
  | .vnone, .vdict _ => .isFalse (fun h => PyVal.noConfusion h)

/-- Decidable equality on lists of `PyVal`. -/
def PyVal.decEqList : (l m : List PyVal) → Decidable (l = m)
  | [], [] => .isTrue rfl
  | [], _ :: _ => .isFalse (fun h => List.noConfusion h)
  | _ :: _, [] => .isFalse (fun h => List.noConfusion h)
  | a :: as, b :: bs =>
      match PyVal.decEq a b with
      | .isTrue h1 =>
          match PyVal.decEqList as bs with
          | .isTrue h2 => .isTrue (by rw [h1, h2])
          | .isFalse h2 => .isFalse (fun he => h2 (by cases he; rfl))
      | .isFalse h1 => .isFalse (fun he => h1 (by cases he; rfl))

/-- Decidable equality on dict entry lists. -/
def PyVal.decEqDict : (d e : List (String × PyVal)) → Decidable (d = e)
  | [], [] => .isTrue rfl
  | [], _ :: _ => .isFalse (fun h => List.noConfusion h)
  | _ :: _, [] => .isFalse (fun h => List.noConfusion h)
  | (k, v) :: as, (k2, v2) :: bs =>
      if hk : k = k2 then
        match PyVal.decEq v v2 with
        | .isTrue h1 =>
            match PyVal.decEqDict as bs with
            | .isTrue h2 => .isTrue (by rw [hk, h1, h2])
            | .isFalse h2 => .isFalse (fun he => h2 (by cases he; rfl))
        | .isFalse h1 => .isFalse (fun he => h1 (by cases he; rfl))
      else .isFalse (fun he => hk (by cases he; rfl))

end

instance : DecidableEq PyVal := PyVal.decEq

/-- The sentinel value `"N/A"` used by the pipeline for unobserved fields. -/
def NA : PyVal := .vstr "N/A"

/-- The Python exceptions distinguished by the embedded code. -/
inductive PyErr where
  | valueError
  | typeError
  | attributeError
  | indexError
deriving DecidableEq, Repr

namespace PyVal

/-- Python truthiness (`bool(v)`): empty strings, `False`, `0`, empty
lists/dicts and `None` are falsy; everything else is truthy. -/
def truthy : PyVal → Bool
  | .vstr s => s ≠ ""
  | .vbool b => b
  | .vint n => n ≠ 0
  | .vlist l => !l.isEmpty
  | .vdict d => !d.isEmpty
  | .vnone => false

/-- `isinstance(v, dict)`. -/
def isDict : PyVal → Bool
  | .vdict _ => true
  | _ => false

/-- `isinstance(v, list)`. -/
def isList : PyVal → Bool
  | .vlist _ => true
  | _ => false

end PyVal

/-- `d.get(k)` on an ordered dict: the value at the first occurrence of
key `k`, if any. -/
def dget (d : List (String × PyVal)) (k : String) : Option PyVal :=
  match d.find? (fun e => e.1 = k) with
  | some e => some e.2
  | none => none

/-- `d.get(k, dflt)`. -/
def dgetD (d : List (String × PyVal)) (k : String) (dflt : PyVal) : PyVal :=
  (dget d k).getD dflt

/-- `k in d` on a dict. -/
def dmem (d : List (String × PyVal)) (k : String) : Bool :=
  d.any (fun e => e.1 = k)

/-- `d[k] = v` on an ordered dict: replace the value at an existing key in
place (keeping its position), or append a fresh entry at the end —
Python's insertion-order semantics. -/
def dset (d : List (String × PyVal)) (k : String) (v : PyVal) : List (String × PyVal) :=
  if dmem d k then d.map (fun e => if e.1 = k then (k, v) else e) else d ++ [(k, v)]

/-- `str.lower()` (ASCII case folding, which is all the code relies on). -/
def strLower (s : String) : String := ⟨s.data.map Char.toLower⟩

/-- The whitespace characters removed by Python's `str.strip()`. -/
def isPySpace (c : Char) : Bool :=
  c = ' ' ∨ c = '\t' ∨ c = '\n' ∨ c = '\r' ∨ c = '\x0b' ∨ c = '\x0c'

/-- `str.strip()`: remove leading and trailing whitespace. -/
def strStrip (s : String) : String :=
  ⟨((s.data.dropWhile isPySpace).reverse.dropWhile isPySpace).reverse⟩

mutual

/-- Python `repr` of a value in this domain (strings quoted; the code only
ever uses it through `str` on values without embedded quotes). -/
def pyRepr : PyVal → String
  | .vstr s => "'" ++ s ++ "'"
  | .vbool b => if b then "True" else "False"
  | .vint n => toString n
  | .vnone => "None"
  | .vlist l => "[" ++ pyReprList l ++ "]"
  | .vdict d => "\x7b" ++ pyReprDict d ++ "\x7d"

/-- Comma-separated `repr`s of the elements of a list. -/
def pyReprList : List PyVal → String
  | [] => ""
  | [v] => pyRepr v
  | v :: rest => pyRepr v ++ ", " ++ pyReprList rest

/-- Comma-separated `repr`s of the entries of a dict. -/
def pyReprDict : List (String × PyVal) → String
  | [] => ""
  | [(k, v)] => "'" ++ k ++ "': " ++ pyRepr v
  | (k, v) :: rest => "'" ++ k ++ "': " ++ pyRepr v ++ ", " ++ pyReprDict rest

end

/-- Python `str(v)`: the string itself for strings, `repr` otherwise. -/
def pyStr : PyVal → String
  | .vstr s => s
  | v => pyRepr v

/-- `DataMerger.ensure_list` (data_merger.py lines 36-53): `None` becomes
`["N/A"]`, lists stay, any other value is wrapped in a singleton list. -/
def ensure_list : PyVal → List PyVal
  | .vnone => [NA]
  | .vlist l => l
  | v => [v]

/-- Leap-year rule of the proleptic Gregorian calendar used by
`datetime`. -/
def isLeapYear (y : Nat) : Bool :=
  (y % 4 = 0 && y % 100 ≠ 0) || y % 400 = 0

/-- Days in a month, as `datetime.date` validates them. -/
def daysInMonth (y m : Nat) : Nat :=
  if m = 2 then (if isLeapYear y then 29 else 28)
  else if m = 4 ∨ m = 6 ∨ m = 9 ∨ m = 11 then 30
  else 31

/-- Two-digit decimal value of two digit characters. -/
def digits2 (a b : Char) : Nat :=
  (a.toNat - '0'.toNat) * 10 + (b.toNat - '0'.toNat)

/-- `datetime.fromisoformat` restricted to date-only inputs, the fragment
the merge engine feeds it: the string must be exactly `YYYY-MM-DD` with a
valid Gregorian date (year at least 1); anything else (including
`2024/01/15`-style strings and strings carrying a time part) raises
`ValueError`, modelled as `none`. -/
def fromisoformatDate (s : String) : Option (Nat × Nat × Nat) :=
  match s.toList with
  | [y1, y2, y3, y4, c1, m1, m2, c2, d1, d2] =>
      if y1.isDigit ∧ y2.isDigit ∧ y3.isDigit ∧ y4.isDigit ∧ c1 = '-' ∧
          m1.isDigit ∧ m2.isDigit ∧ c2 = '-' ∧ d1.isDigit ∧ d2.isDigit then
        if 1 ≤ digits2 y1 y2 * 100 + digits2 y3 y4 ∧ 1 ≤ digits2 m1 m2 ∧
            digits2 m1 m2 ≤ 12 ∧ 1 ≤ digits2 d1 d2 ∧
            digits2 d1 d2 ≤ daysInMonth (digits2 y1 y2 * 100 + digits2 y3 y4)
              (digits2 m1 m2) then
          some (digits2 y1 y2 * 100 + digits2 y3 y4, digits2 m1 m2, digits2 d1 d2)
        else none
      else none
  | _ => none

/-- Zero-pad to two digits (`%m`, `%d`). -/
def pad2 (n : Nat) : String :=
  if n < 10 then "0" ++ toString n else toString n

/-- Zero-pad to four digits (`%Y`). -/
def pad4 (n : Nat) : String :=
  if n < 10 then "000" ++ toString n
  else if n < 100 then "00" ++ toString n
  else if n < 1000 then "0" ++ toString n
  else toString n

/-- `dt.strftime("%Y-%m-%d")`. -/
def fmtYMD : Nat × Nat × Nat → String
  | (y, m, d) => pad4 y ++ "-" ++ pad2 m ++ "-" ++ pad2 d

/-- `date.replace("Z", "+00:00")`: substitute every occurrence of the
one-character pattern. -/
def replaceZ (s : String) : String :=
  ⟨s.data.foldr
    (fun c acc =>
      if c = 'Z' then '+' :: '0' :: '0' :: ':' :: '0' :: '0' :: acc
      else c :: acc) []⟩

/-- Parse-and-normalize for one incoming date string:
`datetime.fromisoformat(date.replace("Z", "+00:00")).strftime("%Y-%m-%d")`,
`none` when `fromisoformat` raises `ValueError`. -/
def normalizeDate (s : String) : Option String :=
  (fromisoformatDate (replaceZ s)).map fmtYMD

/-- The loop body of `DataMerger._format_dates`: each entry other than the
sentinel is parsed with `fromisoformat` and reformatted to `YYYY-MM-DD`; a
`ValueError` (unparsable date) is logged and the entry dropped; a
non-string entry raises `AttributeError` (no `.replace`), which
propagates. -/
def formatDatesLoop : List PyVal → Except PyErr (List PyVal)
  | [] => .ok []
  | v :: rest =>
      if v ≠ NA then
        match v with
        | .vstr s =>
            match normalizeDate s with
            | some r => (formatDatesLoop rest).map (fun tl => .vstr r :: tl)
            | none => formatDatesLoop rest
        | _ => .error .attributeError
      else formatDatesLoop rest

/-- `DataMerger._format_dates` (data_merger.py lines 91-111): the loop
above, with an empty outcome falling back to `["N/A"]`. -/
def format_dates (dates : List PyVal) : Except PyErr (List PyVal) :=
  (formatDatesLoop dates).map (fun f => if f = [] then [NA] else f)

/-- The `email`-branch list comprehension of `merge_field_values`:
`[email.lower().strip() for email in new_list if email != "N/A"]`; a
non-string entry other than the sentinel raises `AttributeError`. -/
def emailsLowerStrip : List PyVal → Except PyErr (List PyVal)
  | [] => .ok []
  | v :: rest =>
      if v ≠ NA then
        match v with
        | .vstr s => (emailsLowerStrip rest).map (fun tl => .vstr (strStrip (strLower s)) :: tl)
        | _ => .error .attributeError
      else emailsLowerStrip rest

/-- The default-branch deduplication loop of `merge_field_values`
(data_merger.py lines 81-88): walk `existing_list ++ new_list`, skip the
sentinel, and keep the first value for each distinct `str` image. -/
def dedupByStr (items : List PyVal) : List PyVal :=
  go [] items
where
  go (seen : List String) : List PyVal → List PyVal
    | [] => []
    | v :: rest =>
        if v ≠ NA then
          let key := pyStr v
          if key ∈ seen then go seen rest
          else v :: go (key :: seen) rest
        else go seen rest

/-- The fall-through branch of `merge_field_values`, shared by untyped and
other-typed fields: drop the sentinel from the existing side as soon as
any real new value is present, concatenate, deduplicate by `str` image,
and fall back to `["N/A"]`. -/
def mergeDefault (existing_list new_list : List PyVal) : List PyVal :=
  let kept :=
    if new_list.any (fun v => v ≠ NA) then existing_list.filter (fun v => v ≠ NA)
    else existing_list
  let merged := dedupByStr (kept ++ new_list)
  if merged = [] then [NA] else merged

/-- `cfg.get("type")` on a field configuration value. -/
def cfgType (field_config : PyVal) : PyVal :=
  match field_config with
  | .vdict d => dgetD d "type" .vnone
  | _ => .vnone

/-- `DataMerger.merge_field_values` (data_merger.py lines 55-89).  With a
truthy field config: `boolean` keeps only the boolean form of the last new
value (`IndexError` when the new list is empty), `date` reformats the new
values only, `email` lower-cases and trims the non-sentinel new values
only.  Otherwise the shared default branch `mergeDefault` applies. -/
def merge_field_values (existing new : PyVal) (field_config : PyVal) :
    Except PyErr (List PyVal) :=
  let existing_list := ensure_list existing
  let new_list := ensure_list new
  if field_config.truthy then
    if cfgType field_config = .vstr "boolean" then
      match new_list.getLast? with
      | some v => .ok [.vbool v.truthy]
      | none => .error .indexError
    else if cfgType field_config = .vstr "date" then
      format_dates new_list
    else if cfgType field_config = .vstr "email" then
      emailsLowerStrip new_list
    else
      .ok (mergeDefault existing_list new_list)
  else
    .ok (mergeDefault existing_list new_list)

/-- Shorthand for building a field-configuration dict value. -/
def cfg (entries : List (String × PyVal)) : PyVal := .vdict entries

/-- `QUICKBASE_SCHEMA` (src/utils/quickbase_schema.py), embedded with its
insertion order.  Section values are dicts of field configurations for the
five claim sections; the remaining top-level entries are themselves
configuration dicts, exactly as in the source. -/
def QUICKBASE_SCHEMA : List (String × PyVal) := [
  ("Requesting Party", cfg [
    ("Insurance Company", cfg [
      ("field_id", .vstr "field_1"), ("type", .vstr "string"),
      ("required", .vbool true),
      ("enum", .vlist [.vstr "Allianz", .vstr "State Farm", .vstr "GEICO"]),
      ("description", .vstr "Name of the insurance company.")]),
    ("Handler", cfg [
      ("field_id", .vstr "field_2"), ("type", .vstr "string"),
      ("required", .vbool true),
      ("description", .vstr "Handler's name and contact information.")]),
    ("Carrier Claim Number", cfg [
      ("field_id", .vstr "field_3"), ("type", .vstr "string"),
      ("required", .vbool true),
      ("pattern", .vstr "^[A-Z0-9]\x7b6,\x7d$"),
      ("description", .vstr "Unique claim number assigned by the carrier.")])]),
  ("Insured Information", cfg [
    ("Name", cfg [
      ("field_id", .vstr "field_4"), ("type", .vstr "string"),
      ("required", .vbool true),
      ("description", .vstr "Full name of the insured individual.")]),
    ("Contact #", cfg [
      ("field_id", .vstr "field_5"), ("type", .vstr "string"),
      ("required", .vbool true),
      ("pattern", .vstr "^\\+?[1-9]\\d\x7b1,14\x7d$"),
      ("description", .vstr "Contact number of the insured.")]),
    ("Loss Address", cfg [
      ("field_id", .vstr "field_6"), ("type", .vstr "string"),
      ("required", .vbool true),
      ("description", .vstr "Address where the loss occurred.")]),
    ("Public Adjuster", cfg [
      ("field_id", .vstr "field_7"), ("type", .vstr "string"),
      ("required", .vbool false),
      ("description", .vstr "Information about the public adjuster, if any.")]),
    ("Is the insured an Owner or a Tenant of the loss location?", cfg [
      ("field_id", .vstr "field_8"), ("type", .vstr "boolean"),
      ("required", .vbool true),
      ("description", .vstr "Whether the insured is an owner or tenant of the loss location.")])]),
  ("Adjuster Information", cfg [
    ("Adjuster Name", cfg [
      ("field_id", .vstr "field_9"), ("type", .vstr "string"),
      ("required", .vbool true),
      ("description", .vstr "Name of the adjuster.")]),
    ("Adjuster Phone Number", cfg [
      ("field_id", .vstr "field_10"), ("type", .vstr "string"),
      ("required", .vbool true),
      ("pattern", .vstr "^\\+?[1-9]\\d\x7b1,14\x7d$"),
      ("description", .vstr "Phone number of the adjuster.")]),
    ("Adjuster Email", cfg [
      ("field_id", .vstr "field_11"), ("type", .vstr "string"),
      ("required", .vbool true), ("format", .vstr "email"),
      ("pattern", .vstr "^[\\w\\.-]+@[\\w\\.-]+\\.\\w+$"),
      ("description", .vstr "Email address of the adjuster.")]),
    ("Job Title", cfg [
      ("field_id", .vstr "field_12"), ("type", .vstr "string"),
      ("required", .vbool false),
      ("description", .vstr "Job title of the adjuster.")]),
    ("Address", cfg [
      ("field_id", .vstr "field_13"), ("type", .vstr "string"),
      ("required", .vbool false),
      ("description", .vstr "Address of the adjuster.")]),
    ("Policy #", cfg [
      ("field_id", .vstr "field_14"), ("type", .vstr "string"),
      ("required", .vbool true),
      ("pattern", .vstr "^POL\\d\x7b6\x7d$"),
      ("description", .vstr "Policy number associated with the claim.")])]),
  ("Assignment Information", cfg [
    ("Date of Loss/Occurrence", cfg [
      ("field_id", .vstr "field_15"), ("type", .vstr "string"),
      ("required", .vbool true), ("format", .vstr "date"),
      ("description", .vstr "Date when the loss or occurrence happened.")]),
    ("Cause of loss", cfg [
      ("field_id", .vstr "field_16"), ("type", .vstr "string"),
      ("required", .vbool true),
      ("description", .vstr "Cause behind the loss.")]),
    ("Facts of Loss", cfg [
      ("field_id", .vstr "field_17"), ("type", .vstr "string"),
      ("required", .vbool false),
      ("description", .vstr "Detailed facts surrounding the loss.")]),
    ("Loss Description", cfg [
      ("field_id", .vstr "field_18"), ("type", .vstr "string"),
      ("required", .vbool true),
      ("description", .vstr "Description of the loss.")]),
    ("Residence Occupied During Loss", cfg [
      ("field_id", .vstr "field_19"), ("type", .vstr "boolean"),
      ("required", .vbool true),
      ("description", .vstr "Whether the residence was occupied during the loss.")]),
    ("Was Someone home at time of damage", cfg [
      ("field_id", .vstr "field_20"), ("type", .vstr "boolean"),
      ("required", .vbool true),
      ("description", .vstr "Whether someone was home at the time of damage.")]),
    ("Repair or Mitigation Progress", cfg [
      ("field_id", .vstr "field_21"), ("type", .vstr "string"),
      ("required", .vbool false),
      ("description", .vstr "Progress on repair or mitigation.")]),
    ("Type", cfg [
      ("field_id", .vstr "field_22"), ("type", .vstr "string"),
      ("required", .vbool false),
      ("enum", .vlist [.vstr "Wind", .vstr "Structural", .vstr "Hail", .vstr "Foundation", .vstr "Other"]),
      ("description", .vstr "Type of loss or claim.")]),
    ("Inspection type", cfg [
      ("field_id", .vstr "field_23"), ("type", .vstr "string"),
      ("required", .vbool false),
      ("description", .vstr "Type of inspection conducted.")])]),
  ("Assignment Type", cfg [
    ("Wind", cfg [
      ("field_id", .vstr "field_24"), ("type", .vstr "boolean"),
      ("required", .vbool false),
      ("description", .vstr "Wind-related damage.")]),
    ("Structural", cfg [
      ("field_id", .vstr "field_25"), ("type", .vstr "boolean"),
      ("required", .vbool false),
      ("description", .vstr "Structural damage.")]),
    ("Hail", cfg [
      ("field_id", .vstr "field_26"), ("type", .vstr "boolean"),
      ("required", .vbool false),
      ("description", .vstr "Hail-related damage.")]),
    ("Foundation", cfg [
      ("field_id", .vstr "field_27"), ("type", .vstr "boolean"),
      ("required", .vbool false),
      ("description", .vstr "Foundation-related damage.")]),
    ("Other", cfg [
      ("field_id", .vstr "field_28"), ("type", .vstr "object"),
      ("required", .vbool false),
      ("description", .vstr "Other types of damage."),
      ("properties", cfg [
        ("Checked", cfg [("type", .vstr "boolean"), ("required", .vbool true)]),
        ("Details", cfg [("type", .vstr "string"), ("required", .vbool false)])]),
      ("additionalProperties", .vbool false)])]),
  ("Additional details/Special Instructions", cfg [
    ("field_id", .vstr "field_29"), ("type", .vstr "string"),
    ("required", .vbool false),
    ("description", .vstr "Any additional details or special instructions.")]),
  ("Attachment(s)", cfg [
    ("field_id", .vstr "field_30"), ("type", .vstr "array"),
    ("items", cfg [("type", .vstr "string"), ("format", .vstr "uri")]),
    ("required", .vbool false),
    ("description", .vstr "List of attachments related to the email.")]),
  ("Entities", cfg [
    ("field_id", .vstr "field_31"), ("type", .vstr "object"),
    ("additionalProperties", cfg [("type", .vstr "array"),
      ("items", cfg [("type", .vstr "string")])]),
    ("description", .vstr "Entity extraction results")]),
  ("TransformerEntities", cfg [
    ("field_id", .vstr "field_32"), ("type", .vstr "object"),
    ("additionalProperties", cfg [("type", .vstr "array"),
      ("items", cfg [("type", .vstr "string")])]),
    ("description", .vstr "Transformer model entity extraction results")]),
  ("missing_fields", cfg [
    ("field_id", .vstr "field_33"), ("type", .vstr "array"),
    ("items", cfg [("type", .vstr "string")]),
    ("description", .vstr "List of missing required fields")]),
  ("inconsistent_fields", cfg [
    ("field_id", .vstr "field_34"), ("type", .vstr "array"),
    ("items", cfg [("type", .vstr "string")]),
    ("description", .vstr "List of fields with inconsistent values")]),
  ("user_notifications", cfg [
    ("field_id", .vstr "field_35"), ("type", .vstr "array"),
    ("items", cfg [("type", .vstr "string")]),
    ("description", .vstr "User notifications and warnings")])]

/-- A Change Record (`MergeChange` in data_merger.py): section, optional
field, old and new values, and the change type (`"create"`/`"update"`). -/
structure MergeChange where
  sectionName : String
  field : Option String
  old_value : PyVal
  new_value : PyVal
  change_type : String
deriving DecidableEq

/-- `schema_config.get(field, {})`: the field configuration looked up in
one section's schema dict (the schema section value is always a dict
here). -/
def schemaFieldCfg (schemaCfg : PyVal) (f : String) : PyVal :=
  match schemaCfg with
  | .vdict sc => dgetD sc f (.vdict [])
  | _ => .vdict []

/-- The per-field loop of the schema-section dict branch of
`merge_parsed_data` (data_merger.py lines 149-166): merge each incoming
field value into the section dict, storing the result and appending an
`update` record only when the merged value differs from the old one.  An
exception from `merge_field_values` propagates to the per-section handler,
which keeps the mutations already made and moves to the next section; the
loop therefore returns the partial state on error. -/
def mergeFieldsLoop (schemaCfg : PyVal) (secName : String) :
    List (String × PyVal) → List MergeChange → List (String × PyVal) →
    List (String × PyVal) × List MergeChange
  | sd, chs, [] => (sd, chs)
  | sd, chs, (f, v) :: rest =>
      match merge_field_values (dgetD sd f (.vlist [NA])) v
          (schemaFieldCfg schemaCfg f) with
      | .error _ => (sd, chs)
      | .ok merged =>
          if dgetD sd f (.vlist [NA]) = .vlist merged then
            mergeFieldsLoop schemaCfg secName sd chs rest
          else
            mergeFieldsLoop schemaCfg secName (dset sd f (.vlist merged))
              (chs ++ [⟨secName, some f, dgetD sd f (.vlist [NA]),
                .vlist merged, "update"⟩]) rest

/-- The canonical value the completion pass writes for a malformed
`Assignment Type -> Other` field. -/
def canonicalOther : PyVal :=
  .vlist [.vdict [("Checked", .vbool false), ("Details", NA)]]

/-- One iteration of the section loop of `merge_parsed_data`
(data_merger.py lines 134-237): dispatch on whether the section is in
`QUICKBASE_SCHEMA` and on the Python type of the incoming section value,
mutate the accumulated dict, and return the Change Records this section
appends.  Exceptions inside a section are caught by the per-section
handler (lines 232-237): the section's mutations made so far persist and
the loop continues, which the embedding renders by returning the current
state. -/
def mergeOneSection (result : List (String × PyVal))
    (sv : String × PyVal) : List (String × PyVal) × List MergeChange :=
  let s := sv.1
  let fields := sv.2
  if dmem QUICKBASE_SCHEMA s then
    let created := ¬ dmem result s
    let result0 := if created then dset result s (.vdict []) else result
    let chs0 : List MergeChange :=
      if created then [⟨s, none, .vnone, .vdict [], "create"⟩] else []
    match fields with
    | .vdict fvs =>
        match dgetD result0 s .vnone with
        | .vdict sd =>
            let r := mergeFieldsLoop (dgetD QUICKBASE_SCHEMA s (.vdict [])) s
              sd chs0 fvs
            (dset result0 s (.vdict r.1), r.2)
        | _ =>
            -- result[section].get raises AttributeError on a pre-existing
            -- non-dict section; the section handler catches it
            (result0, chs0)
    | .vlist fl =>
        let old_value := dgetD result0 s (.vlist [])
        match merge_field_values old_value (.vlist fl) .vnone with
        | .ok merged =>
            if old_value = .vlist merged then (result0, chs0)
            else (dset result0 s (.vlist merged),
                  chs0 ++ [⟨s, none, old_value, .vlist merged, "update"⟩])
        | .error _ => (result0, chs0)  -- unreachable: the default branch is total
    | _ =>
        let old_value := dgetD result0 s .vnone
        (dset result0 s fields,
         chs0 ++ [⟨s, none, old_value, fields, "update"⟩])
  else
    match fields with
    | .vlist fl =>
        let created := ¬ dmem result s
        let result0 := if created then dset result s (.vlist []) else result
        let chs0 : List MergeChange :=
          if created then [⟨s, none, .vnone, .vlist [], "create"⟩] else []
        match dgetD result0 s .vnone with
        | .vlist cur =>
            let new_items := fl.filter (fun x => ¬ x ∈ cur)
            let cur2 := cur ++ new_items
            let result1 := dset result0 s (.vlist cur2)
            if new_items.isEmpty then (result1, chs0)
            else
              -- old_value aliases the extended list in the source, so the
              -- record's old value equals its new value
              (result1, chs0 ++ [⟨s, none, .vlist cur2, .vlist cur2, "update"⟩])
        | _ =>
            -- membership/extend on a pre-existing non-list section raises
            -- before any mutation; the section handler catches it
            (result0, chs0)
    | _ =>
        let old_value := dgetD result s .vnone
        (dset result s fields,
         [⟨s, none, old_value, fields, "update"⟩])

/-- The section loop of `merge_parsed_data` over all entries of the
incoming partial result, in iteration order; each section mutates the
accumulated dict and appends its Change Records. -/
def mergeSections (original : List (String × PyVal))
    (new : List (String × PyVal)) : List (String × PyVal) × List MergeChange :=
  new.foldl
    (fun st e =>
      let r := mergeOneSection st.1 e
      (r.1, st.2 ++ r.2))
    (original, [])

/-- The required-section/field table hard-coded in `_validate_merged_data`
(data_merger.py lines 261-300); every field is declared with type
`list`. -/
def required_sections : List (String × List String) := [
  ("Requesting Party", ["Insurance Company", "Handler", "Carrier Claim Number"]),
  ("Insured Information",
    ["Name", "Contact #", "Loss Address", "Public Adjuster",
     "Is the insured an Owner or a Tenant of the loss location?"]),
  ("Adjuster Information",
    ["Adjuster Name", "Adjuster Phone Number", "Adjuster Email", "Job Title",
     "Address", "Policy #"]),
  ("Assignment Information",
    ["Date of Loss/Occurrence", "Cause of loss", "Facts of Loss",
     "Loss Description", "Residence Occupied During Loss",
     "Was Someone home at time of damage", "Repair or Mitigation Progress",
     "Type", "Inspection type"]),
  ("Assignment Type", ["Wind", "Structural", "Hail", "Foundation", "Other"])]

/-- Ensure one required field inside one section dict of the completion
pass: create it as `["N/A"]` when missing and wrap a non-list value into a
singleton list.  When the section content is not a dict, the source's
membership test or item assignment raises (`TypeError` on
lists/scalars, string indexing on strings), which the surrounding handler
wraps into `ValueError`. -/
def ensureRequiredField (d : List (String × PyVal)) (s f : String) :
    Except PyErr (List (String × PyVal)) :=
  match dgetD d s .vnone with
  | .vdict sd =>
      let sd1 := if dmem sd f then sd else dset sd f (.vlist [NA])
      match dgetD sd1 f .vnone with
      | .vlist _ => .ok (dset d s (.vdict sd1))
      | other => .ok (dset d s (.vdict (dset sd1 f (.vlist [other]))))
  | _ => .error .typeError

/-- Fold `ensureRequiredField` over the fields of one required section,
creating the section as `{}` first when absent. -/
def ensureRequiredSection (d : List (String × PyVal)) (s : String) :
    List String → Except PyErr (List (String × PyVal))
  | [] => .ok d
  | f :: rest =>
      match ensureRequiredField d s f with
      | .ok d1 => ensureRequiredSection d1 s rest
      | .error e => .error e

/-- The required-section loop of `_validate_merged_data`. -/
def ensureRequiredAll (d : List (String × PyVal)) :
    List (String × List String) → Except PyErr (List (String × PyVal))
  | [] => .ok d
  | (s, fs) :: rest =>
      let d0 := if dmem d s then d else dset d s (.vdict [])
      match ensureRequiredSection d0 s fs with
      | .ok d1 => ensureRequiredAll d1 rest
      | .error e => .error e

/-- The `Assignment Type -> Other` normalization of `_validate_merged_data`
(data_merger.py lines 316-332): a present, non-empty list value whose
first element is not a dict carrying both `Checked` and `Details` keys is
replaced by the canonical `[{Checked: False, Details: "N/A"}]`. -/
def otherNormalize (d : List (String × PyVal)) : List (String × PyVal) :=
  match dget d "Assignment Type" with
  | some (.vdict at_) =>
      match dget at_ "Other" with
      | some (.vlist (o0 :: _)) =>
          match o0 with
          | .vdict od =>
              if dmem od "Checked" ∧ dmem od "Details" then d
              else dset d "Assignment Type" (.vdict (dset at_ "Other" canonicalOther))
          | _ => dset d "Assignment Type" (.vdict (dset at_ "Other" canonicalOther))
      | _ => d
  | _ => d

/-- The trailing default-section pass of `_validate_merged_data`
(data_merger.py lines 333-340). -/
def finalDefaults (d : List (String × PyVal)) : List (String × PyVal) :=
  ["Entities", "TransformerEntities", "Additional details/Special Instructions",
   "Attachment(s)"].foldl
    (fun d s =>
      if dmem d s then d
      else dset d s (if s = "Attachment(s)" then .vlist [] else .vdict []))
    d

/-- `DataMerger._validate_merged_data` (data_merger.py lines 251-344): the
structural-completion pass.  Any exception inside it is wrapped into
`ValueError`, which `merge_parsed_data` re-raises. -/
def validate_merged_data (d : List (String × PyVal)) :
    Except PyErr (List (String × PyVal)) :=
  match ensureRequiredAll d required_sections with
  | .ok d1 => .ok (finalDefaults (otherNormalize d1))
  | .error _ => .error .valueError

/-- `DataMerger.merge_parsed_data` / `EnhancedParser.merge_parsed_data`
(data_merger.py lines 113-249, enhanced_parser.py lines 520-648): check
that both arguments are dicts (`ValueError` otherwise), run the section
loop, then the completion pass; a completion-pass failure is wrapped into
`ValueError` and re-raised.  On success, return the merged dict together
with the Change Records of this call. -/
def merge_parsed_data (original_data new_data : PyVal) :
    Except PyErr (List (String × PyVal) × List MergeChange) :=
  match original_data, new_data with
  | .vdict od, .vdict nd =>
      let r := mergeSections od nd
      match validate_merged_data r.1 with
      | .ok res2 => .ok (res2, r.2)
      | .error _ => .error .valueError
  | _, _ => .error .valueError

/-- What a stage's bounded-time worker call produced, seen from the
orchestrator loop of `EnhancedParser.parse` (enhanced_parser.py lines
353-379): a returned value, a `ConcurrentTimeoutError`, or any other
exception.  Stage bodies depend on external model pipelines, so the
embedding quantifies over their outcomes. -/
inductive StageOutcome where
  | ok (result : PyVal)
  | timedOut
  | raised
deriving DecidableEq

/-- The fixed, ordered stage list of `EnhancedParser.parse`
(enhanced_parser.py lines 315-352). -/
def pipelineStages : List String :=
  ["Initial Parsing", "NER Parsing", "Donut Parsing", "Sequence Model Parsing",
   "Comprehensive Validation", "Sentiment Analysis", "Post Processing",
   "JSON Validation"]

/-- The observable handling of one stage by the orchestrator loop. -/
inductive StageEvent where
  | skipped (stage : String)
  | completed (stage : String)
  | timedOut (stage : String)
  | errored (stage : String)
deriving DecidableEq

/-- The stage a `StageEvent` belongs to. -/
def StageEvent.stage : StageEvent → String
  | .skipped s => s
  | .completed s => s
  | .timedOut s => s
  | .errored s => s

/-- One iteration of the orchestrator loop body (enhanced_parser.py lines
353-379), for a stage that is not skipped: on a returned non-empty dict,
merge it into the accumulated document (a `ValueError` from the merge is
caught by the `except Exception` handler, leaving the document unchanged);
on `ConcurrentTimeoutError`, log and invoke `recover_from_failure`, which
only re-instantiates model pipelines and never touches the document; on
any other exception, log.  No branch raises past the loop body. -/
def runStage (pd : List (String × PyVal)) (name : String)
    (outcome : StageOutcome) : List (String × PyVal) × StageEvent :=
  match outcome with
  | .ok r =>
      if r.isDict ∧ r.truthy then
        match merge_parsed_data (.vdict pd) r with
        | .ok res => (res.1, .completed name)
        | .error _ => (pd, .errored name)
      else (pd, .completed name)
  | .timedOut => (pd, .timedOut name)
  | .raised => (pd, .errored name)

/-- `EnhancedParser.parse` (enhanced_parser.py lines 308-381): start from
the empty document, walk the fixed stage list in order, skip
`"Donut Parsing"` when no document image is supplied, and run every other
stage through `runStage`.  Returns the final accumulated document together
with the per-stage event trace. -/
def parse (document_image : Bool) (outcomes : String → StageOutcome) :
    List (String × PyVal) × List StageEvent :=
  pipelineStages.foldl
    (fun st name =>
      if name = "Donut Parsing" ∧ document_image = false then
        (st.1, st.2 ++ [.skipped name])
      else
        let r := runStage st.1 name (outcomes name)
        (r.1, st.2 ++ [r.2]))
    ([], [])

/-- `EnhancedParser.validate_input` (enhanced_parser.py lines 650-664) on
the typed inputs the entry point receives: fails when neither a truthy
email text nor a document image is present.  (`email_content` models the
optional string argument; an empty string is falsy in Python.) -/
def validate_input (email_content : Option String) (document_image : Bool) :
    Bool :=
  match email_content with
  | some s => s ≠ "" ∨ document_image
  | none => document_image

/-- The `value` extraction of the formatted-output loop of
`EnhancedParser.parse_email` (enhanced_parser.py lines 410-415):
`section_data.get(field, ["N/A"])[0]` when the stored value is a list
(`IndexError` on an empty list), `section_data.get(field, "N/A")`
otherwise; a non-dict section raises `AttributeError` on `.get`. -/
def parseEmailValue (section_data : PyVal) (f : String) : Except PyErr PyVal :=
  match section_data with
  | .vdict sd =>
      match dget sd f with
      | some (.vlist (v :: _)) => .ok v
      | some (.vlist []) => .error .indexError
      | _ => .ok (dgetD sd f NA)
  | _ => .error .attributeError

/-- Inner field loop of the formatted-output pass: visit only field
configurations that are dicts carrying a `field_id`, collect the formatted
value and (for required fields whose value is falsy or the sentinel) the
`"section -> field"` missing marker. -/
def formattedFieldsLoop (parsed : List (String × PyVal)) (secName : String)
    (formattedSec : List (String × PyVal)) (missing : List String) :
    List (String × PyVal) →
    Except PyErr (List (String × PyVal) × List String)
  | [] => .ok (formattedSec, missing)
  | (f, fc) :: rest =>
      match fc with
      | .vdict fcd =>
          if dmem fcd "field_id" then
            match parseEmailValue (dgetD parsed secName (.vdict [])) f with
            | .error e => .error e
            | .ok value =>
                let isMissing := (dgetD fcd "required" (.vbool false)) = .vbool true ∧
                  (value.truthy = false ∨ value = NA)
                formattedFieldsLoop parsed secName (dset formattedSec f value)
                  (if isMissing then missing ++ [secName ++ " -> " ++ f] else missing)
                  rest
          else formattedFieldsLoop parsed secName formattedSec missing rest
      | _ => formattedFieldsLoop parsed secName formattedSec missing rest

/-- Outer section loop of the formatted-output pass of `parse_email`
(enhanced_parser.py lines 400-420). -/
def formattedLoop (parsed : List (String × PyVal))
    (formatted : List (String × PyVal)) (missing : List String) :
    List (String × PyVal) →
    Except PyErr (List (String × PyVal) × List String)
  | [] => .ok (formatted, missing)
  | (s, fields) :: rest =>
      match fields with
      | .vdict fvs =>
          let secBase := match dget formatted s with
            | some (.vdict fs) => fs
            | _ => []
          match formattedFieldsLoop parsed s secBase missing fvs with
          | .error e => .error e
          | .ok (secOut, missing2) =>
              formattedLoop parsed
                (if secOut.isEmpty ∧ ¬ dmem formatted s then formatted
                 else dset formatted s (.vdict secOut))
                missing2 rest
      | _ => formattedLoop parsed formatted missing rest

/-- Append strings to the document's `validation_issues` list, modelling
`parsed_data["validation_issues"] = parsed_data.get("validation_issues", [])`
followed by `append`/`extend`; a pre-existing non-list raises. -/
def appendValidationIssues (d : List (String × PyVal)) (msgs : List String) :
    Except PyErr (List (String × PyVal)) :=
  match dgetD d "validation_issues" (.vlist []) with
  | .vlist cur => .ok (dset d "validation_issues"
      (.vlist (cur ++ msgs.map PyVal.vstr)))
  | _ => .error .attributeError

/-- The post-`parse` body of `EnhancedParser.parse_email` (enhanced_parser.py
lines 392-432), wrapped in the source's `try`/`except` that returns the
document reached so far on any exception.  `vj` stands for the external
`validate_json` check (jsonschema-backed). -/
def parseEmailPost (vj : PyVal → Bool × String)
    (parsed : List (String × PyVal)) : List (String × PyVal) :=
  let v := vj (.vdict parsed)
  let st1res := if v.1 then Except.ok parsed
    else appendValidationIssues parsed [v.2]
  match st1res with
  | .error _ => parsed
  | .ok st1 =>
      match formattedLoop st1 [] [] QUICKBASE_SCHEMA with
      | .error _ => st1
      | .ok (formatted, missing) =>
          let st2 := dset st1 "formatted_output" (.vdict formatted)
          if missing.isEmpty then st2
          else
            match appendValidationIssues st2
                (missing.map (fun f => "Missing required field: " ++ f)) with
            | .ok st3 => st3
            | .error _ => st2

/-- `EnhancedParser.parse_email` (enhanced_parser.py lines 383-432): when
`validate_input` rejects the inputs, return the empty dict `{}` at once —
no stage runs and no exception is raised; otherwise run `parse` and the
post-processing pass.  The event trace of the pipeline run (empty when the
input check failed) is returned alongside. -/
def parse_email (vj : PyVal → Bool × String) (email_content : Option String)
    (document_image : Bool) (outcomes : String → StageOutcome) :
    List (String × PyVal) × List StageEvent :=
  if validate_input email_content document_image = false then ([], [])
  else
    let pr := parse document_image outcomes
    (parseEmailPost vj pr.1, pr.2)

/-- The Python type name of a value, as it appears in error messages. -/
def pyTypeName : PyVal → String
  | .vstr _ => "str"
  | .vbool _ => "bool"
  | .vint _ => "int"
  | .vlist _ => "list"
  | .vdict _ => "dict"
  | .vnone => "NoneType"

/-- The message of the `AttributeError` raised at line 1222 of
enhanced_parser.py: `self._validate_against_schema` is defined nowhere on
`EnhancedParser` or its base class `BaseParser`, so looking it up fails. -/
def schemaValidationErrorMsg : String :=
  "'EnhancedParser' object has no attribute '_validate_against_schema'"

/-- `EnhancedParser._stage_schema_validation_internal` (enhanced_parser.py
lines 1204-1283).  The iteration over `QUICKBASE_SCHEMA` starts at
`"Requesting Party"` (not in the skip list) whose field dict is non-empty,
so the body always raises an `AttributeError` at its first field:
`parsed_data.get(section, {}).get(field)` when the stored section is not a
dict, and otherwise the call to the undefined method
`_validate_against_schema`.  The handler at lines 1279-1283 appends
`str(e)` to `validation_issues`; the known-value fuzzy-match block (lines
1228-1257) and the `missing_fields`/`inconsistent_fields` write-backs
(lines 1262-1273) are therefore unreachable.  When `validation_issues`
pre-exists as a non-list, the `+` inside the handler itself raises and the
document is returned unchanged to the caller's handler. -/
def stage_schema_validation_internal (parsed : List (String × PyVal)) :
    List (String × PyVal) :=
  let eMsg := match dgetD parsed "Requesting Party" (.vdict []) with
    | .vdict _ => schemaValidationErrorMsg
    | v => "'" ++ pyTypeName v ++ "' object has no attribute 'get'"
  match dgetD parsed "validation_issues" (.vlist []) with
  | .vlist cur =>
      dset parsed "validation_issues" (.vlist (cur ++ [.vstr eMsg]))
  | _ => parsed

/-- Outcome of the known-value reconciliation block for one field. -/
inductive ReconcileResult where
  | replaced (newValue : List PyVal)
  | inconsistent
  | untouched
deriving DecidableEq

/-- The known-value reconciliation block of
`_stage_schema_validation_internal` (enhanced_parser.py lines 1228-1257),
parameterized over the external similarity measure `ratio`
(`fuzz.partial_ratio`) and the configured threshold.  For a truthy,
non-sentinel stored value and a non-empty known-values list, the best
match is chosen by `max` over the known values keyed by similarity with
the lower-cased first stored value; if it is truthy and at least the
threshold the value is replaced by `[best]`, otherwise the field is
flagged inconsistent.  A non-string first value raises `AttributeError`
on `.lower()`.  This block is dead code in the current source (see
`stage_schema_validation_internal`), but embeds the behaviour the stage
body specifies for it. -/
def reconcileKnownValues (ratio : String → String → Nat) (threshold : Nat)
    (known_values : List String) (value : List PyVal) :
    Except PyErr ReconcileResult :=
  if (PyVal.vlist value).truthy ∧ value ≠ [NA] then
    match known_values with
    | [] => .ok .untouched
    | k :: ks =>
        match value with
        | .vstr v0 :: _ =>
            let key := fun (x : String) => ratio (strLower x) (strLower v0)
            let best := (k :: ks).foldl (fun b y => if key y > key b then y else b) k
            if best ≠ "" ∧ key best ≥ threshold then .ok (.replaced [.vstr best])
            else .ok .inconsistent
        | _ :: _ => .error .attributeError
        | [] => .ok .untouched
  else .ok .untouched

/-- Whether an `Except` computation succeeded. -/
def exceptOk {ε α : Type} : Except ε α → Bool
  | .ok _ => true
  | .error _ => false

/-- The value stored at `d[s][f]`, when `d[s]` is a dict carrying `f`. -/
def fieldVal (d : List (String × PyVal)) (s f : String) : Option PyVal :=
  match dget d s with
  | some (.vdict sd) => dget sd f
  | _ => none

/-- The value of the field location `(s, f)` with the merge loop's
defaults: a missing field (or a section that is not a dict) reads as the
sentinel list `["N/A"]`, matching `result[section].get(field, ["N/A"])`. -/
def fieldValD (d : List (String × PyVal)) (s f : String) : PyVal :=
  match dget d s with
  | some (.vdict sd) => dgetD sd f (.vlist [NA])
  | _ => .vlist [NA]

/-- The value of the section location `s` with the list-branch default
`[]`, matching `result.get(section, [])`. -/
def secValD (d : List (String × PyVal)) (s : String) : PyVal :=
  dgetD d s (.vlist [])

/-- The merged document of a successful `merge_parsed_data` call (empty on
failure). -/
def mergeOk (d p : PyVal) : List (String × PyVal) :=
  match merge_parsed_data d p with
  | .ok r => r.1
  | .error _ => []

/-- The Change Records of a successful `merge_parsed_data` call. -/
def mergeChanges (d p : PyVal) : List MergeChange :=
  match merge_parsed_data d p with
  | .ok r => r.2
  | .error _ => []

/-- The number of Change Records with `change_type = "update"`. -/
def countUpdates (chs : List MergeChange) : Nat :=
  (chs.filter (fun c => c.change_type = "update")).length

/-- The keys of an association list are distinct — every Python dict
satisfies this. -/
def NodupKeys (l : List (String × PyVal)) : Prop :=
  (l.map Prod.fst).Nodup

/-- Well-formedness of a partial result for per-call accounting: distinct
section keys, and distinct field keys inside every dict-valued section. -/
def ndWellFormed (nd : List (String × PyVal)) : Prop :=
  NodupKeys nd ∧ ∀ e ∈ nd, ∀ fvs, e.2 = PyVal.vdict fvs → NodupKeys fvs

/-- Whether the merge handles section `s` with incoming value `v` by the
unconditional wholesale-overwrite branch (a scalar under a schema section,
or a non-list under a non-schema section). -/
def isOverwrite (s : String) (v : PyVal) : Bool :=
  if dmem QUICKBASE_SCHEMA s then !(v.isDict || v.isList) else !v.isList

/-- Every wholesale overwrite in the partial result actually changes the
section's value. -/
def overwriteSafe (od nd : List (String × PyVal)) : Prop :=
  ∀ e ∈ nd, isOverwrite e.1 e.2 = true → secValD od e.1 ≠ e.2

/-- The number of locations touched by one incoming section entry whose
value differs between the documents `before` and `after`: field locations
for a dict under a schema section, the whole-section location
otherwise. -/
def diffCountEntry (before after : List (String × PyVal))
    (e : String × PyVal) : Nat :=
  if dmem QUICKBASE_SCHEMA e.1 then
    match e.2 with
    | .vdict fvs =>
        (fvs.map (fun fe =>
          if fieldValD after e.1 fe.1 ≠ fieldValD before e.1 fe.1 then 1 else 0)).sum
    | _ => if secValD after e.1 ≠ secValD before e.1 then 1 else 0
  else if secValD after e.1 ≠ secValD before e.1 then 1 else 0

/-- Total number of touched locations whose value differs between `before`
and `after`. -/
def diffCount (before after : List (String × PyVal))
    (nd : List (String × PyVal)) : Nat :=
  (nd.map (diffCountEntry before after)).sum

/-- Whether a stored `Assignment Type -> Other` value passes the
canonical-shape check of the completion pass (and is therefore left
untouched by it): not a non-empty list whose first element fails to be a
dict with both `Checked` and `Details` keys. -/
def otherShapeOk (v : PyVal) : Bool :=
  match v with
  | .vlist (o0 :: _) =>
      match o0 with
      | .vdict od => dmem od "Checked" && dmem od "Details"
      | _ => false
  | _ => true

/-- Whether the partial result writes the `Assignment Type -> Other`
field. -/
def touchesOther (nd : List (String × PyVal)) : Bool :=
  match dget nd "Assignment Type" with
  | some (.vdict fvs) => dmem fvs "Other"
  | _ => false

/-- The orchestrator loop of `parse`, starting from an arbitrary
accumulated state and walking an arbitrary suffix of the stage list. -/
def parseFrom (document_image : Bool) (outcomes : String → StageOutcome)
    (st : List (String × PyVal) × List StageEvent) (stages : List String) :
    List (String × PyVal) × List StageEvent :=
  stages.foldl
    (fun st name =>
      if name = "Donut Parsing" ∧ document_image = false then
        (st.1, st.2 ++ [.skipped name])
      else
        let r := runStage st.1 name (outcomes name)
        (r.1, st.2 ++ [r.2]))
    st

/-- Decidable equality on `Except` results, for concrete evaluation. -/
instance exceptDecEq {e a : Type} [DecidableEq e] [DecidableEq a] :
    DecidableEq (Except e a) := fun x y =>
  match x, y with
  | .ok u, .ok v =>
      if h : u = v then .isTrue (by rw [h])
      else .isFalse (fun hc => h (by cases hc; rfl))
  | .error u, .error v =>
      if h : u = v then .isTrue (by rw [h])
      else .isFalse (fun hc => h (by cases hc; rfl))
  | .ok _, .error _ => .isFalse (fun hc => Except.noConfusion hc)
  | .error _, .ok _ => .isFalse (fun hc => Except.noConfusion hc)

/-- A concrete accumulated document for exercising the accounting law. -/
def odC4 : List (String × PyVal) :=
  [("Requesting Party",
    PyVal.vdict [("Carrier Claim Number", PyVal.vlist [PyVal.vstr "X"])])]

/-- A concrete partial result for exercising the accounting law. -/
def ndC4 : List (String × PyVal) :=
  [("Requesting Party",
    PyVal.vdict [("Carrier Claim Number", PyVal.vlist [PyVal.vstr "Y"])])]

/-- The seen-set the deduplication loop has accumulated after a prefix of
its input. -/
def dedupSeen (seen : List String) : List PyVal → List String
  | [] => seen
  | v :: rest =>
      if v ≠ NA then
        if pyStr v ∈ seen then dedupSeen seen rest
        else dedupSeen (pyStr v :: seen) rest
      else dedupSeen seen rest

/-- Every section of a partial result is a schema section carrying a dict —
the shape every pipeline stage emits. -/
def ndSchemaDicts (nd : List (String × PyVal)) : Bool :=
  nd.all (fun e => dmem QUICKBASE_SCHEMA e.1 && e.2.isDict)

/-- No field merge of the partial result raises.  A failure of
`merge_field_values` depends only on the incoming value and the field
configuration, never on the stored value, so it is tested at the fixed
stored value `None`. -/
def mergeTotalB (nd : List (String × PyVal)) : Bool :=
  nd.all (fun e =>
    match e.2 with
    | .vdict fvs => fvs.all (fun fe =>
        exceptOk (merge_field_values .vnone fe.2
          (schemaFieldCfg (dgetD QUICKBASE_SCHEMA e.1 (.vdict [])) fe.1)))
    | _ => true)

/-- An incoming field is at a fixpoint of the stored section dict: the
stored value is exactly what merging the incoming value into it returns. -/
def fieldFix (sd : List (String × PyVal)) (secCfg : PyVal)
    (fe : String × PyVal) : Prop :=
  ∃ l, dgetD sd fe.1 (.vlist [NA]) = .vlist l ∧
    merge_field_values (.vlist l) fe.2 (schemaFieldCfg secCfg fe.1) = .ok l

/-- An incoming section entry is absorbed by the document: the section is
present, and if it holds a dict, every incoming field is at a fixpoint. -/
def secAbsorbed (d : List (String × PyVal)) (e : String × PyVal) : Prop :=
  dmem d e.1 = true ∧
    ∀ sd, dgetD d e.1 .vnone = .vdict sd → ∀ fvs, e.2 = PyVal.vdict fvs →
      ∀ fe ∈ fvs, fieldFix sd (dgetD QUICKBASE_SCHEMA e.1 (.vdict [])) fe

/-- A required-table row is satisfied: the section is a dict and every
required field holds a list. -/
def reqOK (d : List (String × PyVal)) (s : String) (fs : List String) : Prop :=
  ∃ sd, dget d s = some (.vdict sd) ∧ ∀ f ∈ fs, ∃ l, dget sd f = some (.vlist l)

/-- A field location read with the list-sentinel default holds the list
`l`, inside a dict-valued section. -/
def fieldHasList (d : List (String × PyVal)) (s f : String)
    (l : List PyVal) : Prop :=
  ∃ sd, dget d s = some (.vdict sd) ∧ dgetD sd f (.vlist [NA]) = .vlist l

/-- A concrete partial result for exercising the re-merge law. -/
def ndC7 : List (String × PyVal) :=
  [("Assignment Type", PyVal.vdict [("Wind", PyVal.vbool true)])]

/-- A field location holds the list `l` proper: the section is a dict and
the field key is present with a list value. -/
def fieldList (d : List (String × PyVal)) (s f : String)
    (l : List PyVal) : Prop :=
  ∃ sd, dget d s = some (.vdict sd) ∧ dget sd f = some (.vlist l)

theorem dget_nil (k : String) : dget [] k = none := rfl

theorem dget_cons (e : String × PyVal) (d : List (String × PyVal)) (k : String) :
    dget (e :: d) k = if e.1 = k then some e.2 else dget d k := by
  by_cases h : e.1 = k <;> simp [dget, List.find?, h]

theorem dmem_nil (k : String) : dmem [] k = false := rfl

theorem dmem_cons (e : String × PyVal) (d : List (String × PyVal)) (k : String) :
    dmem (e :: d) k = (decide (e.1 = k) || dmem d k) := by
  simp [dmem]

theorem dmem_iff_dget {d : List (String × PyVal)} {k : String} :
    dmem d k = true ↔ dget d k ≠ none := by
  induction d with
  | nil => simp [dmem, dget]
  | cons e rest ih =>
      rw [dmem_cons, dget_cons]
      by_cases h : e.1 = k <;> simp [h, ih]

theorem dmem_false_dget {d : List (String × PyVal)} {k : String}
    (h : dmem d k = false) : dget d k = none := by
  by_cases hg : dget d k = none
  · exact hg
  · exact absurd (dmem_iff_dget.mpr hg) (by simp [h])

theorem dget_append (d d' : List (String × PyVal)) (k : String) :
    dget (d ++ d') k = match dget d k with
      | some v => some v
      | none => dget d' k := by
  induction d with
  | nil => simp [dget_nil]
  | cons e rest ih =>
      rw [List.cons_append, dget_cons, dget_cons]
      by_cases h : e.1 = k <;> simp [h, ih]

theorem dget_replace_self (d : List (String × PyVal)) (k : String) (v : PyVal)
    (h : dmem d k = true) :
    dget (d.map (fun e => if e.1 = k then (k, v) else e)) k = some v := by
  induction d with
  | nil => simp [dmem] at h
  | cons e rest ih =>
      rw [dmem_cons] at h
      by_cases he : e.1 = k
      · simp [dget_cons, he]
      · simp only [List.map_cons, he, if_false]
        rw [dget_cons]
        simp only [he, if_false]
        exact ih (by simpa [he] using h)

theorem dget_replace_ne (d : List (String × PyVal)) (k k' : String) (v : PyVal)
    (h : k' ≠ k) :
    dget (d.map (fun e => if e.1 = k then (k, v) else e)) k' = dget d k' := by
  induction d with
  | nil => simp
  | cons e rest ih =>
      by_cases he : e.1 = k
      · simp only [List.map_cons, he, if_true]
        rw [dget_cons, dget_cons]
        simp only [he]
        simp [Ne.symm h, ih]
      · simp only [List.map_cons, he, if_false]
        rw [dget_cons, dget_cons]
        by_cases he' : e.1 = k' <;> simp [he', ih]

theorem dmem_eq_isSome (d : List (String × PyVal)) (k : String) :
    dmem d k = (dget d k).isSome := by
  induction d with
  | nil => rfl
  | cons e rest ih =>
      rw [dmem_cons, dget_cons]
      by_cases h : e.1 = k <;> simp [h, ih]

theorem dget_dset_self (d : List (String × PyVal)) (k : String) (v : PyVal) :
    dget (dset d k v) k = some v := by
  unfold dset
  by_cases hm : dmem d k = true
  · rw [if_pos hm]
    exact dget_replace_self d k v hm
  · rw [if_neg hm, dget_append]
    rw [dmem_false_dget (by simpa using hm)]
    simp [dget_cons]

theorem dget_dset_ne (d : List (String × PyVal)) (k k' : String) (v : PyVal)
    (h : k' ≠ k) : dget (dset d k v) k' = dget d k' := by
  unfold dset
  by_cases hm : dmem d k = true
  · rw [if_pos hm]
    exact dget_replace_ne d k k' v h
  · rw [if_neg hm, dget_append, dget_cons]
    simp only [Ne.symm h, if_false, dget_nil]
    cases hg : dget d k' <;> simp

theorem dmem_dset (d : List (String × PyVal)) (k k' : String) (v : PyVal) :
    dmem (dset d k v) k' = (dmem d k' || decide (k' = k)) := by
  rw [dmem_eq_isSome, dmem_eq_isSome]
  by_cases hk : k' = k
  · subst hk
    rw [dget_dset_self]
    simp
  · rw [dget_dset_ne d k k' v hk]
    simp [hk]

theorem replace_id (d : List (String × PyVal)) (k : String) (v : PyVal)
    (h : dmem d k = false) :
    d.map (fun e => if e.1 = k then (k, v) else e) = d := by
  induction d with
  | nil => rfl
  | cons e rest ih =>
      rw [dmem_cons] at h
      have he : e.1 ≠ k := by
        intro hc; simp [hc] at h
      have hr : dmem rest k = false := by
        rcases Bool.eq_false_or_eq_true (dmem rest k) with h2 | h2
        · simp [h2] at h
        · exact h2
      simp [he, ih hr]

theorem keys_dmem (d : List (String × PyVal)) (k : String) :
    dmem d k = true ↔ k ∈ d.map Prod.fst := by
  induction d with
  | nil => simp [dmem]
  | cons e rest ih =>
      rw [dmem_cons]
      by_cases h : e.1 = k
      · subst h; simp
      · simp only [h, decide_False, Bool.false_or, List.map_cons, List.mem_cons]
        rw [ih]
        constructor
        · intro hh; exact Or.inr hh
        · rintro (hh | hh)
          · exact absurd hh.symm h
          · exact hh

theorem dset_eq_self {d : List (String × PyVal)} {k : String} {v : PyVal}
    (hnd : NodupKeys d) (h : dget d k = some v) : dset d k v = d := by
  have hm : dmem d k = true := by
    rw [dmem_eq_isSome, h]; rfl
  unfold dset
  rw [if_pos hm]
  induction d with
  | nil => rfl
  | cons e rest ih =>
      unfold NodupKeys at hnd
      simp only [List.map_cons, List.nodup_cons] at hnd
      rw [dget_cons] at h
      by_cases he : e.1 = k
      · have hv : e.2 = v := by simpa [he] using h
        have hrest : dmem rest k = false := by
          rcases Bool.eq_false_or_eq_true (dmem rest k) with h2 | h2
          · exact absurd (he ▸ (keys_dmem rest k).mp h2) hnd.1
          · exact h2
        simp only [List.map_cons, he, if_true]
        rw [replace_id rest k v hrest, ← he, ← hv]
      · simp only [List.map_cons, he, if_false]
        have h' : dget rest k = some v := by simpa [he] using h
        have hm' : dmem rest k = true := by rw [dmem_eq_isSome, h']; rfl
        rw [ih hnd.2 h' hm']

theorem keys_dset (d : List (String × PyVal)) (k : String) (v : PyVal) :
    (dset d k v).map Prod.fst =
      if dmem d k = true then d.map Prod.fst else d.map Prod.fst ++ [k] := by
  unfold dset
  by_cases hm : dmem d k = true
  · rw [if_pos hm, if_pos hm]
    induction d with
    | nil => rfl
    | cons e rest ih =>
        rw [dmem_cons] at hm
        by_cases he : e.1 = k
        · simp only [List.map_cons, he, if_true]
          congr 1
          rcases Bool.eq_false_or_eq_true (dmem rest k) with h2 | h2
          · exact ih h2
          · rw [replace_id rest k v h2]
        · simp only [List.map_cons, he, if_false]
          congr 1
          exact ih (by simpa [he] using hm)
  · rw [if_neg hm, if_neg hm]
    simp

theorem NodupKeys_dset {d : List (String × PyVal)} (k : String) (v : PyVal)
    (hnd : NodupKeys d) : NodupKeys (dset d k v) := by
  unfold NodupKeys at *
  rw [keys_dset]
  by_cases hm : dmem d k = true
  · rw [if_pos hm]; exact hnd
  · rw [if_neg hm]
    have : k ∉ d.map Prod.fst := by
      intro hc
      exact absurd ((keys_dmem d k).mpr hc) (by simp [hm])
    simp [List.nodup_append, hnd, this]

theorem formatDatesLoop_strings (dates : List String) :
    formatDatesLoop (dates.map PyVal.vstr) =
      .ok ((dates.filterMap
        (fun s => if s = "N/A" then none else normalizeDate s)).map PyVal.vstr) := by
  induction dates with
  | nil => rfl
  | cons s rest ih =>
      by_cases hna : s = "N/A"
      · simp [formatDatesLoop, hna, NA, ih]
      · have hne : PyVal.vstr s ≠ NA := by
          simp [NA, hna]
        cases hn : normalizeDate s with
        | none => simp [formatDatesLoop, hne, hna, hn, ih, NA]
        | some r => simp [formatDatesLoop, hne, hna, hn, ih, NA, Except.map]

theorem fromisoformatDate_valid {s : String} {y m d : Nat}
    (h : fromisoformatDate s = some (y, m, d)) :
    1 ≤ y ∧ 1 ≤ m ∧ m ≤ 12 ∧ 1 ≤ d ∧ d ≤ daysInMonth y m := by
  unfold fromisoformatDate at h
  split at h
  · split at h
    · split at h
      · rename_i hrange
        injection h with h2
        have hy := congrArg Prod.fst h2
        have hm := congrArg (fun p => p.2.1) h2
        have hd := congrArg (fun p => p.2.2) h2
        simp at hy hm hd
        rw [← hy, ← hm, ← hd]
        exact hrange
      · exact absurd h (by simp)
    · exact absurd h (by simp)
  · exact absurd h (by simp)

theorem emailsLowerStrip_strings (vals : List PyVal)
    (h : ∀ v ∈ vals, v = NA ∨ ∃ s, v = PyVal.vstr s) :
    emailsLowerStrip vals =
      .ok (vals.filterMap (fun v =>
        match v with
        | .vstr s => if s = "N/A" then none else some (.vstr (strStrip (strLower s)))
        | _ => none)) := by
  induction vals with
  | nil => rfl
  | cons v rest ih =>
      have hv := h v (by simp)
      have hrest : ∀ w ∈ rest, w = NA ∨ ∃ s, w = PyVal.vstr s :=
        fun w hw => h w (List.mem_cons_of_mem _ hw)
      rcases hv with hv | ⟨s, hv⟩
      · subst hv
        simp [emailsLowerStrip, NA, ih hrest]
      · subst hv
        by_cases hna : s = "N/A"
        · simp [emailsLowerStrip, hna, NA, ih hrest]
        · have hne : PyVal.vstr s ≠ NA := by simp [NA, hna]
          simp [emailsLowerStrip, hne, hna, ih hrest, Except.map]

theorem parse_eq_parseFrom (img : Bool) (oc : String → StageOutcome) :
    parse img oc = parseFrom img oc ([], []) pipelineStages := rfl

theorem parseFrom_nil (img : Bool) (oc : String → StageOutcome)
    (st : List (String × PyVal) × List StageEvent) :
    parseFrom img oc st [] = st := rfl

theorem parseFrom_cons (img : Bool) (oc : String → StageOutcome)
    (st : List (String × PyVal) × List StageEvent) (name : String)
    (rest : List String) :
    parseFrom img oc st (name :: rest) =
      parseFrom img oc
        (if name = "Donut Parsing" ∧ img = false then
          (st.1, st.2 ++ [.skipped name])
         else ((runStage st.1 name (oc name)).1,
               st.2 ++ [(runStage st.1 name (oc name)).2]))
        rest := by
  unfold parseFrom
  rw [List.foldl_cons]

theorem runStage_stage (pd : List (String × PyVal)) (name : String)
    (o : StageOutcome) : (runStage pd name o).2.stage = name := by
  unfold runStage
  cases o with
  | ok r =>
      by_cases hc : r.isDict = true ∧ r.truthy = true
      · simp only [hc, and_self, if_true]
        cases merge_parsed_data (.vdict pd) r <;> simp [StageEvent.stage]
      · simp only [if_neg hc]
        simp [StageEvent.stage]
  | timedOut => simp [StageEvent.stage]
  | raised => simp [StageEvent.stage]

theorem parseFrom_events (img : Bool) (oc : String → StageOutcome) :
    ∀ (stages : List String) (st : List (String × PyVal) × List StageEvent),
    ((parseFrom img oc st stages).2).map StageEvent.stage =
      st.2.map StageEvent.stage ++ stages := by
  intro stages
  induction stages with
  | nil => intro st; simp [parseFrom]
  | cons name rest ih =>
      intro st
      rw [parseFrom_cons]
      by_cases hskip : name = "Donut Parsing" ∧ img = false
      · rw [if_pos hskip, ih]
        simp [StageEvent.stage, hskip.1]
      · rw [if_neg hskip, ih]
        simp [runStage_stage]

/-- C2: a stage failure (timeout, an exception in the stage body, or a
`ValueError` raised by the merge of its result) never aborts the pipeline:
`parse` is a total function of the per-stage outcomes (every exception is
caught at the loop boundary, so none propagates out of `parse`), and for
every input-image flag and every assignment of outcomes the event trace
contains exactly one event per declared stage, in declared order — every
remaining stage still executes after any failure. -/
theorem C2_no_stage_failure_aborts_pipeline :
    ∀ (img : Bool) (outcomes : String → StageOutcome),
      ((parse img outcomes).2).map StageEvent.stage = pipelineStages := by
  intro img outcomes
  rw [parse_eq_parseFrom, parseFrom_events]
  rfl

/-- C1 (counterexample): in a run whose NER stage times out, the
orchestrator records no issue string at all — the final document has no
`validation_issues` entry even though the trace shows the timeout.  The
timeout handler at enhanced_parser.py lines 369-375 only logs and invokes
`recover_from_failure`; it never writes to the document. -/
theorem C1_counterexample :
    (StageEvent.timedOut "NER Parsing") ∈
      (parse true (fun s => if s = "NER Parsing" then .timedOut
                            else .ok (.vdict []))).2 ∧
    dget (parse true (fun s => if s = "NER Parsing" then .timedOut
                               else .ok (.vdict []))).1 "validation_issues"
      = none := by
  constructor
  · decide
  · decide

/-- C1 (amended): a stage that exceeds its timeout is logged and triggers
the recovery policy only; the orchestrator leaves the accumulated document
completely unchanged — so no already-merged field is removed, but also no
issue string naming the stage is recorded into `validation_issues` — and
processing continues with the remaining stages from the same document. -/
theorem C1_amended_timeout_is_transparent :
    ∀ (img : Bool) (outcomes : String → StageOutcome)
      (pd : List (String × PyVal)) (evs : List StageEvent)
      (name : String) (rest : List String),
      outcomes name = .timedOut →
      ¬(name = "Donut Parsing" ∧ img = false) →
      parseFrom img outcomes (pd, evs) (name :: rest) =
        parseFrom img outcomes (pd, evs ++ [.timedOut name]) rest := by
  intro img outcomes pd evs name rest ho hskip
  rw [parseFrom_cons, if_neg hskip]
  simp [runStage, ho]

/-- C1 (amended) witness: the amended statement applied to a one-stage
suffix with a concrete document. -/
theorem C1_amended_timeout_is_transparent_witness :
    parseFrom true (fun _ => .timedOut) ([("k", .vint 1)], []) ["NER Parsing"] =
      parseFrom true (fun _ => .timedOut)
        ([("k", .vint 1)], [.timedOut "NER Parsing"]) [] :=
  C1_amended_timeout_is_transparent true (fun _ => .timedOut) [("k", .vint 1)]
    [] "NER Parsing" [] rfl (by decide)

/-- C3 (counterexample): a non-mapping merge argument makes
`merge_parsed_data` fail with `ValueError` (data_merger.py lines 126-132
raise `ValueError`, re-raised at line 246), not with `TypeError` as the
claim states. -/
theorem C3_counterexample :
    merge_parsed_data (.vstr "x") (.vdict []) = .error .valueError ∧
    PyErr.valueError ≠ PyErr.typeError := by
  constructor
  · rfl
  · decide

/-- C3 (amended): a merge call in which either the accumulated document or
the partial result is not a mapping fails with `ValueError`; and any
failing merge call inside the orchestrator loop aborts only that merge —
the stage's handler catches the error, the accumulated document is kept
unchanged, and the pipeline continues (the event is `errored`, and by
`C2`-style reasoning the remaining stages still run). -/
theorem C3_amended_merge_value_error :
    (∀ a b : PyVal, (a.isDict = false ∨ b.isDict = false) →
      merge_parsed_data a b = .error .valueError) ∧
    (∀ (pd : List (String × PyVal)) (name : String) (r : PyVal) (e : PyErr),
      r.isDict = true → r.truthy = true →
      merge_parsed_data (.vdict pd) r = .error e →
      runStage pd name (.ok r) = (pd, .errored name)) := by
  constructor
  · intro a b h
    cases a <;> cases b <;>
      first
        | rfl
        | (exact absurd h (by simp [PyVal.isDict]))
  · intro pd name r e h1 h2 h3
    unfold runStage
    simp only [h1, h2, and_self, if_true, h3]

/-- C3 (amended) witness: a string accumulated document fails with
`ValueError`, and a merge call that raises (here: the completion pass
failing on a string-valued required section) leaves the orchestrator's
document unchanged and the pipeline alive. -/
theorem C3_amended_merge_value_error_witness :
    merge_parsed_data (.vstr "y") (.vdict []) = .error .valueError ∧
    runStage [("Requesting Party", .vstr "oops")] "NER Parsing"
        (.ok (.vdict [("X", .vint 1)])) =
      ([("Requesting Party", .vstr "oops")], .errored "NER Parsing") :=
  ⟨C3_amended_merge_value_error.1 (.vstr "y") (.vdict []) (Or.inl rfl),
   C3_amended_merge_value_error.2 [("Requesting Party", .vstr "oops")]
     "NER Parsing" (.vdict [("X", .vint 1)]) .valueError rfl rfl (by decide)⟩

/-- C6: for a boolean-typed field configuration, the merge is
last-write-wins — the result is the singleton list holding the Python
boolean form of the last new value, whatever the existing values are.  In
the concrete two-stage scenario on the schema's boolean field
`Assignment Type -> Wind`, observing `true` then `false` ends with the
value `[False]` and the second merge emits exactly one Change Record,
of type `update`. -/
theorem C6_boolean_last_write_wins :
    (∀ (field_config existing new v : PyVal),
        field_config.truthy = true →
        cfgType field_config = .vstr "boolean" →
        (ensure_list new).getLast? = some v →
        merge_field_values existing new field_config = .ok [.vbool v.truthy]) ∧
    (fieldVal
        (mergeOk
          (.vdict (mergeOk (.vdict [])
            (.vdict [("Assignment Type", .vdict [("Wind", .vbool true)])])))
          (.vdict [("Assignment Type", .vdict [("Wind", .vbool false)])]))
        "Assignment Type" "Wind" = some (.vlist [.vbool false]) ∧
     (mergeChanges
        (.vdict (mergeOk (.vdict [])
          (.vdict [("Assignment Type", .vdict [("Wind", .vbool true)])])))
        (.vdict [("Assignment Type", .vdict [("Wind", .vbool false)])])) =
       [⟨"Assignment Type", some "Wind", .vlist [.vbool true],
         .vlist [.vbool false], "update"⟩] ∧
     exceptOk (merge_parsed_data (.vdict [])
       (.vdict [("Assignment Type", .vdict [("Wind", .vbool true)])])) = true) := by
  refine ⟨?_, by decide, by decide, by decide⟩
  intro field_config existing new v h1 h2 h3
  unfold merge_field_values
  simp only [h1, h2, if_true, h3]

/-- C6 witness: the general statement applied to a boolean config with
existing `["N/A"]` and new values `[True, False]`. -/
theorem C6_boolean_last_write_wins_witness :
    merge_field_values (.vlist [NA]) (.vlist [.vbool true, .vbool false])
      (.vdict [("type", .vstr "boolean")]) = .ok [.vbool false] :=
  C6_boolean_last_write_wins.1 (.vdict [("type", .vstr "boolean")])
    (.vlist [NA]) (.vlist [.vbool true, .vbool false]) (.vbool false)
    rfl rfl rfl

/-- C5: for a date-typed field configuration, every incoming date string
is parsed with `fromisoformat` and normalized to `YYYY-MM-DD`, and only
the incoming strings that fail to parse are dropped (the result lists
exactly the normalized forms of the parsable incoming values, in order,
falling back to `["N/A"]` when none parses); every emitted string is the
`%Y-%m-%d` rendering of a valid calendar date.  In the two-stage scenario,
a field observed as `"2024/01/15"` (not ISO, hence unparsable by
`fromisoformat` and dropped) and then `"2024-01-15"` ends with the merged
value list `["2024-01-15"]` — one entry, not two. -/
theorem C5_date_normalization :
    (∀ (field_config existing : PyVal) (dates : List String),
        field_config.truthy = true →
        cfgType field_config = .vstr "date" →
        merge_field_values existing (.vlist (dates.map PyVal.vstr)) field_config =
          .ok (if (dates.filterMap
                  (fun s => if s = "N/A" then none else normalizeDate s)) = []
               then [NA]
               else ((dates.filterMap
                  (fun s => if s = "N/A" then none else normalizeDate s)).map
                    PyVal.vstr))) ∧
    (∀ (s r : String), normalizeDate s = some r →
        ∃ y m d, (1 ≤ y ∧ 1 ≤ m ∧ m ≤ 12 ∧ 1 ≤ d ∧ d ≤ daysInMonth y m) ∧
          r = fmtYMD (y, m, d)) ∧
    (merge_field_values (.vlist [NA]) (.vstr "2024/01/15")
        (.vdict [("type", .vstr "date")]) = .ok [NA] ∧
     merge_field_values (.vlist [NA]) (.vstr "2024-01-15")
        (.vdict [("type", .vstr "date")]) = .ok [.vstr "2024-01-15"]) := by
  refine ⟨?_, ?_, by decide, by decide⟩
  · intro field_config existing dates h1 h2
    have hbool : cfgType field_config ≠ .vstr "boolean" := by
      rw [h2]; decide
    unfold merge_field_values
    simp only [h1, if_true, h2, hbool, if_false, if_neg hbool]
    rw [show ensure_list (.vlist (dates.map PyVal.vstr)) = dates.map PyVal.vstr
        from rfl]
    unfold format_dates
    rw [formatDatesLoop_strings]
    rw [show ∀ (g : List PyVal → List PyVal) (x : List PyVal),
          Except.map (ε := PyErr) g (Except.ok x) = Except.ok (g x)
        from fun g x => rfl]
    by_cases he : (dates.filterMap
        (fun s => if s = "N/A" then none else normalizeDate s)) = []
    · simp [he]
    · simp [he, List.map_eq_nil_iff]
  · intro s r h
    unfold normalizeDate at h
    cases hp : fromisoformatDate (replaceZ s) with
    | none => rw [hp] at h; exact absurd h (by simp)
    | some ymd =>
        rw [hp] at h
        obtain ⟨y, m, d⟩ := ymd
        have hr : r = fmtYMD (y, m, d) := by
          rw [show Option.map fmtYMD (some (y, m, d)) =
              some (fmtYMD (y, m, d)) from rfl] at h
          exact (Option.some.inj h).symm
        exact ⟨y, m, d, fromisoformatDate_valid hp, hr⟩

/-- C5 witness: the general statement applied to a date config with one
invalid date (February 30) dropped and one valid date kept. -/
theorem C5_date_normalization_witness :
    merge_field_values (.vlist [.vstr "2020-01-01"])
      (.vlist (["2024-02-30", "2024-03-05"].map PyVal.vstr))
      (.vdict [("type", .vstr "date")]) = .ok [.vstr "2024-03-05"] := by
  have h := C5_date_normalization.1 (.vdict [("type", .vstr "date")])
    (.vlist [.vstr "2020-01-01"]) ["2024-02-30", "2024-03-05"] rfl rfl
  rw [h]
  decide

/-- C10: for an email-typed field configuration, `merge_field_values`
returns exactly the lower-cased, trimmed new values with sentinel entries
filtered out, discarding all existing values (the result does not depend
on `existing`); in particular, when every incoming value is `"N/A"` the
result is the empty list `[]`, not `["N/A"]` — the email branch is the
only branch of `merge_field_values` with no sentinel fallback. -/
theorem C10_email_merge_discards_existing :
    (∀ (field_config existing : PyVal) (vals : List PyVal),
        field_config.truthy = true →
        cfgType field_config = .vstr "email" →
        (∀ v ∈ vals, v = NA ∨ ∃ s, v = PyVal.vstr s) →
        merge_field_values existing (.vlist vals) field_config =
          .ok (vals.filterMap (fun v =>
            match v with
            | .vstr s => if s = "N/A" then none
                         else some (.vstr (strStrip (strLower s)))
            | _ => none))) ∧
    (merge_field_values (.vlist [.vstr "keep@x.com"]) (.vlist [NA, NA])
        (.vdict [("type", .vstr "email")]) = .ok []) := by
  refine ⟨?_, by decide⟩
  intro field_config existing vals h1 h2 hv
  have hbool : cfgType field_config ≠ .vstr "boolean" := by rw [h2]; decide
  have hdate : cfgType field_config ≠ .vstr "date" := by rw [h2]; decide
  unfold merge_field_values
  simp only [h1, if_true, h2, if_neg hbool, if_neg hdate]
  rw [show ensure_list (.vlist vals) = vals from rfl]
  exact emailsLowerStrip_strings vals hv

/-- C10 witness: the general statement applied to mixed-case, padded
email observations alongside a sentinel entry. -/
theorem C10_email_merge_discards_existing_witness :
    merge_field_values (.vlist [.vstr "old@x.com"])
      (.vlist [.vstr " Bob@Example.COM ", NA])
      (.vdict [("type", .vstr "email")]) = .ok [.vstr "bob@example.com"] := by
  have h := C10_email_merge_discards_existing.1
    (.vdict [("type", .vstr "email")]) (.vlist [.vstr "old@x.com"])
    [.vstr " Bob@Example.COM ", NA] rfl rfl
    (by
      intro v hv
      rcases List.mem_cons.mp hv with rfl | hv2
      · exact Or.inr ⟨_, rfl⟩
      · rw [List.mem_singleton.mp hv2]
        exact Or.inl rfl)
  rw [h]
  decide

/-- C8 (counterexample): calling the entry point with neither text content
nor a document image does not fail with any error — no `InputError` class
even exists in the codebase; `parse_email` logs and returns the empty dict
`{}` (enhanced_parser.py lines 388-390), with no stage executed. -/
theorem C8_counterexample :
    parse_email (fun _ => (true, "")) none false (fun _ => .ok (.vdict []))
      = ([], []) := by
  decide

/-- C8 (amended): when neither text content nor a document image is
supplied (or more generally whenever `validate_input` rejects the inputs),
`parse_email` returns the empty document `{}` immediately — before any
stage runs (the event trace is empty) and without raising. -/
theorem C8_amended_empty_input_returns_empty :
    ∀ (vj : PyVal → Bool × String) (ec : Option String) (img : Bool)
      (outcomes : String → StageOutcome),
      validate_input ec img = false →
      parse_email vj ec img outcomes = ([], []) := by
  intro vj ec img outcomes h
  unfold parse_email
  rw [h]
  rfl

/-- C8 (amended) witness: the amended statement applied to empty-string
text content and no image. -/
theorem C8_amended_empty_input_returns_empty_witness :
    parse_email (fun _ => (false, "bad")) (some "") false (fun _ => .raised)
      = ([], []) :=
  C8_amended_empty_input_returns_empty (fun _ => (false, "bad")) (some "")
    false (fun _ => .raised) (by decide)

/-- C9 (code bug): the schema-validation step never reaches its
fuzzy-match block.  Evaluating the stage on a document holding the
non-sentinel value `["Alianz"]` for `Insurance Company` (a field with
configured known values) shows the stage only appends the
`AttributeError` text for the undefined method `_validate_against_schema`
to `validation_issues`: the stored value is not replaced by a canonical
known value and no `inconsistent_fields` entry is produced. -/
theorem C9_schema_validation_stage_dead :
    stage_schema_validation_internal
        [("Requesting Party",
          .vdict [("Insurance Company", .vlist [.vstr "Alianz"])])] =
      [("Requesting Party",
        .vdict [("Insurance Company", .vlist [.vstr "Alianz"])]),
       ("validation_issues", .vlist [.vstr schemaValidationErrorMsg])] := by
  decide

/-- C4 (counterexample): merging the scalar section `{"Foo": 5}` into a
document already holding `Foo = 5` emits one `update` Change Record
(data_merger.py lines 220-231 append unconditionally) although no
section/field location changed value. -/
theorem C4_counterexample :
    countUpdates (mergeSections [("Foo", .vint 5)] [("Foo", .vint 5)]).2 = 1 ∧
    diffCount [("Foo", .vint 5)]
      (mergeSections [("Foo", .vint 5)] [("Foo", .vint 5)]).1
      [("Foo", .vint 5)] = 0 ∧
    countUpdates (mergeChanges (.vdict [("Foo", .vint 5)])
      (.vdict [("Foo", .vint 5)])) = 1 ∧
    diffCount [("Foo", .vint 5)]
      (mergeOk (.vdict [("Foo", .vint 5)]) (.vdict [("Foo", .vint 5)]))
      [("Foo", .vint 5)] = 0 := by
  refine ⟨by decide, by decide, by decide, by decide⟩

theorem countUpdates_append (a b : List MergeChange) :
    countUpdates (a ++ b) = countUpdates a + countUpdates b := by
  unfold countUpdates
  rw [List.filter_append, List.length_append]

theorem countUpdates_nil : countUpdates [] = 0 := rfl

theorem mergeFieldsLoop_changes (cfg : PyVal) (s : String) :
    ∀ (fvs : List (String × PyVal)) (sd : List (String × PyVal))
      (chs : List MergeChange),
    mergeFieldsLoop cfg s sd chs fvs =
      ((mergeFieldsLoop cfg s sd [] fvs).1,
       chs ++ (mergeFieldsLoop cfg s sd [] fvs).2) := by
  intro fvs
  induction fvs with
  | nil => intro sd chs; simp [mergeFieldsLoop]
  | cons fv rest ih =>
      intro sd chs
      obtain ⟨f, v⟩ := fv
      unfold mergeFieldsLoop
      split
      · simp
      · rename_i merged heq
        by_cases he : dgetD sd f (PyVal.vlist [NA]) = PyVal.vlist merged
        · rw [if_pos he, if_pos he]
          exact ih sd chs
        · have h1 := ih (dset sd f (PyVal.vlist merged))
            (chs ++ [⟨s, some f, dgetD sd f (PyVal.vlist [NA]),
              PyVal.vlist merged, "update"⟩])
          have h2 := ih (dset sd f (PyVal.vlist merged))
            [⟨s, some f, dgetD sd f (PyVal.vlist [NA]),
              PyVal.vlist merged, "update"⟩]
          rw [if_neg he, if_neg he, h1]
          simp only [List.nil_append]
          rw [h2]
          simp [List.append_assoc]

theorem dmem_dset_self (d : List (String × PyVal)) (k : String) (v : PyVal) :
    dmem (dset d k v) k = true := by
  rw [dmem_dset]
  simp

theorem dset_dset (d : List (String × PyVal)) (k : String) (v w : PyVal) :
    dset (dset d k v) k w = dset d k w := by
  by_cases hm : dmem d k = true
  · unfold dset
    rw [if_pos hm, if_pos hm, if_pos (by
      have := dmem_dset_self d k v
      unfold dset at this
      rw [if_pos hm] at this
      exact this)]
    rw [List.map_map]
    apply List.map_congr_left
    intro e _
    by_cases he : e.1 = k
    · simp [he]
    · simp [he]
  · unfold dset
    rw [if_neg hm, if_neg hm, if_pos (by
      have := dmem_dset_self d k v
      unfold dset at this
      rw [if_neg hm] at this
      exact this)]
    rw [List.map_append, replace_id d k w (by simpa using hm)]
    simp

theorem mergeOneSection_shape (d : List (String × PyVal)) (s : String)
    (v : PyVal) :
    (mergeOneSection d (s, v)).1 = d ∨
      ∃ w, (mergeOneSection d (s, v)).1 = dset d s w := by
  unfold mergeOneSection
  dsimp only
  by_cases hsch : dmem QUICKBASE_SCHEMA s = true
  case pos =>
    rw [if_pos hsch]
    by_cases hc : dmem d s = true
    case pos =>
      rw [if_neg (by simp [hc]), if_neg (by simp [hc])]
      cases v <;> dsimp only <;> (repeat' split) <;>
        first
          | (left; rfl)
          | (right; exact ⟨_, rfl⟩)
          | (right; exact ⟨_, dset_dset d s _ _⟩)
    case neg =>
      rw [if_pos (by simp [hc]), if_pos (by simp [hc])]
      cases v <;> dsimp only <;> (repeat' split) <;>
        first
          | (left; rfl)
          | (right; exact ⟨_, rfl⟩)
          | (right; exact ⟨_, dset_dset d s _ _⟩)
  case neg =>
    rw [if_neg hsch]
    cases v <;> dsimp only
    case vlist fl =>
      by_cases hc : dmem d s = true
      case pos =>
        rw [if_neg (by simp [hc]), if_neg (by simp [hc])]
        (repeat' split) <;>
          first
            | (left; rfl)
            | (right; exact ⟨_, rfl⟩)
            | (right; exact ⟨_, dset_dset d s _ _⟩)
      case neg =>
        rw [if_pos (by simp [hc]), if_pos (by simp [hc])]
        (repeat' split) <;>
          first
            | (left; rfl)
            | (right; exact ⟨_, rfl⟩)
            | (right; exact ⟨_, dset_dset d s _ _⟩)
    all_goals right; exact ⟨_, rfl⟩

theorem mergeOneSection_frame (d : List (String × PyVal)) (s t : String)
    (v : PyVal) (hne : t ≠ s) :
    dget (mergeOneSection d (s, v)).1 t = dget d t := by
  rcases mergeOneSection_shape d s v with h | ⟨w, h⟩
  · rw [h]
  · rw [h, dget_dset_ne d s t w hne]

theorem dgetD_dset_self (d : List (String × PyVal)) (k : String) (v dflt : PyVal) :
    dgetD (dset d k v) k dflt = v := by
  unfold dgetD
  rw [dget_dset_self]
  rfl

theorem dgetD_dset_ne (d : List (String × PyVal)) (k k' : String) (v dflt : PyVal)
    (h : k' ≠ k) : dgetD (dset d k v) k' dflt = dgetD d k' dflt := by
  unfold dgetD
  rw [dget_dset_ne d k k' v h]

theorem mergeFieldsLoop_frame (cfg : PyVal) (s : String) :
    ∀ (fvs : List (String × PyVal)) (sd : List (String × PyVal))
      (chs : List MergeChange) (f : String),
    f ∉ fvs.map Prod.fst →
    dget (mergeFieldsLoop cfg s sd chs fvs).1 f = dget sd f := by
  intro fvs
  induction fvs with
  | nil => intro sd chs f _; rfl
  | cons fv rest ih =>
      intro sd chs f hf
      obtain ⟨g, w⟩ := fv
      simp only [List.map_cons, List.mem_cons] at hf
      push_neg at hf
      unfold mergeFieldsLoop
      split
      · rfl
      · rename_i merged heq
        by_cases he : dgetD sd g (PyVal.vlist [NA]) = PyVal.vlist merged
        · rw [if_pos he]
          exact ih sd chs f hf.2
        · rw [if_neg he]
          rw [ih _ _ f hf.2]
          exact dget_dset_ne sd g f (.vlist merged) hf.1

theorem mergeFieldsLoop_count (cfg : PyVal) (s : String) :
    ∀ (fvs : List (String × PyVal)) (sd : List (String × PyVal)),
    NodupKeys fvs →
    countUpdates (mergeFieldsLoop cfg s sd [] fvs).2 =
      (fvs.map (fun fe =>
        if dgetD (mergeFieldsLoop cfg s sd [] fvs).1 fe.1 (.vlist [NA]) ≠
            dgetD sd fe.1 (.vlist [NA]) then 1 else 0)).sum := by
  intro fvs
  induction fvs with
  | nil => intro sd _; rfl
  | cons fv rest ih =>
      intro sd hnd
      obtain ⟨f, w⟩ := fv
      have hnd' : NodupKeys rest := by
        unfold NodupKeys at hnd ⊢
        simpa using hnd.of_cons
      have hfk : f ∉ rest.map Prod.fst := by
        unfold NodupKeys at hnd
        simp only [List.map_cons, List.nodup_cons] at hnd
        exact hnd.1
      unfold mergeFieldsLoop
      split
      · simp [countUpdates]
      · rename_i merged heq
        by_cases he : dgetD sd f (PyVal.vlist [NA]) = PyVal.vlist merged
        · simp only [if_pos he]
          have hfr : dget (mergeFieldsLoop cfg s sd [] rest).1 f = dget sd f :=
            mergeFieldsLoop_frame cfg s rest sd [] f hfk
          have h0 : dgetD (mergeFieldsLoop cfg s sd [] rest).1 f (.vlist [NA]) =
              dgetD sd f (.vlist [NA]) := by
            unfold dgetD; rw [hfr]
          rw [ih sd hnd']
          simp [h0]
        · simp only [if_neg he]
          rw [mergeFieldsLoop_changes]
          simp only [List.nil_append]
          rw [countUpdates_append]
          have hcu1 : countUpdates [⟨s, some f, dgetD sd f (.vlist [NA]),
              .vlist merged, "update"⟩] = 1 := rfl
          rw [hcu1, ih (dset sd f (.vlist merged)) hnd']
          have hfr : dget (mergeFieldsLoop cfg s (dset sd f (.vlist merged)) [] rest).1 f
              = dget (dset sd f (.vlist merged)) f :=
            mergeFieldsLoop_frame cfg s rest _ [] f hfk
          have h1 : dgetD (mergeFieldsLoop cfg s (dset sd f (.vlist merged)) [] rest).1
              f (.vlist [NA]) = .vlist merged := by
            unfold dgetD
            rw [hfr, dget_dset_self]
            rfl
          simp only [List.map_cons, List.sum_cons, h1]
          rw [if_pos (by exact fun hc => he hc.symm)]
          congr 1
          apply congrArg List.sum
          apply List.map_congr_left
          intro fe hfe
          have hne : fe.1 ≠ f := by
            intro hc
            exact hfk (hc ▸ (List.mem_map_of_mem Prod.fst hfe))
          rw [dgetD_dset_ne sd f fe.1 (.vlist merged) (.vlist [NA]) hne]

theorem mfv_vnone (a b : PyVal) :
    merge_field_values a b .vnone =
      .ok (mergeDefault (ensure_list a) (ensure_list b)) := rfl

theorem mergeDefault_ne_nil (a b : List PyVal) : mergeDefault a b ≠ [] := by
  unfold mergeDefault
  by_cases h : dedupByStr ((if b.any (fun v => v ≠ NA) then
      a.filter (fun v => v ≠ NA) else a) ++ b) = []
  · simp only [h, if_pos rfl]
    decide
  · simp only [if_neg h]
    exact h

theorem dgetD_vnone_some {d : List (String × PyVal)} {s : String} {w : PyVal}
    (h : dgetD d s .vnone = w) (hw : w ≠ .vnone) : dget d s = some w := by
  unfold dgetD at h
  cases hg : dget d s with
  | none => rw [hg] at h; exact absurd h.symm hw
  | some u => rw [hg] at h; rw [show (some u).getD .vnone = u from rfl] at h; rw [h]

theorem fieldValD_dset_self (x : List (String × PyVal)) (s f : String)
    (sd : List (String × PyVal)) :
    fieldValD (dset x s (.vdict sd)) s f = dgetD sd f (.vlist [NA]) := by
  unfold fieldValD
  rw [dget_dset_self]

theorem secValD_dset_self (x : List (String × PyVal)) (s : String) (w : PyVal) :
    secValD (dset x s w) s = w := by
  unfold secValD
  exact dgetD_dset_self x s w (.vlist [])

theorem fieldValD_of_dget {d : List (String × PyVal)} {s : String}
    {sd : List (String × PyVal)} (h : dget d s = some (.vdict sd)) (f : String) :
    fieldValD d s f = dgetD sd f (.vlist [NA]) := by
  unfold fieldValD
  rw [h]

theorem fieldValD_absent {d : List (String × PyVal)} {s : String}
    (h : dget d s = none) (f : String) : fieldValD d s f = .vlist [NA] := by
  unfold fieldValD
  rw [h]

theorem fieldValD_nondict {d : List (String × PyVal)} {s : String} {w : PyVal}
    (h : dget d s = some w) (hw : ∀ e, w ≠ .vdict e) (f : String) :
    fieldValD d s f = .vlist [NA] := by
  unfold fieldValD
  rw [h]
  cases w with
  | vdict e => exact absurd rfl (hw e)
  | vstr a => rfl
  | vbool a => rfl
  | vint a => rfl
  | vlist a => rfl
  | vnone => rfl

theorem secValD_of_dget {d : List (String × PyVal)} {s : String} {w : PyVal}
    (h : dget d s = some w) : secValD d s = w := by
  unfold secValD dgetD
  rw [h]
  rfl

theorem secValD_absent {d : List (String × PyVal)} {s : String}
    (h : dget d s = none) : secValD d s = .vlist [] := by
  unfold secValD dgetD
  rw [h]
  rfl

theorem dmem_false_dget_none {d : List (String × PyVal)} {s : String}
    (h : dmem d s = false) : dget d s = none := dmem_false_dget h

theorem mergeOneSection_count (d : List (String × PyVal)) (s : String) (v : PyVal)
    (hfv : ∀ fvs, v = PyVal.vdict fvs → NodupKeys fvs)
    (hov : isOverwrite s v = true → secValD d s ≠ v) :
    countUpdates (mergeOneSection d (s, v)).2 =
      diffCountEntry d (mergeOneSection d (s, v)).1 (s, v) := by
  unfold mergeOneSection diffCountEntry
  dsimp only
  by_cases hsch : dmem QUICKBASE_SCHEMA s = true
  case pos =>
    rw [if_pos hsch, if_pos hsch]
    by_cases hc : dmem d s = true
    case pos =>
      rw [if_neg (by simp [hc]), if_neg (by simp [hc])]
      cases v with
      | vdict fvs =>
          dsimp only
          split
          · rename_i sd hg
            have hget : dget d s = some (.vdict sd) := dgetD_vnone_some hg (by simp)
            rw [mergeFieldsLoop_count _ s fvs sd (hfv fvs rfl)]
            apply congrArg List.sum
            apply List.map_congr_left
            intro fe _
            rw [fieldValD_dset_self, fieldValD_of_dget hget]
          all_goals simp [countUpdates]
      | vlist fl =>
          dsimp only
          split
          · rename_i merged hm
            by_cases he : dgetD d s (.vlist []) = .vlist merged
            · simp only [if_pos he]
              simp [countUpdates]
            · simp only [if_neg he]
              rw [secValD_dset_self]
              rw [if_pos (show PyVal.vlist merged ≠ secValD d s from
                fun hx => he (by
                  rw [show secValD d s = dgetD d s (.vlist []) from rfl] at hx
                  exact hx.symm))]
              rfl
          · rename_i e hm
            rw [mfv_vnone] at hm
            exact absurd hm (by simp)
      | vstr a =>
          dsimp only
          rw [secValD_dset_self]
          rw [if_pos (Ne.symm (hov (by simp [isOverwrite, hsch, PyVal.isDict,
            PyVal.isList])))]
          rfl
      | vbool a =>
          dsimp only
          rw [secValD_dset_self]
          rw [if_pos (Ne.symm (hov (by simp [isOverwrite, hsch, PyVal.isDict,
            PyVal.isList])))]
          rfl
      | vint a =>
          dsimp only
          rw [secValD_dset_self]
          rw [if_pos (Ne.symm (hov (by simp [isOverwrite, hsch, PyVal.isDict,
            PyVal.isList])))]
          rfl
      | vnone =>
          dsimp only
          rw [secValD_dset_self]
          rw [if_pos (Ne.symm (hov (by simp [isOverwrite, hsch, PyVal.isDict,
            PyVal.isList])))]
          rfl
    case neg =>
      rw [if_pos (by simp [hc]), if_pos (by simp [hc])]
      have hdg : dget d s = none := dmem_false_dget (by simpa using hc)
      cases v with
      | vdict fvs =>
          dsimp only
          split
          · rename_i sd hg
            rw [dgetD_dset_self] at hg
            injection hg with hsd
            cases hsd
            have h1 := congrArg Prod.fst (mergeFieldsLoop_changes
              (dgetD QUICKBASE_SCHEMA s (.vdict [])) s fvs []
              [⟨s, none, .vnone, .vdict [], "create"⟩])
            have h2 := congrArg Prod.snd (mergeFieldsLoop_changes
              (dgetD QUICKBASE_SCHEMA s (.vdict [])) s fvs []
              [⟨s, none, .vnone, .vdict [], "create"⟩])
            dsimp only at h1 h2
            rw [h2]
            dsimp only
            rw [h1, countUpdates_append]
            rw [show countUpdates [⟨s, none, .vnone, .vdict [], "create"⟩] = 0
              from rfl]
            rw [mergeFieldsLoop_count _ s fvs [] (hfv fvs rfl)]
            rw [dset_dset]
            rw [Nat.zero_add]
            apply congrArg List.sum
            apply List.map_congr_left
            intro fe _
            rw [fieldValD_dset_self, fieldValD_absent hdg]
            rfl
          all_goals
            rename_i hg
            rw [dgetD_dset_self] at hg
            exact absurd hg (by simp)
      | vlist fl =>
          dsimp only
          split
          · rename_i merged hm
            have hold := dgetD_dset_self d s (.vdict []) (.vlist [])
            rw [hold]
            simp only [if_neg (show ¬ (PyVal.vdict [] = .vlist merged) from
              fun h => PyVal.noConfusion h)]
            rw [dset_dset, secValD_dset_self, secValD_absent hdg]
            rw [hold, mfv_vnone] at hm
            have hmer : merged = mergeDefault (ensure_list (.vdict []))
                (ensure_list (.vlist fl)) := by
              cases hm
              rfl
            rw [if_pos (show PyVal.vlist merged ≠ .vlist [] from by
              intro hx
              injection hx with hx2
              rw [hmer] at hx2
              exact mergeDefault_ne_nil _ _ hx2)]
            rfl
          · rename_i e hm
            rw [dgetD_dset_self, mfv_vnone] at hm
            exact absurd hm (by simp)
      | vstr a =>
          dsimp only
          rw [dset_dset, secValD_dset_self, secValD_absent hdg]
          rw [if_pos (show PyVal.vstr a ≠ .vlist [] from fun h => PyVal.noConfusion h)]
          rfl
      | vbool a =>
          dsimp only
          rw [dset_dset, secValD_dset_self, secValD_absent hdg]
          rw [if_pos (show PyVal.vbool a ≠ .vlist [] from fun h => PyVal.noConfusion h)]
          rfl
      | vint a =>
          dsimp only
          rw [dset_dset, secValD_dset_self, secValD_absent hdg]
          rw [if_pos (show PyVal.vint a ≠ .vlist [] from fun h => PyVal.noConfusion h)]
          rfl
      | vnone =>
          dsimp only
          rw [dset_dset, secValD_dset_self, secValD_absent hdg]
          rw [if_pos (show PyVal.vnone ≠ .vlist [] from fun h => PyVal.noConfusion h)]
          rfl
  case neg =>
    rw [if_neg hsch, if_neg hsch]
    cases v with
    | vlist fl =>
        dsimp only
        by_cases hc : dmem d s = true
        case pos =>
          rw [if_neg (by simp [hc]), if_neg (by simp [hc])]
          split
          · rename_i cur hg
            have hget : dget d s = some (.vlist cur) := dgetD_vnone_some hg (by simp)
            by_cases hni : (fl.filter (fun x => ¬ x ∈ cur)).isEmpty = true
            · simp only [if_pos hni]
              rw [secValD_dset_self, secValD_of_dget hget]
              have hfe : fl.filter (fun x => ¬ x ∈ cur) = [] :=
                List.isEmpty_iff.mp hni
              rw [hfe, List.append_nil]
              simp [countUpdates]
            · simp only [if_neg hni]
              rw [secValD_dset_self, secValD_of_dget hget]
              rw [if_pos (show PyVal.vlist (cur ++ fl.filter (fun x => ¬ x ∈ cur))
                  ≠ .vlist cur from by
                intro hx
                injection hx with hx2
                have : (fl.filter (fun x => ¬ x ∈ cur)).length = 0 := by
                  have hl := congrArg List.length hx2
                  rw [List.length_append] at hl
                  omega
                exact hni (by
                  rw [List.isEmpty_iff, ← List.length_eq_zero]
                  exact this))]
              rfl
          all_goals simp [countUpdates]
        case neg =>
          rw [if_pos (by simp [hc]), if_pos (by simp [hc])]
          have hdg : dget d s = none := dmem_false_dget (by simpa using hc)
          split
          · rename_i cur hg
            rw [dgetD_dset_self] at hg
            injection hg with hcur
            cases hcur
            by_cases hni : (fl.filter (fun x => ¬ x ∈ ([] : List PyVal))).isEmpty = true
            · simp only [if_pos hni]
              rw [dset_dset, secValD_dset_self, secValD_absent hdg]
              have hfe : fl.filter (fun x => ¬ x ∈ ([] : List PyVal)) = [] :=
                List.isEmpty_iff.mp hni
              rw [hfe, List.append_nil]
              simp [countUpdates]
            · simp only [if_neg hni]
              rw [dset_dset, secValD_dset_self, secValD_absent hdg]
              rw [if_pos (show PyVal.vlist ([] ++ fl.filter
                  (fun x => ¬ x ∈ ([] : List PyVal))) ≠ .vlist [] from by
                intro hx
                injection hx with hx2
                rw [List.nil_append] at hx2
                exact hni (by rw [List.isEmpty_iff]; exact hx2))]
              rfl
          all_goals
            rename_i hg
            rw [dgetD_dset_self] at hg
            exact absurd hg (by simp)
    | vdict fvs =>
        dsimp only
        rw [secValD_dset_self]
        rw [if_pos (Ne.symm (hov (by simp [isOverwrite, hsch, PyVal.isList])))]
        rfl
    | vstr a =>
        dsimp only
        rw [secValD_dset_self]
        rw [if_pos (Ne.symm (hov (by simp [isOverwrite, hsch, PyVal.isList])))]
        rfl
    | vbool a =>
        dsimp only
        rw [secValD_dset_self]
        rw [if_pos (Ne.symm (hov (by simp [isOverwrite, hsch, PyVal.isList])))]
        rfl
    | vint a =>
        dsimp only
        rw [secValD_dset_self]
        rw [if_pos (Ne.symm (hov (by simp [isOverwrite, hsch, PyVal.isList])))]
        rfl
    | vnone =>
        dsimp only
        rw [secValD_dset_self]
        rw [if_pos (Ne.symm (hov (by simp [isOverwrite, hsch, PyVal.isList])))]
        rfl

theorem mergeSections_state (nd : List (String × PyVal)) :
    ∀ (d : List (String × PyVal)) (chs : List MergeChange),
    nd.foldl (fun st e =>
        let r := mergeOneSection st.1 e
        (r.1, st.2 ++ r.2)) (d, chs) =
      ((mergeSections d nd).1, chs ++ (mergeSections d nd).2) := by
  induction nd with
  | nil => intro d chs; simp [mergeSections]
  | cons e rest ih =>
      intro d chs
      unfold mergeSections
      rw [List.foldl_cons, List.foldl_cons]
      dsimp only
      rw [ih (mergeOneSection d e).1 (chs ++ (mergeOneSection d e).2),
          ih (mergeOneSection d e).1 ([] ++ (mergeOneSection d e).2)]
      simp [List.append_assoc, mergeSections]

theorem mergeSections_cons (d : List (String × PyVal)) (e : String × PyVal)
    (rest : List (String × PyVal)) :
    mergeSections d (e :: rest) =
      ((mergeSections (mergeOneSection d e).1 rest).1,
       (mergeOneSection d e).2 ++
         (mergeSections (mergeOneSection d e).1 rest).2) := by
  unfold mergeSections
  rw [List.foldl_cons]
  dsimp only
  have := mergeSections_state rest (mergeOneSection d e).1
    ([] ++ (mergeOneSection d e).2)
  rw [this]
  simp [mergeSections]

theorem mergeSections_frame (nd : List (String × PyVal)) :
    ∀ (d : List (String × PyVal)) (t : String), t ∉ nd.map Prod.fst →
    dget (mergeSections d nd).1 t = dget d t := by
  induction nd with
  | nil => intro d t _; rfl
  | cons e rest ih =>
      intro d t ht
      simp only [List.map_cons, List.mem_cons] at ht
      push_neg at ht
      rw [mergeSections_cons]
      dsimp only
      rw [ih (mergeOneSection d e).1 t ht.2]
      obtain ⟨s, v⟩ := e
      exact mergeOneSection_frame d s t v ht.1

theorem secValD_congr {a b : List (String × PyVal)} {k : String}
    (h : dget a k = dget b k) : secValD a k = secValD b k := by
  unfold secValD dgetD
  rw [h]

theorem fieldValD_congr {a b : List (String × PyVal)} {k : String}
    (h : dget a k = dget b k) (f : String) : fieldValD a k f = fieldValD b k f := by
  unfold fieldValD
  rw [h]

theorem diffCountEntry_congr {b1 b2 a1 a2 : List (String × PyVal)}
    (e : String × PyVal)
    (hb : dget b1 e.1 = dget b2 e.1) (ha : dget a1 e.1 = dget a2 e.1) :
    diffCountEntry b1 a1 e = diffCountEntry b2 a2 e := by
  obtain ⟨s, v⟩ := e
  unfold diffCountEntry
  dsimp only
  by_cases h : dmem QUICKBASE_SCHEMA s = true
  · rw [if_pos h, if_pos h]
    cases v with
    | vdict fvs =>
        dsimp only
        apply congrArg List.sum
        apply List.map_congr_left
        intro fe _
        rw [fieldValD_congr ha, fieldValD_congr hb]
    | vlist a => dsimp only; rw [secValD_congr ha, secValD_congr hb]
    | vstr a => dsimp only; rw [secValD_congr ha, secValD_congr hb]
    | vbool a => dsimp only; rw [secValD_congr ha, secValD_congr hb]
    | vint a => dsimp only; rw [secValD_congr ha, secValD_congr hb]
    | vnone => dsimp only; rw [secValD_congr ha, secValD_congr hb]
  · rw [if_neg h, if_neg h, secValD_congr ha, secValD_congr hb]

/-- C4 (amended): for every merge call whose partial result has distinct
section keys (and distinct field keys inside each dict-valued section) and
performs no wholesale overwrite with an unchanged value, the number of
Change Records with `change_type = update` emitted by the section loop
equals the number of touched section/field locations whose value differs
before versus after the loop (with missing fields reading as the sentinel
default, and before the structural-completion pass, which may default
missing fields or canonicalize `Other` without emitting records).
Wholesale overwrites (a scalar under a schema section, or a non-list under
a non-schema section) emit an update record even when the value is
unchanged — see the counterexample. -/
theorem C4_amended_update_accounting :
    ∀ (od nd : List (String × PyVal)),
      ndWellFormed nd → overwriteSafe od nd →
      countUpdates (mergeSections od nd).2 =
        diffCount od (mergeSections od nd).1 nd := by
  intro od nd
  induction nd generalizing od with
  | nil => intro _ _; rfl
  | cons e rest ih =>
      intro hwf hov
      have hknd : NodupKeys rest := by
        have h1 := hwf.1
        unfold NodupKeys at h1 ⊢
        simpa using h1.of_cons
      have hs_not : e.1 ∉ rest.map Prod.fst := by
        have := hwf.1
        unfold NodupKeys at this
        simp only [List.map_cons, List.nodup_cons] at this
        exact this.1
      have hwf' : ndWellFormed rest :=
        ⟨hknd, fun x hx fvs hfvs => hwf.2 x (List.mem_cons_of_mem _ hx) fvs hfvs⟩
      have hov1 : isOverwrite e.1 e.2 = true → secValD od e.1 ≠ e.2 :=
        hov e (List.mem_cons_self _ _)
      have hov' : overwriteSafe (mergeOneSection od e).1 rest := by
        intro x hx hox
        have hne : x.1 ≠ e.1 := by
          intro hc
          exact hs_not (hc ▸ List.mem_map_of_mem Prod.fst hx)
        have hfr := mergeOneSection_frame od e.1 x.1 e.2 hne
        rw [secValD_congr (show dget (mergeOneSection od e).1 x.1 = dget od x.1
          from by
            have : (e.1, e.2) = e := rfl
            rw [this] at hfr
            exact hfr)]
        exact hov x (List.mem_cons_of_mem _ hx) hox
      have hcnt1 := mergeOneSection_count od e.1 e.2
        (fun fvs hfvs => hwf.2 e (List.mem_cons_self _ _) fvs hfvs) hov1
      have hee : (e.1, e.2) = e := rfl
      rw [hee] at hcnt1
      rw [mergeSections_cons]
      dsimp only
      rw [countUpdates_append]
      rw [ih (mergeOneSection od e).1 hwf' hov']
      unfold diffCount
      rw [List.map_cons, List.sum_cons]
      congr 1
      · rw [hcnt1]
        refine @diffCountEntry_congr od od (mergeOneSection od e).1
          ((mergeSections (mergeOneSection od e).1 rest).1) e rfl ?_
        exact (mergeSections_frame rest (mergeOneSection od e).1 e.1 hs_not).symm
      · apply congrArg List.sum
        apply List.map_congr_left
        intro x hx
        have hne : x.1 ≠ e.1 := by
          intro hc
          exact hs_not (hc ▸ List.mem_map_of_mem Prod.fst hx)
        refine diffCountEntry_congr x ?_ rfl
        have hfr := mergeOneSection_frame od e.1 x.1 e.2 hne
        rw [hee] at hfr
        exact hfr

theorem C4_amended_update_accounting_witness :
    ndWellFormed ndC4 ∧ overwriteSafe odC4 ndC4 ∧
    countUpdates (mergeSections odC4 ndC4).2 =
      diffCount odC4 (mergeSections odC4 ndC4).1 ndC4 := by
  have hwf : ndWellFormed ndC4 := by
    refine ⟨by unfold NodupKeys ndC4; decide, ?_⟩
    intro e he fvs hfv
    simp only [ndC4, List.mem_singleton] at he
    subst he
    have h2 : PyVal.vdict [("Carrier Claim Number", PyVal.vlist [PyVal.vstr "Y"])]
        = PyVal.vdict fvs := hfv
    injection h2 with h
    rw [← h]
    unfold NodupKeys
    decide
  have hov : overwriteSafe odC4 ndC4 := by
    intro e he h1
    simp only [ndC4, List.mem_singleton] at he
    subst he
    exact absurd h1 (by decide)
  exact ⟨hwf, hov, C4_amended_update_accounting odC4 ndC4 hwf hov⟩

theorem dedupSeen_nil (seen : List String) : dedupSeen seen [] = seen := rfl

theorem dedup_go_append (xs : List PyVal) :
    ∀ (seen : List String) (ys : List PyVal),
    dedupByStr.go seen (xs ++ ys) =
      dedupByStr.go seen xs ++ dedupByStr.go (dedupSeen seen xs) ys := by
  induction xs with
  | nil => intro seen ys; rfl
  | cons v rest ih =>
      intro seen ys
      by_cases hv : v = NA
      · subst hv
        simp only [List.cons_append, dedupByStr.go, dedupSeen, ne_eq,
          not_true_eq_false, if_false, ite_false]
        exact ih seen ys
      · by_cases hk : pyStr v ∈ seen
        · simp only [List.cons_append, dedupByStr.go, dedupSeen, ne_eq, hv,
            not_false_eq_true, if_true, ite_true, hk]
          exact ih seen ys
        · simp only [List.cons_append, dedupByStr.go, dedupSeen, ne_eq, hv,
            not_false_eq_true, if_true, ite_true, hk, if_false, ite_false]
          exact congrArg (List.cons v) (ih (pyStr v :: seen) ys)

theorem dedupSeen_mem (xs : List PyVal) :
    ∀ (seen : List String) (key : String),
    key ∈ dedupSeen seen xs ↔
      key ∈ seen ∨ ∃ v ∈ xs, v ≠ NA ∧ pyStr v = key := by
  induction xs with
  | nil => intro seen key; simp [dedupSeen]
  | cons v rest ih =>
      intro seen key
      by_cases hv : v = NA
      · subst hv
        simp only [dedupSeen, ne_eq, not_true_eq_false, if_false, ite_false]
        rw [ih seen key]
        constructor
        · rintro (h | h)
          · exact Or.inl h
          · exact Or.inr (by
              obtain ⟨w, hw, hwna, hws⟩ := h
              exact ⟨w, List.mem_cons_of_mem _ hw, hwna, hws⟩)
        · rintro (h | ⟨w, hw, hwna, hws⟩)
          · exact Or.inl h
          · rcases List.mem_cons.mp hw with h1 | h1
            · exact absurd h1 hwna
            · exact Or.inr ⟨w, h1, hwna, hws⟩
      · by_cases hk : pyStr v ∈ seen
        · simp only [dedupSeen, ne_eq, hv, not_false_eq_true, if_true,
            ite_true, hk]
          rw [ih seen key]
          constructor
          · rintro (h | ⟨w, hw, hwna, hws⟩)
            · exact Or.inl h
            · exact Or.inr ⟨w, List.mem_cons_of_mem _ hw, hwna, hws⟩
          · rintro (h | ⟨w, hw, hwna, hws⟩)
            · exact Or.inl h
            · rcases List.mem_cons.mp hw with h1 | h1
              · subst h1; exact Or.inl (hws ▸ hk)
              · exact Or.inr ⟨w, h1, hwna, hws⟩
        · simp only [dedupSeen, ne_eq, hv, not_false_eq_true, if_true,
            ite_true, hk, if_false, ite_false]
          rw [ih (pyStr v :: seen) key]
          constructor
          · rintro (h | ⟨w, hw, hwna, hws⟩)
            · rcases List.mem_cons.mp h with h1 | h1
              · exact Or.inr ⟨v, List.mem_cons_self _ _, hv, h1.symm⟩
              · exact Or.inl h1
            · exact Or.inr ⟨w, List.mem_cons_of_mem _ hw, hwna, hws⟩
          · rintro (h | ⟨w, hw, hwna, hws⟩)
            · exact Or.inl (List.mem_cons_of_mem _ h)
            · rcases List.mem_cons.mp hw with h1 | h1
              · subst h1; exact Or.inl (hws ▸ List.mem_cons_self _ _)
              · exact Or.inr ⟨w, h1, hwna, hws⟩

theorem dedup_go_sub (ys : List PyVal) :
    ∀ (seen : List String),
    (∀ y ∈ ys, y = NA ∨ pyStr y ∈ seen) → dedupByStr.go seen ys = [] := by
  induction ys with
  | nil => intro seen _; rfl
  | cons v rest ih =>
      intro seen h
      rcases h v (List.mem_cons_self _ _) with hv | hv
      · subst hv
        simp only [dedupByStr.go, ne_eq, not_true_eq_false, if_false,
          ite_false]
        exact ih seen (fun y hy => h y (List.mem_cons_of_mem _ hy))
      · by_cases hna : v = NA
        · subst hna
          simp only [dedupByStr.go, ne_eq, not_true_eq_false, if_false,
            ite_false]
          exact ih seen (fun y hy => h y (List.mem_cons_of_mem _ hy))
        · simp only [dedupByStr.go, ne_eq, hna, not_false_eq_true, if_true,
            ite_true, hv]
          exact ih seen (fun y hy => h y (List.mem_cons_of_mem _ hy))

theorem dedup_go_go (xs : List PyVal) :
    ∀ (seen : List String),
    dedupByStr.go seen (dedupByStr.go seen xs) = dedupByStr.go seen xs := by
  induction xs with
  | nil => intro seen; rfl
  | cons v rest ih =>
      intro seen
      by_cases hv : v = NA
      · subst hv
        simp only [dedupByStr.go, ne_eq, not_true_eq_false, if_false,
          ite_false]
        exact ih seen
      · by_cases hk : pyStr v ∈ seen
        · simp only [dedupByStr.go, ne_eq, hv, not_false_eq_true, if_true,
            ite_true, hk]
          exact ih seen
        · simp only [dedupByStr.go, ne_eq, hv, not_false_eq_true, if_true,
            ite_true, hk, if_false, ite_false]
          rw [ih (pyStr v :: seen)]

theorem dedup_go_ne_NA (xs : List PyVal) :
    ∀ (seen : List String) (v : PyVal),
    v ∈ dedupByStr.go seen xs → v ≠ NA := by
  induction xs with
  | nil => intro seen v h; exact absurd h (List.not_mem_nil v)
  | cons w rest ih =>
      intro seen v h
      by_cases hw : w = NA
      · subst hw
        simp only [dedupByStr.go, ne_eq, not_true_eq_false, if_false,
          ite_false] at h
        exact ih seen v h
      · by_cases hk : pyStr w ∈ seen
        · simp only [dedupByStr.go, ne_eq, hw, not_false_eq_true, if_true,
            ite_true, hk] at h
          exact ih seen v h
        · simp only [dedupByStr.go, ne_eq, hw, not_false_eq_true, if_true,
            ite_true, hk, if_false, ite_false] at h
          rcases List.mem_cons.mp h with h1 | h1
          · subst h1; exact hw
          · exact ih (pyStr w :: seen) v h1

theorem dedup_go_cover (xs : List PyVal) :
    ∀ (seen : List String) (y : PyVal), y ∈ xs → y ≠ NA →
    pyStr y ∈ seen ∨ ∃ v ∈ dedupByStr.go seen xs, pyStr v = pyStr y := by
  induction xs with
  | nil => intro seen y h _; exact absurd h (List.not_mem_nil y)
  | cons w rest ih =>
      intro seen y hy hyna
      by_cases hw : w = NA
      · subst hw
        simp only [dedupByStr.go, ne_eq, not_true_eq_false, if_false,
          ite_false]
        rcases List.mem_cons.mp hy with h1 | h1
        · exact absurd h1 hyna
        · exact ih seen y h1 hyna
      · by_cases hk : pyStr w ∈ seen
        · simp only [dedupByStr.go, ne_eq, hw, not_false_eq_true, if_true,
            ite_true, hk]
          rcases List.mem_cons.mp hy with h1 | h1
          · subst h1; exact Or.inl hk
          · exact ih seen y h1 hyna
        · simp only [dedupByStr.go, ne_eq, hw, not_false_eq_true, if_true,
            ite_true, hk, if_false, ite_false]
          rcases List.mem_cons.mp hy with h1 | h1
          · subst h1
            exact Or.inr ⟨y, List.mem_cons_self _ _, rfl⟩
          · rcases ih (pyStr w :: seen) y h1 hyna with h2 | ⟨v, hv, hvs⟩
            · rcases List.mem_cons.mp h2 with h3 | h3
              · exact Or.inr ⟨w, List.mem_cons_self _ _, h3.symm⟩
              · exact Or.inl h3
            · exact Or.inr ⟨v, List.mem_cons_of_mem _ hv, hvs⟩

theorem dedup_ne_nil {xs : List PyVal} {y : PyVal} (hy : y ∈ xs) (hna : y ≠ NA) :
    dedupByStr.go [] xs ≠ [] := by
  rcases dedup_go_cover xs [] y hy hna with h | ⟨v, hv, _⟩
  · exact absurd h (List.not_mem_nil _)
  · intro hnil
    rw [hnil] at hv
    exact absurd hv (List.not_mem_nil v)

theorem dedup_absorb (zs nl : List PyVal)
    (hcov : ∀ y ∈ nl, y = NA ∨ ∃ v ∈ dedupByStr.go [] zs, pyStr v = pyStr y) :
    dedupByStr.go [] (dedupByStr.go [] zs ++ nl) = dedupByStr.go [] zs := by
  rw [dedup_go_append]
  rw [dedup_go_go]
  rw [dedup_go_sub nl (dedupSeen [] (dedupByStr.go [] zs)) ?_]
  · exact List.append_nil _
  · intro y hy
    rcases hcov y hy with h | ⟨v, hv, hvs⟩
    · exact Or.inl h
    · refine Or.inr ?_
      rw [dedupSeen_mem]
      exact Or.inr ⟨v, hv, dedup_go_ne_NA _ [] v hv, hvs⟩

theorem mergeDefault_idem (el nl : List PyVal) :
    mergeDefault (mergeDefault el nl) nl = mergeDefault el nl := by
  by_cases hany : nl.any (fun v => v ≠ NA) = true
  · obtain ⟨y, hy, hyd⟩ := List.any_eq_true.mp hany
    have hyna : y ≠ NA := of_decide_eq_true hyd
    have hne : dedupByStr.go [] (el.filter (fun v => v ≠ NA) ++ nl) ≠ [] :=
      dedup_ne_nil (List.mem_append_right _ hy) hyna
    have hcov : ∀ z ∈ nl, z = NA ∨
        ∃ v ∈ dedupByStr.go [] (el.filter (fun v => v ≠ NA) ++ nl),
          pyStr v = pyStr z := by
      intro z hz
      by_cases hzna : z = NA
      · exact Or.inl hzna
      · rcases dedup_go_cover (el.filter (fun v => v ≠ NA) ++ nl) [] z
          (List.mem_append_right _ hz) hzna with h | h
        · exact absurd h (List.not_mem_nil _)
        · exact Or.inr h
    have hmval : mergeDefault el nl =
        dedupByStr.go [] (el.filter (fun v => v ≠ NA) ++ nl) := by
      unfold mergeDefault dedupByStr
      rw [if_pos hany, if_neg hne]
    rw [hmval]
    unfold mergeDefault dedupByStr
    rw [if_pos hany]
    rw [List.filter_eq_self.mpr
      (fun v hv => decide_eq_true (dedup_go_ne_NA _ [] v hv))]
    dsimp only
    rw [dedup_absorb _ nl hcov]
    rw [if_neg hne]
  · have hall : ∀ z ∈ nl, z = NA := by
      intro z hz
      by_contra hzna
      exact hany (List.any_eq_true.mpr ⟨z, hz, decide_eq_true hzna⟩)
    have hmval : mergeDefault el nl =
        if dedupByStr.go [] (el ++ nl) = [] then [NA]
        else dedupByStr.go [] (el ++ nl) := by
      unfold mergeDefault dedupByStr
      rw [if_neg hany]
    by_cases hnil : dedupByStr.go [] (el ++ nl) = []
    · rw [hmval, if_pos hnil]
      unfold mergeDefault dedupByStr
      rw [if_neg hany]
      dsimp only
      rw [dedup_go_sub ([NA] ++ nl) [] ?_]
      · rw [if_pos rfl]
      · intro z hz
        rcases List.mem_append.mp hz with h | h
        · exact Or.inl (List.mem_singleton.mp h)
        · exact Or.inl (hall z h)
    · rw [hmval, if_neg hnil]
      unfold mergeDefault dedupByStr
      rw [if_neg hany]
      dsimp only
      rw [dedup_absorb (el ++ nl) nl (fun z hz => Or.inl (hall z hz))]
      rw [if_neg hnil]

theorem merge_field_values_fix {x v c : PyVal} {m : List PyVal}
    (h : merge_field_values x v c = .ok m) :
    merge_field_values (.vlist m) v c = .ok m := by
  unfold merge_field_values at h ⊢
  by_cases ht : c.truthy = true
  · rw [if_pos ht] at h ⊢
    by_cases hb : cfgType c = .vstr "boolean"
    · rw [if_pos hb] at h ⊢
      exact h
    · rw [if_neg hb] at h ⊢
      by_cases hd : cfgType c = .vstr "date"
      · rw [if_pos hd] at h ⊢
        exact h
      · rw [if_neg hd] at h ⊢
        by_cases he : cfgType c = .vstr "email"
        · rw [if_pos he] at h ⊢
          exact h
        · rw [if_neg he] at h ⊢
          have hm : m = mergeDefault (ensure_list x) (ensure_list v) :=
            (Except.ok.inj h).symm
          rw [show ensure_list (PyVal.vlist m) = m from rfl, hm]
          rw [mergeDefault_idem]
  · rw [if_neg ht] at h ⊢
    have hm : m = mergeDefault (ensure_list x) (ensure_list v) :=
      (Except.ok.inj h).symm
    rw [show ensure_list (PyVal.vlist m) = m from rfl, hm]
    rw [mergeDefault_idem]

theorem merge_field_values_err {x v c : PyVal} {e : PyErr}
    (h : merge_field_values x v c = .error e) (y : PyVal) :
    merge_field_values y v c = .error e := by
  unfold merge_field_values at h ⊢
  by_cases ht : c.truthy = true
  · rw [if_pos ht] at h ⊢
    by_cases hb : cfgType c = .vstr "boolean"
    · rw [if_pos hb] at h ⊢
      exact h
    · rw [if_neg hb] at h ⊢
      by_cases hd : cfgType c = .vstr "date"
      · rw [if_pos hd] at h ⊢
        exact h
      · rw [if_neg hd] at h ⊢
        by_cases he : cfgType c = .vstr "email"
        · rw [if_pos he] at h ⊢
          exact h
        · rw [if_neg he] at h ⊢
          exact absurd h (by simp)
  · rw [if_neg ht] at h ⊢
    exact absurd h (by simp)

set_option maxHeartbeats 4000000 in
/-- Merging the partial result `{"Assignment Type": {"Other": "bad"}}` into
the empty document twice does not equal merging it once: the completion
pass canonicalizes the malformed `Other` value to
`[{Checked: False, Details: "N/A"}]` after the first merge, and the second
merge then appends `"bad"` to the canonical list again. -/
theorem C7_counterexample :
    mergeOk (PyVal.vdict (mergeOk (PyVal.vdict [])
        (PyVal.vdict [("Assignment Type",
          PyVal.vdict [("Other", PyVal.vstr "bad")])])))
      (PyVal.vdict [("Assignment Type",
        PyVal.vdict [("Other", PyVal.vstr "bad")])]) ≠
    mergeOk (PyVal.vdict [])
      (PyVal.vdict [("Assignment Type",
        PyVal.vdict [("Other", PyVal.vstr "bad")])]) := by decide

theorem dget_of_mem {l : List (String × PyVal)} {k : String} {v : PyVal}
    (hnd : NodupKeys l) (h : (k, v) ∈ l) : dget l k = some v := by
  induction l with
  | nil => exact absurd h (List.not_mem_nil _)
  | cons e rest ih =>
      unfold NodupKeys at hnd
      simp only [List.map_cons, List.nodup_cons] at hnd
      rcases List.mem_cons.mp h with h1 | h1
      · subst h1
        rw [dget_cons]
        simp
      · have hne : e.1 ≠ k := by
          intro hc
          exact hnd.1 (hc ▸ List.mem_map_of_mem Prod.fst h1)
        rw [dget_cons, if_neg hne]
        exact ih hnd.2 h1

theorem NodupKeys_mergeOneSection {d : List (String × PyVal)}
    (e : String × PyVal) (h : NodupKeys d) :
    NodupKeys (mergeOneSection d e).1 := by
  obtain ⟨s, v⟩ := e
  rcases mergeOneSection_shape d s v with h1 | ⟨w, h1⟩
  · rw [h1]; exact h
  · rw [h1]; exact NodupKeys_dset _ _ h

theorem NodupKeys_mergeSections (nd : List (String × PyVal)) :
    ∀ d, NodupKeys d → NodupKeys (mergeSections d nd).1 := by
  induction nd with
  | nil => intro d h; exact h
  | cons e rest ih =>
      intro d h
      rw [mergeSections_cons]
      exact ih _ (NodupKeys_mergeOneSection e h)

theorem ensureRequiredField_shape {d : List (String × PyVal)} {s f : String}
    {d' : List (String × PyVal)} (h : ensureRequiredField d s f = .ok d') :
    ∃ sd, dget d s = some (.vdict sd) ∧
      ((∃ l, dget sd f = some (.vlist l) ∧ d' = dset d s (.vdict sd)) ∨
       (dget sd f = none ∧
         d' = dset d s (.vdict (dset sd f (.vlist [NA])))) ∨
       (∃ w, dget sd f = some w ∧ (∀ l, w ≠ .vlist l) ∧
         d' = dset d s (.vdict (dset sd f (.vlist [w]))))) := by
  unfold ensureRequiredField at h
  cases hsec : dgetD d s .vnone with
  | vdict sd =>
      rw [hsec] at h
      refine ⟨sd, dgetD_vnone_some hsec (by intro hc; cases hc), ?_⟩
      by_cases hm : dmem sd f = true
      · simp only [hm, if_true, ite_true] at h
        cases hval : dgetD sd f .vnone with
        | vlist l =>
            rw [hval] at h
            have hget : dget sd f = some (.vlist l) :=
              dgetD_vnone_some hval (by intro hc; cases hc)
            exact Or.inl ⟨l, hget, (Except.ok.inj h).symm⟩
        | vnone =>
            rw [hval] at h
            have hget : dget sd f = some PyVal.vnone := by
              rw [dmem_eq_isSome] at hm
              cases hg : dget sd f with
              | none => rw [hg] at hm; cases hm
              | some u =>
                  unfold dgetD at hval
                  rw [hg] at hval
                  rw [show (some u).getD PyVal.vnone = u from rfl] at hval
                  rw [hval]
            refine Or.inr (Or.inr ⟨PyVal.vnone, hget, ?_, (Except.ok.inj h).symm⟩)
            intro l hc; cases hc
        | vstr a =>
            rw [hval] at h
            have hget : dget sd f = some (PyVal.vstr a) :=
              dgetD_vnone_some hval (by intro hc; cases hc)
            refine Or.inr (Or.inr ⟨PyVal.vstr a, hget, ?_, (Except.ok.inj h).symm⟩)
            intro l hc; cases hc
        | vbool a =>
            rw [hval] at h
            have hget : dget sd f = some (PyVal.vbool a) :=
              dgetD_vnone_some hval (by intro hc; cases hc)
            refine Or.inr (Or.inr ⟨PyVal.vbool a, hget, ?_, (Except.ok.inj h).symm⟩)
            intro l hc; cases hc
        | vint a =>
            rw [hval] at h
            have hget : dget sd f = some (PyVal.vint a) :=
              dgetD_vnone_some hval (by intro hc; cases hc)
            refine Or.inr (Or.inr ⟨PyVal.vint a, hget, ?_, (Except.ok.inj h).symm⟩)
            intro l hc; cases hc
        | vdict z =>
            rw [hval] at h
            have hget : dget sd f = some (PyVal.vdict z) :=
              dgetD_vnone_some hval (by intro hc; cases hc)
            refine Or.inr (Or.inr ⟨PyVal.vdict z, hget, ?_, (Except.ok.inj h).symm⟩)
            intro l hc; cases hc
      · have hmf : dmem sd f = false := by
          cases hb : dmem sd f
          · rfl
          · exact absurd hb hm
        simp only [hmf] at h
        rw [if_neg Bool.false_ne_true] at h
        have hget : dget sd f = none := by
          rw [dmem_eq_isSome] at hmf
          cases hg : dget sd f with
          | none => rfl
          | some u => rw [hg] at hmf; cases hmf
        rw [dgetD_dset_self] at h
        exact Or.inr (Or.inl ⟨hget, (Except.ok.inj h).symm⟩)
  | vnone => rw [hsec] at h; cases h
  | vstr a => rw [hsec] at h; cases h
  | vbool a => rw [hsec] at h; cases h
  | vint a => rw [hsec] at h; cases h
  | vlist a => rw [hsec] at h; cases h

theorem dgetD_of_dget {d : List (String × PyVal)} {k : String} {v dflt : PyVal}
    (h : dget d k = some v) : dgetD d k dflt = v := by
  unfold dgetD
  rw [h]
  rfl

theorem dgetD_of_none {d : List (String × PyVal)} {k : String} {dflt : PyVal}
    (h : dget d k = none) : dgetD d k dflt = dflt := by
  unfold dgetD
  rw [h]
  rfl

theorem ensureRequiredField_frame {d : List (String × PyVal)} {s f : String}
    {d' : List (String × PyVal)} (h : ensureRequiredField d s f = .ok d')
    {s' : String} (hne : s' ≠ s) : dget d' s' = dget d s' := by
  obtain ⟨sd, _, hc⟩ := ensureRequiredField_shape h
  rcases hc with ⟨l, _, hd⟩ | ⟨_, hd⟩ | ⟨w, _, _, hd⟩ <;>
    rw [hd, dget_dset_ne _ _ _ _ hne]

theorem ensureRequiredField_Nodup {d : List (String × PyVal)} {s f : String}
    {d' : List (String × PyVal)} (h : ensureRequiredField d s f = .ok d')
    (hnd : NodupKeys d) : NodupKeys d' := by
  obtain ⟨sd, _, hc⟩ := ensureRequiredField_shape h
  rcases hc with ⟨l, _, hd⟩ | ⟨_, hd⟩ | ⟨w, _, _, hd⟩ <;>
    rw [hd] <;> exact NodupKeys_dset _ _ hnd

theorem ensureRequiredField_presence {d : List (String × PyVal)} {s f : String}
    {d' : List (String × PyVal)} (h : ensureRequiredField d s f = .ok d')
    {s0 : String} (hp : dmem d s0 = true) : dmem d' s0 = true := by
  obtain ⟨sd, _, hc⟩ := ensureRequiredField_shape h
  rcases hc with ⟨l, _, hd⟩ | ⟨_, hd⟩ | ⟨w, _, _, hd⟩ <;>
    rw [hd, dmem_dset, hp] <;> rfl

theorem ensureRequiredField_dictness {d : List (String × PyVal)} {s f : String}
    {d' : List (String × PyVal)} (h : ensureRequiredField d s f = .ok d')
    {s0 : String} {z : List (String × PyVal)}
    (hz : dget d s0 = some (.vdict z)) :
    ∃ z', dget d' s0 = some (.vdict z') := by
  obtain ⟨sd, hsd, hc⟩ := ensureRequiredField_shape h
  by_cases hs : s0 = s
  · subst hs
    rcases hc with ⟨l, _, hd⟩ | ⟨_, hd⟩ | ⟨w, _, _, hd⟩ <;> rw [hd, dget_dset_self]
    · exact ⟨sd, rfl⟩
    · exact ⟨_, rfl⟩
    · exact ⟨_, rfl⟩
  · rw [ensureRequiredField_frame h hs]
    exact ⟨z, hz⟩

theorem ensureRequiredField_post {d : List (String × PyVal)} {s f : String}
    {d' : List (String × PyVal)} (h : ensureRequiredField d s f = .ok d') :
    ∃ sd', dget d' s = some (.vdict sd') ∧
      ∃ l, dget sd' f = some (.vlist l) := by
  obtain ⟨sd, hsd, hc⟩ := ensureRequiredField_shape h
  rcases hc with ⟨l, hl, hd⟩ | ⟨hn, hd⟩ | ⟨w, hw, hwl, hd⟩
  · exact ⟨sd, by rw [hd, dget_dset_self], l, hl⟩
  · exact ⟨dset sd f (.vlist [NA]), by rw [hd, dget_dset_self], [NA],
      by rw [dget_dset_self]⟩
  · exact ⟨dset sd f (.vlist [w]), by rw [hd, dget_dset_self], [w],
      by rw [dget_dset_self]⟩

theorem ensureRequiredField_keepListS {d : List (String × PyVal)} {s f : String}
    {d' : List (String × PyVal)} (h : ensureRequiredField d s f = .ok d')
    {s0 f0 : String} {l : List PyVal} (hFL : fieldList d s0 f0 l) :
    fieldList d' s0 f0 l := by
  obtain ⟨sd0, hsd0, hf0⟩ := hFL
  obtain ⟨sd, hsd, hc⟩ := ensureRequiredField_shape h
  by_cases hs : s0 = s
  · subst hs
    have hsdeq : sd0 = sd := by
      rw [hsd0] at hsd
      exact PyVal.vdict.inj (Option.some.inj hsd)
    subst hsdeq
    rcases hc with ⟨l1, hl1, hd⟩ | ⟨hn, hd⟩ | ⟨w, hw, hwl, hd⟩
    · exact ⟨sd0, by rw [hd, dget_dset_self], hf0⟩
    · by_cases hf : f0 = f
      · subst hf
        rw [hf0] at hn
        cases hn
      · exact ⟨dset sd0 f (.vlist [NA]), by rw [hd, dget_dset_self],
          by rw [dget_dset_ne _ _ _ _ hf]; exact hf0⟩
    · by_cases hf : f0 = f
      · subst hf
        rw [hf0] at hw
        exact absurd (Option.some.inj hw).symm (hwl l)
      · exact ⟨dset sd0 f (.vlist [w]), by rw [hd, dget_dset_self],
          by rw [dget_dset_ne _ _ _ _ hf]; exact hf0⟩
  · exact ⟨sd0, by rw [ensureRequiredField_frame h hs]; exact hsd0, hf0⟩

theorem ensureRequiredField_keepListD {d : List (String × PyVal)} {s f : String}
    {d' : List (String × PyVal)} (h : ensureRequiredField d s f = .ok d')
    {s0 f0 : String} {l : List PyVal} (hFL : fieldHasList d s0 f0 l) :
    fieldHasList d' s0 f0 l := by
  obtain ⟨sd0, hsd0, hf0⟩ := hFL
  obtain ⟨sd, hsd, hc⟩ := ensureRequiredField_shape h
  by_cases hs : s0 = s
  · subst hs
    have hsdeq : sd0 = sd := by
      rw [hsd0] at hsd
      exact PyVal.vdict.inj (Option.some.inj hsd)
    subst hsdeq
    rcases hc with ⟨l1, hl1, hd⟩ | ⟨hn, hd⟩ | ⟨w, hw, hwl, hd⟩
    · exact ⟨sd0, by rw [hd, dget_dset_self], hf0⟩
    · by_cases hf : f0 = f
      · subst hf
        have hlNA : l = [NA] := by
          rw [dgetD_of_none hn] at hf0
          exact (PyVal.vlist.inj hf0).symm
        refine ⟨dset sd0 f0 (.vlist [NA]), by rw [hd, dget_dset_self], ?_⟩
        rw [dgetD_dset_self, hlNA]
      · exact ⟨dset sd0 f (.vlist [NA]), by rw [hd, dget_dset_self],
          by rw [dgetD_dset_ne _ _ _ _ _ hf]; exact hf0⟩
    · by_cases hf : f0 = f
      · subst hf
        rw [dgetD_of_dget hw] at hf0
        exact absurd hf0 (hwl l)
      · exact ⟨dset sd0 f (.vlist [w]), by rw [hd, dget_dset_self],
          by rw [dgetD_dset_ne _ _ _ _ _ hf]; exact hf0⟩
  · exact ⟨sd0, by rw [ensureRequiredField_frame h hs]; exact hsd0, hf0⟩

theorem ensureRequiredSection_frame {s : String} (fs : List String) :
    ∀ {d d' : List (String × PyVal)},
    ensureRequiredSection d s fs = .ok d' →
    ∀ {s' : String}, s' ≠ s → dget d' s' = dget d s' := by
  induction fs with
  | nil => intro d d' h s' _; exact (Except.ok.inj h) ▸ rfl
  | cons f rest ih =>
      intro d d' h s' hne
      unfold ensureRequiredSection at h
      cases h1 : ensureRequiredField d s f with
      | ok d1 =>
          rw [h1] at h
          rw [ih h hne, ensureRequiredField_frame h1 hne]
      | error e => rw [h1] at h; cases h

theorem ensureRequiredSection_Nodup {s : String} (fs : List String) :
    ∀ {d d' : List (String × PyVal)},
    ensureRequiredSection d s fs = .ok d' → NodupKeys d → NodupKeys d' := by
  induction fs with
  | nil => intro d d' h hnd; exact (Except.ok.inj h) ▸ hnd
  | cons f rest ih =>
      intro d d' h hnd
      unfold ensureRequiredSection at h
      cases h1 : ensureRequiredField d s f with
      | ok d1 =>
          rw [h1] at h
          exact ih h (ensureRequiredField_Nodup h1 hnd)
      | error e => rw [h1] at h; cases h

theorem ensureRequiredSection_presence {s : String} (fs : List String) :
    ∀ {d d' : List (String × PyVal)},
    ensureRequiredSection d s fs = .ok d' →
    ∀ {s0 : String}, dmem d s0 = true → dmem d' s0 = true := by
  induction fs with
  | nil => intro d d' h s0 hp; exact (Except.ok.inj h) ▸ hp
  | cons f rest ih =>
      intro d d' h s0 hp
      unfold ensureRequiredSection at h
      cases h1 : ensureRequiredField d s f with
      | ok d1 =>
          rw [h1] at h
          exact ih h (ensureRequiredField_presence h1 hp)
      | error e => rw [h1] at h; cases h

theorem ensureRequiredSection_keepListS {s : String} (fs : List String) :
    ∀ {d d' : List (String × PyVal)},
    ensureRequiredSection d s fs = .ok d' →
    ∀ {s0 f0 : String} {l : List PyVal},
    fieldList d s0 f0 l → fieldList d' s0 f0 l := by
  induction fs with
  | nil => intro d d' h s0 f0 l hFL; exact (Except.ok.inj h) ▸ hFL
  | cons f rest ih =>
      intro d d' h s0 f0 l hFL
      unfold ensureRequiredSection at h
      cases h1 : ensureRequiredField d s f with
      | ok d1 =>
          rw [h1] at h
          exact ih h (ensureRequiredField_keepListS h1 hFL)
      | error e => rw [h1] at h; cases h

theorem ensureRequiredSection_keepListD {s : String} (fs : List String) :
    ∀ {d d' : List (String × PyVal)},
    ensureRequiredSection d s fs = .ok d' →
    ∀ {s0 f0 : String} {l : List PyVal},
    fieldHasList d s0 f0 l → fieldHasList d' s0 f0 l := by
  induction fs with
  | nil => intro d d' h s0 f0 l hFL; exact (Except.ok.inj h) ▸ hFL
  | cons f rest ih =>
      intro d d' h s0 f0 l hFL
      unfold ensureRequiredSection at h
      cases h1 : ensureRequiredField d s f with
      | ok d1 =>
          rw [h1] at h
          exact ih h (ensureRequiredField_keepListD h1 hFL)
      | error e => rw [h1] at h; cases h

theorem ensureRequiredSection_dictness {s : String} (fs : List String) :
    ∀ {d d' : List (String × PyVal)},
    ensureRequiredSection d s fs = .ok d' →
    ∀ {s0 : String} {z : List (String × PyVal)},
    dget d s0 = some (.vdict z) → ∃ z', dget d' s0 = some (.vdict z') := by
  induction fs with
  | nil => intro d d' h s0 z hz; exact ⟨z, (Except.ok.inj h) ▸ hz⟩
  | cons f rest ih =>
      intro d d' h s0 z hz
      unfold ensureRequiredSection at h
      cases h1 : ensureRequiredField d s f with
      | ok d1 =>
          rw [h1] at h
          obtain ⟨z1, hz1⟩ := ensureRequiredField_dictness h1 hz
          exact ih h hz1
      | error e => rw [h1] at h; cases h

theorem ensureRequiredSection_entry {s : String} {f : String} {rest : List String}
    {d d' : List (String × PyVal)}
    (h : ensureRequiredSection d s (f :: rest) = .ok d') :
    ∃ sd, dget d s = some (.vdict sd) := by
  unfold ensureRequiredSection at h
  cases h1 : ensureRequiredField d s f with
  | ok d1 =>
      obtain ⟨sd, hsd, _⟩ := ensureRequiredField_shape h1
      exact ⟨sd, hsd⟩
  | error e => rw [h1] at h; cases h

theorem ensureRequiredSection_fields {s : String} (fs : List String) :
    ∀ {d d' : List (String × PyVal)},
    ensureRequiredSection d s fs = .ok d' →
    ∀ f ∈ fs, ∃ l, fieldList d' s f l := by
  induction fs with
  | nil => intro d d' _ f hf; exact absurd hf (List.not_mem_nil f)
  | cons f0 rest ih =>
      intro d d' h f hf
      unfold ensureRequiredSection at h
      cases h1 : ensureRequiredField d s f0 with
      | ok d1 =>
          rw [h1] at h
          rcases List.mem_cons.mp hf with h2 | h2
          · subst h2
            obtain ⟨sd', hsd', l, hl⟩ := ensureRequiredField_post h1
            exact ⟨l, ensureRequiredSection_keepListS rest h ⟨sd', hsd', hl⟩⟩
          · exact ih h f h2
      | error e => rw [h1] at h; cases h

theorem ensureRequiredAll_frame (tbl : List (String × List String)) :
    ∀ {d d' : List (String × PyVal)},
    ensureRequiredAll d tbl = .ok d' →
    ∀ {s' : String}, s' ∉ tbl.map Prod.fst → dget d' s' = dget d s' := by
  induction tbl with
  | nil => intro d d' h s' _; exact (Except.ok.inj h) ▸ rfl
  | cons e rest ih =>
      intro d d' h s' hs'
      obtain ⟨s0, fs0⟩ := e
      simp only [List.map_cons, List.mem_cons] at hs'
      push_neg at hs'
      unfold ensureRequiredAll at h
      dsimp only at h
      by_cases hm : dmem d s0 = true
      · simp only [hm] at h
        rw [if_true] at h
        cases h1 : ensureRequiredSection d s0 fs0 with
        | ok d1 =>
            rw [h1] at h
            rw [ih h hs'.2, ensureRequiredSection_frame fs0 h1 hs'.1]
        | error e => rw [h1] at h; cases h
      · have hmf : dmem d s0 = false := by
          cases hb : dmem d s0
          · rfl
          · exact absurd hb hm
        simp only [hmf] at h
        rw [if_neg Bool.false_ne_true] at h
        cases h1 : ensureRequiredSection (dset d s0 (.vdict [])) s0 fs0 with
        | ok d1 =>
            rw [h1] at h
            rw [ih h hs'.2, ensureRequiredSection_frame fs0 h1 hs'.1,
              dget_dset_ne _ _ _ _ hs'.1]
        | error e => rw [h1] at h; cases h

theorem ensureRequiredAll_Nodup (tbl : List (String × List String)) :
    ∀ {d d' : List (String × PyVal)},
    ensureRequiredAll d tbl = .ok d' → NodupKeys d → NodupKeys d' := by
  induction tbl with
  | nil => intro d d' h hnd; exact (Except.ok.inj h) ▸ hnd
  | cons e rest ih =>
      intro d d' h hnd
      obtain ⟨s0, fs0⟩ := e
      unfold ensureRequiredAll at h
      dsimp only at h
      by_cases hm : dmem d s0 = true
      · simp only [hm] at h
        rw [if_true] at h
        cases h1 : ensureRequiredSection d s0 fs0 with
        | ok d1 =>
            rw [h1] at h
            exact ih h (ensureRequiredSection_Nodup fs0 h1 hnd)
        | error e => rw [h1] at h; cases h
      · have hmf : dmem d s0 = false := by
          cases hb : dmem d s0
          · rfl
          · exact absurd hb hm
        simp only [hmf] at h
        rw [if_neg Bool.false_ne_true] at h
        cases h1 : ensureRequiredSection (dset d s0 (.vdict [])) s0 fs0 with
        | ok d1 =>
            rw [h1] at h
            exact ih h (ensureRequiredSection_Nodup fs0 h1
              (NodupKeys_dset _ _ hnd))
        | error e => rw [h1] at h; cases h

theorem ensureRequiredAll_presence (tbl : List (String × List String)) :
    ∀ {d d' : List (String × PyVal)},
    ensureRequiredAll d tbl = .ok d' →
    ∀ {s0 : String}, dmem d s0 = true → dmem d' s0 = true := by
  induction tbl with
  | nil => intro d d' h s0 hp; exact (Except.ok.inj h) ▸ hp
  | cons e rest ih =>
      intro d d' h s0 hp
      obtain ⟨s1, fs1⟩ := e
      unfold ensureRequiredAll at h
      dsimp only at h
      by_cases hm : dmem d s1 = true
      · simp only [hm] at h
        rw [if_true] at h
        cases h1 : ensureRequiredSection d s1 fs1 with
        | ok d1 =>
            rw [h1] at h
            exact ih h (ensureRequiredSection_presence fs1 h1 hp)
        | error e => rw [h1] at h; cases h
      · have hmf : dmem d s1 = false := by
          cases hb : dmem d s1
          · rfl
          · exact absurd hb hm
        simp only [hmf] at h
        rw [if_neg Bool.false_ne_true] at h
        cases h1 : ensureRequiredSection (dset d s1 (.vdict [])) s1 fs1 with
        | ok d1 =>
            rw [h1] at h
            refine ih h (ensureRequiredSection_presence fs1 h1 ?_)
            rw [dmem_dset, hp]
            rfl
        | error e => rw [h1] at h; cases h

theorem ensureRequiredAll_keepListS (tbl : List (String × List String)) :
    ∀ {d d' : List (String × PyVal)},
    ensureRequiredAll d tbl = .ok d' →
    ∀ {s0 f0 : String} {l : List PyVal},
    fieldList d s0 f0 l → fieldList d' s0 f0 l := by
  induction tbl with
  | nil => intro d d' h s0 f0 l hFL; exact (Except.ok.inj h) ▸ hFL
  | cons e rest ih =>
      intro d d' h s0 f0 l hFL
      obtain ⟨s1, fs1⟩ := e
      unfold ensureRequiredAll at h
      dsimp only at h
      by_cases hm : dmem d s1 = true
      · simp only [hm] at h
        rw [if_true] at h
        cases h1 : ensureRequiredSection d s1 fs1 with
        | ok d1 =>
            rw [h1] at h
            exact ih h (ensureRequiredSection_keepListS fs1 h1 hFL)
        | error e => rw [h1] at h; cases h
      · have hmf : dmem d s1 = false := by
          cases hb : dmem d s1
          · rfl
          · exact absurd hb hm
        simp only [hmf] at h
        rw [if_neg Bool.false_ne_true] at h
        cases h1 : ensureRequiredSection (dset d s1 (.vdict [])) s1 fs1 with
        | ok d1 =>
            rw [h1] at h
            refine ih h (ensureRequiredSection_keepListS fs1 h1 ?_)
            obtain ⟨sd0, hsd0, hf0⟩ := hFL
            have hne : s0 ≠ s1 := by
              intro hc
              subst hc
              rw [dmem_eq_isSome, hsd0] at hmf
              cases hmf
            exact ⟨sd0, by rw [dget_dset_ne _ _ _ _ hne]; exact hsd0, hf0⟩
        | error e => rw [h1] at h; cases h

theorem ensureRequiredAll_keepListD (tbl : List (String × List String)) :
    ∀ {d d' : List (String × PyVal)},
    ensureRequiredAll d tbl = .ok d' →
    ∀ {s0 f0 : String} {l : List PyVal},
    fieldHasList d s0 f0 l → fieldHasList d' s0 f0 l := by
  induction tbl with
  | nil => intro d d' h s0 f0 l hFL; exact (Except.ok.inj h) ▸ hFL
  | cons e rest ih =>
      intro d d' h s0 f0 l hFL
      obtain ⟨s1, fs1⟩ := e
      unfold ensureRequiredAll at h
      dsimp only at h
      by_cases hm : dmem d s1 = true
      · simp only [hm] at h
        rw [if_true] at h
        cases h1 : ensureRequiredSection d s1 fs1 with
        | ok d1 =>
            rw [h1] at h
            exact ih h (ensureRequiredSection_keepListD fs1 h1 hFL)
        | error e => rw [h1] at h; cases h
      · have hmf : dmem d s1 = false := by
          cases hb : dmem d s1
          · rfl
          · exact absurd hb hm
        simp only [hmf] at h
        rw [if_neg Bool.false_ne_true] at h
        cases h1 : ensureRequiredSection (dset d s1 (.vdict [])) s1 fs1 with
        | ok d1 =>
            rw [h1] at h
            refine ih h (ensureRequiredSection_keepListD fs1 h1 ?_)
            obtain ⟨sd0, hsd0, hf0⟩ := hFL
            have hne : s0 ≠ s1 := by
              intro hc
              subst hc
              rw [dmem_eq_isSome, hsd0] at hmf
              cases hmf
            exact ⟨sd0, by rw [dget_dset_ne _ _ _ _ hne]; exact hsd0, hf0⟩
        | error e => rw [h1] at h; cases h

theorem ensureRequiredAll_post (tbl : List (String × List String)) :
    ∀ {d d' : List (String × PyVal)},
    ensureRequiredAll d tbl = .ok d' → (tbl.map Prod.fst).Nodup →
    ∀ sf ∈ tbl, sf.2 ≠ [] → reqOK d' sf.1 sf.2 := by
  induction tbl with
  | nil => intro d d' _ _ sf hsf; exact absurd hsf (List.not_mem_nil sf)
  | cons e rest ih =>
      intro d d' h hnodup sf hsf hne
      obtain ⟨s1, fs1⟩ := e
      simp only [List.map_cons, List.nodup_cons] at hnodup
      unfold ensureRequiredAll at h
      dsimp only at h
      have hmain : ∀ d0 : List (String × PyVal),
          ensureRequiredSection d0 s1 fs1 = .ok d0.tail → True := fun _ _ => trivial
      clear hmain
      by_cases hm : dmem d s1 = true
      · simp only [hm] at h
        rw [if_true] at h
        cases h1 : ensureRequiredSection d s1 fs1 with
        | ok d1 =>
            rw [h1] at h
            rcases List.mem_cons.mp hsf with h2 | h2
            · subst h2
              have hfields : ∀ f ∈ fs1, ∃ l, fieldList d' s1 f l := by
                intro f hf
                obtain ⟨l, hl⟩ := ensureRequiredSection_fields fs1 h1 f hf
                exact ⟨l, ensureRequiredAll_keepListS rest h hl⟩
              obtain ⟨f0, hf0⟩ := List.exists_mem_of_ne_nil fs1 hne
              obtain ⟨l0, sd0, hsd0, _⟩ := hfields f0 hf0
              refine ⟨sd0, hsd0, ?_⟩
              intro f hf
              obtain ⟨l, sdf, hsdf, hfl⟩ := hfields f hf
              have : sdf = sd0 := by
                rw [hsd0] at hsdf
                exact (PyVal.vdict.inj (Option.some.inj hsdf)).symm
              exact ⟨l, this ▸ hfl⟩
            · exact ih h hnodup.2 sf h2 hne
        | error e => rw [h1] at h; cases h
      · have hmf : dmem d s1 = false := by
          cases hb : dmem d s1
          · rfl
          · exact absurd hb hm
        simp only [hmf] at h
        rw [if_neg Bool.false_ne_true] at h
        cases h1 : ensureRequiredSection (dset d s1 (.vdict [])) s1 fs1 with
        | ok d1 =>
            rw [h1] at h
            rcases List.mem_cons.mp hsf with h2 | h2
            · subst h2
              have hfields : ∀ f ∈ fs1, ∃ l, fieldList d' s1 f l := by
                intro f hf
                obtain ⟨l, hl⟩ := ensureRequiredSection_fields fs1 h1 f hf
                exact ⟨l, ensureRequiredAll_keepListS rest h hl⟩
              obtain ⟨f0, hf0⟩ := List.exists_mem_of_ne_nil fs1 hne
              obtain ⟨l0, sd0, hsd0, _⟩ := hfields f0 hf0
              refine ⟨sd0, hsd0, ?_⟩
              intro f hf
              obtain ⟨l, sdf, hsdf, hfl⟩ := hfields f hf
              have : sdf = sd0 := by
                rw [hsd0] at hsdf
                exact (PyVal.vdict.inj (Option.some.inj hsdf)).symm
              exact ⟨l, this ▸ hfl⟩
            · exact ih h hnodup.2 sf h2 hne
        | error e => rw [h1] at h; cases h

theorem ensureRequiredAll_nonDictInput (tbl : List (String × List String)) :
    ∀ {d d' : List (String × PyVal)},
    ensureRequiredAll d tbl = .ok d' → (tbl.map Prod.fst).Nodup →
    ∀ sf ∈ tbl, sf.2 ≠ [] →
    ∀ w, dget d sf.1 = some w → ∃ z, w = PyVal.vdict z := by
  induction tbl with
  | nil => intro d d' _ _ sf hsf; exact absurd hsf (List.not_mem_nil sf)
  | cons e rest ih =>
      intro d d' h hnodup sf hsf hne w hw
      obtain ⟨s1, fs1⟩ := e
      simp only [List.map_cons, List.nodup_cons] at hnodup
      unfold ensureRequiredAll at h
      dsimp only at h
      rcases List.mem_cons.mp hsf with h2 | h2
      · subst h2
        dsimp only at hw hne
        have hm : dmem d s1 = true := by
          rw [dmem_eq_isSome, hw]
          rfl
        simp only [hm] at h
        rw [if_true] at h
        cases h1 : ensureRequiredSection d s1 fs1 with
        | ok d1 =>
            obtain ⟨f0, fr, hffs⟩ := List.exists_cons_of_ne_nil hne
            rw [hffs] at h1
            obtain ⟨sd, hsd⟩ := ensureRequiredSection_entry h1
            rw [hw] at hsd
            exact ⟨sd, Option.some.inj hsd⟩
        | error e => rw [h1] at h; cases h
      · have hsne : sf.1 ≠ s1 := by
          intro hc
          exact hnodup.1 (hc ▸ List.mem_map_of_mem Prod.fst h2)
        by_cases hm : dmem d s1 = true
        · simp only [hm] at h
          rw [if_true] at h
          cases h1 : ensureRequiredSection d s1 fs1 with
          | ok d1 =>
              rw [h1] at h
              refine ih h hnodup.2 sf h2 hne w ?_
              rw [ensureRequiredSection_frame fs1 h1 hsne]
              exact hw
          | error e => rw [h1] at h; cases h
        · have hmf : dmem d s1 = false := by
            cases hb : dmem d s1
            · rfl
            · exact absurd hb hm
          simp only [hmf] at h
          rw [if_neg Bool.false_ne_true] at h
          cases h1 : ensureRequiredSection (dset d s1 (.vdict [])) s1 fs1 with
          | ok d1 =>
              rw [h1] at h
              refine ih h hnodup.2 sf h2 hne w ?_
              rw [ensureRequiredSection_frame fs1 h1 hsne,
                dget_dset_ne _ _ _ _ hsne]
              exact hw
          | error e => rw [h1] at h; cases h

theorem otherNormalize_cases (d : List (String × PyVal)) :
    otherNormalize d = d ∨
    ∃ at_, dget d "Assignment Type" = some (.vdict at_) ∧
      otherNormalize d =
        dset d "Assignment Type" (.vdict (dset at_ "Other" canonicalOther)) := by
  unfold otherNormalize
  cases hA : dget d "Assignment Type" with
  | none => exact Or.inl rfl
  | some va =>
      cases va with
      | vdict at_ =>
          dsimp only
          cases hO : dget at_ "Other" with
          | none => exact Or.inl rfl
          | some vo =>
              cases vo with
              | vlist lo =>
                  cases lo with
                  | nil => exact Or.inl rfl
                  | cons o0 tl =>
                      cases o0 with
                      | vdict od =>
                          dsimp only
                          by_cases hc : dmem od "Checked" = true ∧
                              dmem od "Details" = true
                          · rw [if_pos hc]
                            exact Or.inl rfl
                          · rw [if_neg hc]
                            exact Or.inr ⟨at_, rfl, rfl⟩
                      | vstr a => exact Or.inr ⟨at_, rfl, rfl⟩
                      | vbool a => exact Or.inr ⟨at_, rfl, rfl⟩
                      | vint a => exact Or.inr ⟨at_, rfl, rfl⟩
                      | vnone => exact Or.inr ⟨at_, rfl, rfl⟩
                      | vlist a => exact Or.inr ⟨at_, rfl, rfl⟩
              | vdict a => exact Or.inl rfl
              | vstr a => exact Or.inl rfl
              | vbool a => exact Or.inl rfl
              | vint a => exact Or.inl rfl
              | vnone => exact Or.inl rfl
      | vstr a => exact Or.inl rfl
      | vbool a => exact Or.inl rfl
      | vint a => exact Or.inl rfl
      | vnone => exact Or.inl rfl
      | vlist a => exact Or.inl rfl

theorem otherNormalize_frame (d : List (String × PyVal)) {s' : String}
    (hne : s' ≠ "Assignment Type") :
    dget (otherNormalize d) s' = dget d s' := by
  rcases otherNormalize_cases d with h | ⟨at_, _, h⟩
  · rw [h]
  · rw [h, dget_dset_ne _ _ _ _ hne]

theorem otherNormalize_Nodup {d : List (String × PyVal)} (hnd : NodupKeys d) :
    NodupKeys (otherNormalize d) := by
  rcases otherNormalize_cases d with h | ⟨at_, _, h⟩
  · rw [h]; exact hnd
  · rw [h]; exact NodupKeys_dset _ _ hnd

theorem otherNormalize_presence {d : List (String × PyVal)} {s0 : String}
    (hp : dmem d s0 = true) : dmem (otherNormalize d) s0 = true := by
  rcases otherNormalize_cases d with h | ⟨at_, _, h⟩
  · rw [h]; exact hp
  · rw [h, dmem_dset, hp]; rfl

theorem otherNormalize_keepListS {d : List (String × PyVal)} {s0 f0 : String}
    {l : List PyVal} (hFL : fieldList d s0 f0 l)
    (hside : s0 ≠ "Assignment Type" ∨ f0 ≠ "Other") :
    fieldList (otherNormalize d) s0 f0 l := by
  rcases otherNormalize_cases d with h | ⟨at_, hA, h⟩
  · rw [h]; exact hFL
  · obtain ⟨sd0, hsd0, hf0⟩ := hFL
    by_cases hs : s0 = "Assignment Type"
    · subst hs
      have hf : f0 ≠ "Other" := by
        rcases hside with h1 | h1
        · exact absurd rfl h1
        · exact h1
      have hsdeq : sd0 = at_ := by
        rw [hsd0] at hA
        exact PyVal.vdict.inj (Option.some.inj hA)
      subst hsdeq
      exact ⟨dset sd0 "Other" canonicalOther, by rw [h, dget_dset_self],
        by rw [dget_dset_ne _ _ _ _ hf]; exact hf0⟩
    · exact ⟨sd0, by rw [h, dget_dset_ne _ _ _ _ hs]; exact hsd0, hf0⟩

theorem otherNormalize_keepListD {d : List (String × PyVal)} {s0 f0 : String}
    {l : List PyVal} (hFL : fieldHasList d s0 f0 l)
    (hside : s0 ≠ "Assignment Type" ∨ f0 ≠ "Other") :
    fieldHasList (otherNormalize d) s0 f0 l := by
  rcases otherNormalize_cases d with h | ⟨at_, hA, h⟩
  · rw [h]; exact hFL
  · obtain ⟨sd0, hsd0, hf0⟩ := hFL
    by_cases hs : s0 = "Assignment Type"
    · subst hs
      have hf : f0 ≠ "Other" := by
        rcases hside with h1 | h1
        · exact absurd rfl h1
        · exact h1
      have hsdeq : sd0 = at_ := by
        rw [hsd0] at hA
        exact PyVal.vdict.inj (Option.some.inj hA)
      subst hsdeq
      exact ⟨dset sd0 "Other" canonicalOther, by rw [h, dget_dset_self],
        by rw [dgetD_dset_ne _ _ _ _ _ hf]; exact hf0⟩
    · exact ⟨sd0, by rw [h, dget_dset_ne _ _ _ _ hs]; exact hsd0, hf0⟩

theorem otherNormalize_reqOK {d : List (String × PyVal)} {s : String}
    {fs : List String} (hr : reqOK d s fs) : reqOK (otherNormalize d) s fs := by
  rcases otherNormalize_cases d with h | ⟨at_, hA, h⟩
  · rw [h]; exact hr
  · obtain ⟨sd, hsd, hfields⟩ := hr
    by_cases hs : s = "Assignment Type"
    · subst hs
      have hsdeq : sd = at_ := by
        rw [hsd] at hA
        exact PyVal.vdict.inj (Option.some.inj hA)
      subst hsdeq
      refine ⟨dset sd "Other" canonicalOther, by rw [h, dget_dset_self], ?_⟩
      intro f hf
      by_cases hfo : f = "Other"
      · subst hfo
        exact ⟨[.vdict [("Checked", .vbool false), ("Details", NA)]],
          by rw [dget_dset_self]; rfl⟩
      · obtain ⟨l, hl⟩ := hfields f hf
        exact ⟨l, by rw [dget_dset_ne _ _ _ _ hfo]; exact hl⟩
    · exact ⟨sd, by rw [h, dget_dset_ne _ _ _ _ hs]; exact hsd, hfields⟩

theorem otherNormalize_otherOK {d : List (String × PyVal)}
    {at_ : List (String × PyVal)} {l : List PyVal}
    (hA : dget d "Assignment Type" = some (.vdict at_))
    (hO : dget at_ "Other" = some (.vlist l)) :
    ∃ at2 l2, dget (otherNormalize d) "Assignment Type" = some (.vdict at2) ∧
      dget at2 "Other" = some (.vlist l2) ∧ otherShapeOk (.vlist l2) = true := by
  unfold otherNormalize
  rw [hA]
  dsimp only
  rw [hO]
  cases l with
  | nil => exact ⟨at_, [], hA, hO, rfl⟩
  | cons o0 tl =>
      cases o0 with
      | vdict od =>
          dsimp only
          by_cases hc : dmem od "Checked" = true ∧ dmem od "Details" = true
          · rw [if_pos hc]
            refine ⟨at_, .vdict od :: tl, hA, hO, ?_⟩
            unfold otherShapeOk
            dsimp only
            rw [hc.1, hc.2]
            rfl
          · rw [if_neg hc]
            exact ⟨dset at_ "Other" canonicalOther,
              [.vdict [("Checked", .vbool false), ("Details", NA)]],
              by rw [dget_dset_self],
              by rw [dget_dset_self]; rfl, by decide⟩
      | vstr a =>
          exact ⟨dset at_ "Other" canonicalOther,
            [.vdict [("Checked", .vbool false), ("Details", NA)]],
            by rw [dget_dset_self],
            by rw [dget_dset_self]; rfl, by decide⟩
      | vbool a =>
          exact ⟨dset at_ "Other" canonicalOther,
            [.vdict [("Checked", .vbool false), ("Details", NA)]],
            by rw [dget_dset_self],
            by rw [dget_dset_self]; rfl, by decide⟩
      | vint a =>
          exact ⟨dset at_ "Other" canonicalOther,
            [.vdict [("Checked", .vbool false), ("Details", NA)]],
            by rw [dget_dset_self],
            by rw [dget_dset_self]; rfl, by decide⟩
      | vnone =>
          exact ⟨dset at_ "Other" canonicalOther,
            [.vdict [("Checked", .vbool false), ("Details", NA)]],
            by rw [dget_dset_self],
            by rw [dget_dset_self]; rfl, by decide⟩
      | vlist a =>
          exact ⟨dset at_ "Other" canonicalOther,
            [.vdict [("Checked", .vbool false), ("Details", NA)]],
            by rw [dget_dset_self],
            by rw [dget_dset_self]; rfl, by decide⟩

theorem otherNormalize_fix {d : List (String × PyVal)}
    {at_ : List (String × PyVal)} {l : List PyVal}
    (hA : dget d "Assignment Type" = some (.vdict at_))
    (hO : dget at_ "Other" = some (.vlist l))
    (hshape : otherShapeOk (.vlist l) = true) : otherNormalize d = d := by
  unfold otherNormalize
  rw [hA]
  dsimp only
  rw [hO]
  cases l with
  | nil => rfl
  | cons o0 tl =>
      cases o0 with
      | vdict od =>
          dsimp only
          unfold otherShapeOk at hshape
          dsimp only at hshape
          rw [Bool.and_eq_true] at hshape
          rw [if_pos hshape]
      | vstr a => exact Bool.noConfusion hshape
      | vbool a => exact Bool.noConfusion hshape
      | vint a => exact Bool.noConfusion hshape
      | vnone => exact Bool.noConfusion hshape
      | vlist a => exact Bool.noConfusion hshape

theorem fdFold_frame (ks : List String) :
    ∀ (d : List (String × PyVal)) (s0 : String), dmem d s0 = true →
    dget (ks.foldl
      (fun d s =>
        if dmem d s then d
        else dset d s (if s = "Attachment(s)" then PyVal.vlist []
          else PyVal.vdict [])) d) s0 = dget d s0 := by
  induction ks with
  | nil => intro d s0 _; rfl
  | cons k rest ih =>
      intro d s0 hp
      rw [List.foldl_cons]
      by_cases hm : dmem d k = true
      · rw [if_pos hm]
        exact ih d s0 hp
      · rw [if_neg hm]
        have hne : s0 ≠ k := by
          intro hc
          exact hm (hc ▸ hp)
        rw [ih _ s0 (by rw [dmem_dset, hp]; rfl)]
        rw [dget_dset_ne _ _ _ _ hne]

theorem fdFold_presence (ks : List String) :
    ∀ (d : List (String × PyVal)) (s0 : String), dmem d s0 = true →
    dmem (ks.foldl
      (fun d s =>
        if dmem d s then d
        else dset d s (if s = "Attachment(s)" then PyVal.vlist []
          else PyVal.vdict [])) d) s0 = true := by
  intro d s0 hp
  rw [dmem_eq_isSome, fdFold_frame ks d s0 hp, ← dmem_eq_isSome]
  exact hp

theorem fdFold_mem (ks : List String) :
    ∀ (d : List (String × PyVal)) (k : String), k ∈ ks →
    dmem (ks.foldl
      (fun d s =>
        if dmem d s then d
        else dset d s (if s = "Attachment(s)" then PyVal.vlist []
          else PyVal.vdict [])) d) k = true := by
  induction ks with
  | nil => intro d k h; exact absurd h (List.not_mem_nil k)
  | cons k0 rest ih =>
      intro d k hk
      rw [List.foldl_cons]
      rcases List.mem_cons.mp hk with h1 | h1
      · subst h1
        by_cases hm : dmem d k = true
        · rw [if_pos hm]
          exact fdFold_presence rest d k hm
        · rw [if_neg hm]
          exact fdFold_presence rest _ k (dmem_dset_self _ _ _)
      · by_cases hm : dmem d k0 = true
        · rw [if_pos hm]
          exact ih d k h1
        · rw [if_neg hm]
          exact ih _ k h1

theorem fdFold_fix (ks : List String) :
    ∀ (d : List (String × PyVal)), (∀ k ∈ ks, dmem d k = true) →
    ks.foldl
      (fun d s =>
        if dmem d s then d
        else dset d s (if s = "Attachment(s)" then PyVal.vlist []
          else PyVal.vdict [])) d = d := by
  induction ks with
  | nil => intro d _; rfl
  | cons k rest ih =>
      intro d h
      rw [List.foldl_cons, if_pos (h k (List.mem_cons_self _ _))]
      exact ih d (fun k2 hk2 => h k2 (List.mem_cons_of_mem _ hk2))

theorem fdFold_Nodup (ks : List String) :
    ∀ (d : List (String × PyVal)), NodupKeys d →
    NodupKeys (ks.foldl
      (fun d s =>
        if dmem d s then d
        else dset d s (if s = "Attachment(s)" then PyVal.vlist []
          else PyVal.vdict [])) d) := by
  induction ks with
  | nil => intro d h; exact h
  | cons k rest ih =>
      intro d h
      rw [List.foldl_cons]
      by_cases hm : dmem d k = true
      · rw [if_pos hm]
        exact ih d h
      · rw [if_neg hm]
        exact ih _ (NodupKeys_dset _ _ h)

theorem finalDefaults_frame {d : List (String × PyVal)} {s0 : String}
    (hp : dmem d s0 = true) : dget (finalDefaults d) s0 = dget d s0 := by
  unfold finalDefaults
  exact fdFold_frame _ d s0 hp

theorem finalDefaults_presence {d : List (String × PyVal)} {s0 : String}
    (hp : dmem d s0 = true) : dmem (finalDefaults d) s0 = true := by
  unfold finalDefaults
  exact fdFold_presence _ d s0 hp

theorem finalDefaults_mem {d : List (String × PyVal)} {k : String}
    (hk : k ∈ ["Entities", "TransformerEntities",
      "Additional details/Special Instructions", "Attachment(s)"]) :
    dmem (finalDefaults d) k = true := by
  unfold finalDefaults
  exact fdFold_mem _ d k hk

theorem finalDefaults_fix {d : List (String × PyVal)}
    (h : ∀ k ∈ ["Entities", "TransformerEntities",
      "Additional details/Special Instructions", "Attachment(s)"],
      dmem d k = true) : finalDefaults d = d := by
  unfold finalDefaults
  exact fdFold_fix _ d h

theorem finalDefaults_Nodup {d : List (String × PyVal)} (h : NodupKeys d) :
    NodupKeys (finalDefaults d) := by
  unfold finalDefaults
  exact fdFold_Nodup _ d h

theorem finalDefaults_keepListS {d : List (String × PyVal)} {s0 f0 : String}
    {l : List PyVal} (hFL : fieldList d s0 f0 l) :
    fieldList (finalDefaults d) s0 f0 l := by
  obtain ⟨sd, hsd, hf⟩ := hFL
  refine ⟨sd, ?_, hf⟩
  rw [finalDefaults_frame (by rw [dmem_eq_isSome, hsd]; rfl)]
  exact hsd

theorem finalDefaults_keepListD {d : List (String × PyVal)} {s0 f0 : String}
    {l : List PyVal} (hFL : fieldHasList d s0 f0 l) :
    fieldHasList (finalDefaults d) s0 f0 l := by
  obtain ⟨sd, hsd, hf⟩ := hFL
  refine ⟨sd, ?_, hf⟩
  rw [finalDefaults_frame (by rw [dmem_eq_isSome, hsd]; rfl)]
  exact hsd

theorem finalDefaults_reqOK {d : List (String × PyVal)} {s : String}
    {fs : List String} (hr : reqOK d s fs) : reqOK (finalDefaults d) s fs := by
  obtain ⟨sd, hsd, hfields⟩ := hr
  refine ⟨sd, ?_, hfields⟩
  rw [finalDefaults_frame (by rw [dmem_eq_isSome, hsd]; rfl)]
  exact hsd

theorem ensureRequiredField_fix {d : List (String × PyVal)} {s f : String}
    {sd : List (String × PyVal)} {l : List PyVal}
    (hsd : dget d s = some (.vdict sd)) (hf : dget sd f = some (.vlist l))
    (hnd : NodupKeys d) : ensureRequiredField d s f = .ok d := by
  unfold ensureRequiredField
  rw [dgetD_of_dget hsd]
  dsimp only
  have hm : dmem sd f = true := by
    rw [dmem_eq_isSome, hf]
    rfl
  rw [if_pos hm]
  rw [dgetD_of_dget hf]
  rw [dset_eq_self hnd hsd]

theorem ensureRequiredSection_fix {s : String} (fs : List String)
    {d : List (String × PyVal)} (hr : reqOK d s fs) (hnd : NodupKeys d) :
    ensureRequiredSection d s fs = .ok d := by
  induction fs with
  | nil => rfl
  | cons f rest ih =>
      obtain ⟨sd, hsd, hfields⟩ := hr
      obtain ⟨l, hl⟩ := hfields f (List.mem_cons_self _ _)
      unfold ensureRequiredSection
      rw [ensureRequiredField_fix hsd hl hnd]
      exact ih ⟨sd, hsd, fun f2 hf2 => hfields f2 (List.mem_cons_of_mem _ hf2)⟩

theorem ensureRequiredAll_fix (tbl : List (String × List String))
    {d : List (String × PyVal)} (hr : ∀ sf ∈ tbl, reqOK d sf.1 sf.2)
    (hnd : NodupKeys d) : ensureRequiredAll d tbl = .ok d := by
  induction tbl with
  | nil => rfl
  | cons e rest ih =>
      obtain ⟨s, fs⟩ := e
      obtain ⟨sd, hsd, hfields⟩ := hr (s, fs) (List.mem_cons_self _ _)
      have hm : dmem d s = true := by
        rw [dmem_eq_isSome, hsd]
        rfl
      unfold ensureRequiredAll
      dsimp only
      rw [if_pos hm]
      rw [ensureRequiredSection_fix fs ⟨sd, hsd, hfields⟩ hnd]
      exact ih (fun sf hsf => hr sf (List.mem_cons_of_mem _ hsf))

theorem validate_decompose {d d1 : List (String × PyVal)}
    (h : validate_merged_data d = .ok d1) :
    ∃ e1, ensureRequiredAll d required_sections = .ok e1 ∧
      d1 = finalDefaults (otherNormalize e1) := by
  unfold validate_merged_data at h
  cases h1 : ensureRequiredAll d required_sections with
  | ok e1 =>
      rw [h1] at h
      exact ⟨e1, rfl, (Except.ok.inj h).symm⟩
  | error e => rw [h1] at h; cases h

theorem validate_Nodup {d d1 : List (String × PyVal)}
    (h : validate_merged_data d = .ok d1) (hnd : NodupKeys d) :
    NodupKeys d1 := by
  obtain ⟨e1, h1, h2⟩ := validate_decompose h
  rw [h2]
  exact finalDefaults_Nodup (otherNormalize_Nodup
    (ensureRequiredAll_Nodup required_sections h1 hnd))

theorem validate_reqOK {d d1 : List (String × PyVal)}
    (h : validate_merged_data d = .ok d1) :
    ∀ sf ∈ required_sections, reqOK d1 sf.1 sf.2 := by
  obtain ⟨e1, h1, h2⟩ := validate_decompose h
  intro sf hsf
  have hne2 : ∀ x ∈ required_sections, x.2 ≠ [] := by decide
  have hpost := ensureRequiredAll_post required_sections h1 (by decide) sf hsf
    (hne2 sf hsf)
  rw [h2]
  exact finalDefaults_reqOK (otherNormalize_reqOK hpost)

theorem validate_presence {d d1 : List (String × PyVal)}
    (h : validate_merged_data d = .ok d1) {s0 : String}
    (hp : dmem d s0 = true) : dmem d1 s0 = true := by
  obtain ⟨e1, h1, h2⟩ := validate_decompose h
  rw [h2]
  exact finalDefaults_presence (otherNormalize_presence
    (ensureRequiredAll_presence required_sections h1 hp))

theorem validate_keepListD {d d1 : List (String × PyVal)}
    (h : validate_merged_data d = .ok d1) {s0 f0 : String} {l : List PyVal}
    (hFL : fieldHasList d s0 f0 l)
    (hside : s0 ≠ "Assignment Type" ∨ f0 ≠ "Other") :
    fieldHasList d1 s0 f0 l := by
  obtain ⟨e1, h1, h2⟩ := validate_decompose h
  rw [h2]
  exact finalDefaults_keepListD (otherNormalize_keepListD
    (ensureRequiredAll_keepListD required_sections h1 hFL) hside)

theorem validate_nonDict {d d1 : List (String × PyVal)}
    (h : validate_merged_data d = .ok d1) {s0 : String} {w : PyVal}
    (hw : dget d s0 = some w) (hnodict : ∀ z, w ≠ PyVal.vdict z) :
    dget d1 s0 = some w := by
  obtain ⟨e1, h1, h2⟩ := validate_decompose h
  have hnotin : s0 ∉ required_sections.map Prod.fst := by
    intro hin
    obtain ⟨sf, hsf, hfst⟩ := List.mem_map.mp hin
    have hne2 : ∀ x ∈ required_sections, x.2 ≠ [] := by decide
    obtain ⟨z, hz⟩ := ensureRequiredAll_nonDictInput required_sections h1
      (by decide) sf hsf (hne2 sf hsf) w (hfst ▸ hw)
    exact hnodict z hz
  have hsAT : s0 ≠ "Assignment Type" := by
    intro hc
    subst hc
    exact hnotin (by decide)
  have he1 : dget e1 s0 = some w := by
    rw [ensureRequiredAll_frame required_sections h1 hnotin]
    exact hw
  have hn1 : dget (otherNormalize e1) s0 = some w := by
    rw [otherNormalize_frame e1 hsAT]
    exact he1
  rw [h2]
  rw [finalDefaults_frame (by rw [dmem_eq_isSome, hn1]; rfl)]
  exact hn1

theorem validate_idem {d d1 : List (String × PyVal)}
    (h : validate_merged_data d = .ok d1) (hnd1 : NodupKeys d1) :
    validate_merged_data d1 = .ok d1 := by
  obtain ⟨e1, h1, h2⟩ := validate_decompose h
  have hreq : ∀ sf ∈ required_sections, reqOK d1 sf.1 sf.2 := validate_reqOK h
  have hAllfix : ensureRequiredAll d1 required_sections = .ok d1 :=
    ensureRequiredAll_fix required_sections hreq hnd1
  have hATmem : ("Assignment Type",
      ["Wind", "Structural", "Hail", "Foundation", "Other"]) ∈
        required_sections := by decide
  obtain ⟨at1, hA1, hfields1⟩ := hreq _ hATmem
  obtain ⟨lO, hlO⟩ := hfields1 "Other" (by decide)
  have hshape : otherShapeOk (.vlist lO) = true := by
    have hreqE := ensureRequiredAll_post required_sections h1 (by decide)
      _ hATmem (by decide)
    obtain ⟨ate, hAe, hfieldsE⟩ := hreqE
    obtain ⟨le, hle⟩ := hfieldsE "Other" (by decide)
    obtain ⟨at2, l2, hA2, hl2, hshape2⟩ := otherNormalize_otherOK hAe hle
    have hA1' : dget d1 "Assignment Type" = some (.vdict at2) := by
      rw [h2]
      rw [finalDefaults_frame (by rw [dmem_eq_isSome, hA2]; rfl)]
      exact hA2
    have hateq : at1 = at2 := by
      rw [hA1] at hA1'
      exact PyVal.vdict.inj (Option.some.inj hA1')
    subst hateq
    have hleq : lO = l2 := by
      rw [hlO] at hl2
      exact PyVal.vlist.inj (Option.some.inj hl2)
    rw [hleq]
    exact hshape2
  have hOther : otherNormalize d1 = d1 := otherNormalize_fix hA1 hlO hshape
  have hDef : finalDefaults d1 = d1 := by
    refine finalDefaults_fix ?_
    intro k hk
    rw [h2]
    exact finalDefaults_mem hk
  unfold validate_merged_data
  rw [hAllfix]
  dsimp only
  rw [hOther, hDef]

theorem mergeFieldsLoop_fixpoint (cfg : PyVal) (s : String) :
    ∀ (fvs : List (String × PyVal)) (t : List (String × PyVal))
      (chs : List MergeChange),
    (∀ fe ∈ fvs, fieldFix t cfg fe) →
    mergeFieldsLoop cfg s t chs fvs = (t, chs) := by
  intro fvs
  induction fvs with
  | nil => intro t chs _; rfl
  | cons fv rest ih =>
      intro t chs h
      obtain ⟨f, v⟩ := fv
      obtain ⟨l, hval, hmerge⟩ := h (f, v) (List.mem_cons_self _ _)
      dsimp only at hval hmerge
      unfold mergeFieldsLoop
      rw [hval, hmerge]
      dsimp only
      rw [if_pos rfl]
      exact ih t chs (fun fe hfe => h fe (List.mem_cons_of_mem _ hfe))

theorem mergeFieldsLoop_post (cfg : PyVal) (s : String) :
    ∀ (fvs : List (String × PyVal)) (t : List (String × PyVal))
      (chs : List MergeChange),
    (fvs.map Prod.fst).Nodup →
    (∀ fe ∈ fvs, exceptOk (merge_field_values .vnone fe.2
      (schemaFieldCfg cfg fe.1)) = true) →
    ∀ fe ∈ fvs, fieldFix (mergeFieldsLoop cfg s t chs fvs).1 cfg fe := by
  intro fvs
  induction fvs with
  | nil => intro t chs _ _ fe hfe; exact absurd hfe (List.not_mem_nil fe)
  | cons fv rest ih =>
      intro t chs hnd htot fe hfe
      obtain ⟨f, v⟩ := fv
      simp only [List.map_cons, List.nodup_cons] at hnd
      cases hm : merge_field_values (dgetD t f (.vlist [NA])) v
          (schemaFieldCfg cfg f) with
      | error e =>
          exfalso
          have h1 := htot (f, v) (List.mem_cons_self _ _)
          dsimp only at h1
          rw [merge_field_values_err hm PyVal.vnone] at h1
          exact Bool.noConfusion h1
      | ok merged =>
          unfold mergeFieldsLoop
          rw [hm]
          dsimp only
          by_cases hchg : dgetD t f (.vlist [NA]) = .vlist merged
          · rw [if_pos hchg]
            rcases List.mem_cons.mp hfe with h1 | h1
            · subst h1
              refine ⟨merged, ?_, ?_⟩
              · show dgetD (mergeFieldsLoop cfg s t chs rest).1 f
                  (.vlist [NA]) = .vlist merged
                unfold dgetD
                rw [mergeFieldsLoop_frame cfg s rest t chs f hnd.1]
                exact hchg
              · show merge_field_values (.vlist merged) v
                  (schemaFieldCfg cfg f) = .ok merged
                rw [← hchg]
                exact hm
            · exact ih t chs hnd.2
                (fun fe2 hfe2 => htot fe2 (List.mem_cons_of_mem _ hfe2)) fe h1
          · rw [if_neg hchg]
            rcases List.mem_cons.mp hfe with h1 | h1
            · subst h1
              refine ⟨merged, ?_, merge_field_values_fix hm⟩
              show dgetD (mergeFieldsLoop cfg s (dset t f (.vlist merged))
                (chs ++ [⟨s, some f, dgetD t f (.vlist [NA]),
                  .vlist merged, "update"⟩]) rest).1 f (.vlist [NA]) =
                .vlist merged
              unfold dgetD
              rw [mergeFieldsLoop_frame cfg s rest _ _ f hnd.1]
              rw [dget_dset_self]
              rfl
            · exact ih _ _ hnd.2
                (fun fe2 hfe2 => htot fe2 (List.mem_cons_of_mem _ hfe2)) fe h1

theorem isDict_exists {v : PyVal} (h : v.isDict = true) :
    ∃ z, v = PyVal.vdict z := by
  cases v with
  | vdict z => exact ⟨z, rfl⟩
  | vstr a => exact Bool.noConfusion h
  | vbool a => exact Bool.noConfusion h
  | vint a => exact Bool.noConfusion h
  | vnone => exact Bool.noConfusion h
  | vlist a => exact Bool.noConfusion h

theorem mergeOneSection_schemaDict {d : List (String × PyVal)} {s : String}
    {fvs : List (String × PyVal)} (hsch : dmem QUICKBASE_SCHEMA s = true) :
    (dmem d s = true ∧ ∃ sd, dget d s = some (.vdict sd) ∧
      (mergeOneSection d (s, .vdict fvs)).1 =
        dset d s (.vdict (mergeFieldsLoop
          (dgetD QUICKBASE_SCHEMA s (.vdict [])) s sd [] fvs).1)) ∨
    (dmem d s = false ∧
      (mergeOneSection d (s, .vdict fvs)).1 =
        dset d s (.vdict (mergeFieldsLoop
          (dgetD QUICKBASE_SCHEMA s (.vdict [])) s [] [] fvs).1)) ∨
    (dmem d s = true ∧ ∃ w, dget d s = some w ∧ (∀ z, w ≠ PyVal.vdict z) ∧
      (mergeOneSection d (s, .vdict fvs)).1 = d) := by
  unfold mergeOneSection
  dsimp only
  rw [if_pos hsch]
  by_cases hmem : dmem d s = true
  · rw [if_neg (not_not_intro hmem), if_neg (not_not_intro hmem)]
    cases hsd : dgetD d s .vnone with
    | vdict sd =>
        exact Or.inl ⟨hmem, sd,
          dgetD_vnone_some hsd (by intro hc; cases hc), rfl⟩
    | vnone =>
        have hw : dget d s = some PyVal.vnone := by
          rw [dmem_eq_isSome] at hmem
          cases hg : dget d s with
          | none => rw [hg] at hmem; cases hmem
          | some u =>
              rw [dgetD_of_dget hg] at hsd
              rw [hsd]
        exact Or.inr (Or.inr ⟨hmem, PyVal.vnone, hw,
          fun z hc => PyVal.noConfusion hc, rfl⟩)
    | vstr a =>
        exact Or.inr (Or.inr ⟨hmem, PyVal.vstr a,
          dgetD_vnone_some hsd (by intro hc; cases hc),
          fun z hc => PyVal.noConfusion hc, rfl⟩)
    | vbool a =>
        exact Or.inr (Or.inr ⟨hmem, PyVal.vbool a,
          dgetD_vnone_some hsd (by intro hc; cases hc),
          fun z hc => PyVal.noConfusion hc, rfl⟩)
    | vint a =>
        exact Or.inr (Or.inr ⟨hmem, PyVal.vint a,
          dgetD_vnone_some hsd (by intro hc; cases hc),
          fun z hc => PyVal.noConfusion hc, rfl⟩)
    | vlist a =>
        exact Or.inr (Or.inr ⟨hmem, PyVal.vlist a,
          dgetD_vnone_some hsd (by intro hc; cases hc),
          fun z hc => PyVal.noConfusion hc, rfl⟩)
  · rw [if_pos hmem, if_pos hmem]
    have hmf : dmem d s = false := by
      cases hb : dmem d s
      · rfl
      · exact absurd hb hmem
    rw [dgetD_dset_self]
    refine Or.inr (Or.inl ⟨hmf, ?_⟩)
    dsimp only
    rw [mergeFieldsLoop_changes, dset_dset]

theorem mergeOneSection_absorb {d : List (String × PyVal)} {s : String}
    {v : PyVal} (hsch : dmem QUICKBASE_SCHEMA s = true)
    (hdict : ∃ fvs, v = PyVal.vdict fvs)
    (habs : secAbsorbed d (s, v)) (hnd : NodupKeys d) :
    (mergeOneSection d (s, v)).1 = d := by
  obtain ⟨fvs, hfvs⟩ := hdict
  subst hfvs
  rcases @mergeOneSection_schemaDict d s fvs hsch with
    ⟨hmem, sd, hsd, hout⟩ | ⟨hmf, hout⟩ | ⟨hmem, w, hw, hwd, hout⟩
  · rw [hout]
    have hfix := habs.2 sd (dgetD_of_dget hsd) fvs rfl
    rw [mergeFieldsLoop_fixpoint _ s fvs sd [] hfix]
    exact dset_eq_self hnd hsd
  · exact absurd habs.1 (by rw [hmf]; exact Bool.noConfusion)
  · exact hout

theorem mergeSections_fix (nd : List (String × PyVal)) :
    ∀ d, (∀ e ∈ nd, (mergeOneSection d e).1 = d) →
    (mergeSections d nd).1 = d := by
  induction nd with
  | nil => intro d _; rfl
  | cons e rest ih =>
      intro d h
      rw [mergeSections_cons]
      dsimp only
      rw [h e (List.mem_cons_self _ _)]
      exact ih d (fun e2 he2 => h e2 (List.mem_cons_of_mem _ he2))

theorem mergeSections_post (nd : List (String × PyVal)) :
    ∀ d, NodupKeys nd → ndSchemaDicts nd = true → mergeTotalB nd = true →
    (∀ e ∈ nd, ∀ fvs, e.2 = PyVal.vdict fvs → NodupKeys fvs) →
    ∀ e ∈ nd, secAbsorbed (mergeSections d nd).1 e := by
  induction nd with
  | nil => intro d _ _ _ _ e he; exact absurd he (List.not_mem_nil e)
  | cons e0 rest ih =>
      intro d hnd hsch htot hwf e he
      obtain ⟨s, v⟩ := e0
      have hs_not : s ∉ rest.map Prod.fst := by
        have h1 := hnd
        unfold NodupKeys at h1
        simp only [List.map_cons, List.nodup_cons] at h1
        exact h1.1
      have hndr : NodupKeys rest := by
        have h1 := hnd
        unfold NodupKeys at h1
        simp only [List.map_cons, List.nodup_cons] at h1
        show (rest.map Prod.fst).Nodup
        exact h1.2
      unfold ndSchemaDicts at hsch
      rw [List.all_cons, Bool.and_eq_true] at hsch
      obtain ⟨hsch1, hschr⟩ := hsch
      rw [Bool.and_eq_true] at hsch1
      obtain ⟨hschS, hschD⟩ := hsch1
      dsimp only at hschS hschD
      obtain ⟨fvs, hfvs⟩ := isDict_exists hschD
      unfold mergeTotalB at htot
      rw [List.all_cons, Bool.and_eq_true] at htot
      obtain ⟨htot1, htotr⟩ := htot
      rw [mergeSections_cons]
      dsimp only
      rcases List.mem_cons.mp he with h1 | h1
      · subst h1
        subst hfvs
        dsimp only at htot1
        have htotF : ∀ fe ∈ fvs, exceptOk (merge_field_values .vnone fe.2
            (schemaFieldCfg (dgetD QUICKBASE_SCHEMA s (.vdict [])) fe.1)) =
              true := by
          intro fe hfe
          exact List.all_eq_true.mp htot1 fe hfe
        have hfvnd : (fvs.map Prod.fst).Nodup := by
          have := hwf (s, .vdict fvs) (List.mem_cons_self _ _) fvs rfl
          unfold NodupKeys at this
          exact this
        have hframe := mergeSections_frame rest
          (mergeOneSection d (s, .vdict fvs)).1 s hs_not
        rcases @mergeOneSection_schemaDict d s fvs hschS with
          ⟨hmem, sd, hsd, hout⟩ | ⟨hmf, hout⟩ | ⟨hmem, w, hw, hwd, hout⟩
        · have hstate : dget (mergeOneSection d (s, .vdict fvs)).1 s =
              some (.vdict (mergeFieldsLoop
                (dgetD QUICKBASE_SCHEMA s (.vdict [])) s sd [] fvs).1) := by
            rw [hout, dget_dset_self]
          have hpost := mergeFieldsLoop_post
            (dgetD QUICKBASE_SCHEMA s (.vdict [])) s fvs sd [] hfvnd htotF
          refine ⟨?_, ?_⟩
          · show dmem (mergeSections (mergeOneSection d (s, .vdict fvs)).1
              rest).1 s = true
            rw [dmem_eq_isSome, hframe, hstate]
            rfl
          · intro sd' hsd' fvs' hfvs' fe hfe
            dsimp only at hsd' hfvs'
            have hfvs'eq : fvs' = fvs :=
              (PyVal.vdict.inj hfvs').symm
            subst hfvs'eq
            have hsd'eq : sd' = (mergeFieldsLoop
                (dgetD QUICKBASE_SCHEMA s (.vdict [])) s sd [] fvs').1 := by
              unfold dgetD at hsd'
              rw [hframe, hstate] at hsd'
              exact (PyVal.vdict.inj hsd').symm
            subst hsd'eq
            exact hpost fe hfe
        · have hstate : dget (mergeOneSection d (s, .vdict fvs)).1 s =
              some (.vdict (mergeFieldsLoop
                (dgetD QUICKBASE_SCHEMA s (.vdict [])) s [] [] fvs).1) := by
            rw [hout, dget_dset_self]
          have hpost := mergeFieldsLoop_post
            (dgetD QUICKBASE_SCHEMA s (.vdict [])) s fvs [] [] hfvnd htotF
          refine ⟨?_, ?_⟩
          · show dmem (mergeSections (mergeOneSection d (s, .vdict fvs)).1
              rest).1 s = true
            rw [dmem_eq_isSome, hframe, hstate]
            rfl
          · intro sd' hsd' fvs' hfvs' fe hfe
            dsimp only at hsd' hfvs'
            have hfvs'eq : fvs' = fvs :=
              (PyVal.vdict.inj hfvs').symm
            subst hfvs'eq
            have hsd'eq : sd' = (mergeFieldsLoop
                (dgetD QUICKBASE_SCHEMA s (.vdict [])) s [] [] fvs').1 := by
              unfold dgetD at hsd'
              rw [hframe, hstate] at hsd'
              exact (PyVal.vdict.inj hsd').symm
            subst hsd'eq
            exact hpost fe hfe
        · have hstate : dget (mergeOneSection d (s, .vdict fvs)).1 s =
              some w := by
            rw [hout]
            exact hw
          refine ⟨?_, ?_⟩
          · show dmem (mergeSections (mergeOneSection d (s, .vdict fvs)).1
              rest).1 s = true
            rw [dmem_eq_isSome, hframe, hstate]
            rfl
          · intro sd' hsd' fvs' hfvs' fe hfe
            dsimp only at hsd'
            exfalso
            unfold dgetD at hsd'
            rw [hframe, hstate] at hsd'
            exact hwd sd' hsd'
      · exact ih (mergeOneSection d (s, v)).1 hndr hschr htotr
          (fun e2 he2 fvs2 hfvs2 =>
            hwf e2 (List.mem_cons_of_mem _ he2) fvs2 hfvs2) e h1

theorem validate_keepAbsorbed {b d1 : List (String × PyVal)}
    (h : validate_merged_data b = .ok d1) {e : String × PyVal}
    (hside : e.1 = "Assignment Type" →
      ∀ fvs, e.2 = PyVal.vdict fvs → dmem fvs "Other" = false)
    (habs : secAbsorbed b e) : secAbsorbed d1 e := by
  obtain ⟨s, v⟩ := e
  dsimp only at hside
  refine ⟨validate_presence h habs.1, ?_⟩
  intro sd1 hsd1 fvs hfvs fe hfe
  dsimp only at hsd1 hfvs
  by_cases hbdict : ∃ sdb, dget b s = some (.vdict sdb)
  · obtain ⟨sdb, hsdb⟩ := hbdict
    obtain ⟨l, hval, hmerge⟩ := habs.2 sdb (dgetD_of_dget hsdb) fvs hfvs fe hfe
    have hFL : fieldHasList b s fe.1 l := ⟨sdb, hsdb, hval⟩
    have hside2 : s ≠ "Assignment Type" ∨ fe.1 ≠ "Other" := by
      by_cases hsAT : s = "Assignment Type"
      · refine Or.inr ?_
        have hdm := hside hsAT fvs hfvs
        intro hc
        have hmemO : dmem fvs "Other" = true := by
          rw [keys_dmem, ← hc]
          exact List.mem_map_of_mem Prod.fst hfe
        rw [hdm] at hmemO
        cases hmemO
      · exact Or.inl hsAT
    obtain ⟨sd1', hsd1', hval1⟩ := validate_keepListD h hFL hside2
    have hsdeq : sd1' = sd1 := by
      have h2 := dgetD_vnone_some hsd1 (by intro hc; cases hc)
      rw [hsd1'] at h2
      exact PyVal.vdict.inj (Option.some.inj h2)
    exact ⟨l, hsdeq ▸ hval1, hmerge⟩
  · push_neg at hbdict
    have hbmem := habs.1
    rw [dmem_eq_isSome] at hbmem
    cases hg : dget b s with
    | none =>
        rw [hg] at hbmem
        cases hbmem
    | some w =>
        have hwnd : ∀ z, w ≠ PyVal.vdict z := by
          intro z hc
          exact hbdict z (by rw [hg, hc])
        have hd1 : dget d1 s = some w := validate_nonDict h hg hwnd
        exfalso
        have h2 := dgetD_vnone_some hsd1 (by intro hc; cases hc)
        rw [hd1] at h2
        exact hwnd sd1 (Option.some.inj h2)

set_option maxHeartbeats 1000000 in
/-- C7 (amended): document-level re-merge idempotence holds for the
partial-result shape the pipeline stages emit.  If the accumulated
document has distinct section keys, the partial result has distinct
section keys and distinct field keys inside each of its (schema-section,
dict-valued) entries, none of its field merges raises, and it does not
write the `Assignment Type -> Other` field, then a successful merge of the
partial result followed by a second merge of the same partial result
returns the first result unchanged.  Without the `Other` proviso the claim
is false — see the counterexample, where the completion pass rewrites the
merged `Other` value and the second merge appends to it again. -/
theorem C7_amended_remerge_idempotent
    (od nd d1 : List (String × PyVal)) (ch : List MergeChange)
    (hod : NodupKeys od) (hnd : ndWellFormed nd)
    (hsh : ndSchemaDicts nd = true) (htot : mergeTotalB nd = true)
    (hoth : touchesOther nd = false)
    (h1 : merge_parsed_data (.vdict od) (.vdict nd) = .ok (d1, ch)) :
    ∃ ch2, merge_parsed_data (.vdict d1) (.vdict nd) = .ok (d1, ch2) := by
  unfold merge_parsed_data at h1
  dsimp only at h1
  cases hv : validate_merged_data (mergeSections od nd).1 with
  | error e =>
      rw [hv] at h1
      cases h1
  | ok res2 =>
      rw [hv] at h1
      have hres : res2 = d1 := congrArg Prod.fst (Except.ok.inj h1)
      subst hres
      have habs_b : ∀ e ∈ nd, secAbsorbed (mergeSections od nd).1 e :=
        mergeSections_post nd od hnd.1 hsh htot hnd.2
      have hNb : NodupKeys (mergeSections od nd).1 :=
        NodupKeys_mergeSections nd od hod
      have hNd1 : NodupKeys res2 := validate_Nodup hv hNb
      have hside : ∀ e ∈ nd, e.1 = "Assignment Type" →
          ∀ fvs, e.2 = PyVal.vdict fvs → dmem fvs "Other" = false := by
        intro e he hAT fvs hfvs
        have hdg : dget nd e.1 = some e.2 := by
          refine dget_of_mem hnd.1 ?_
          show (e.1, e.2) ∈ nd
          rw [show (e.1, e.2) = e from rfl]
          exact he
        rw [hAT] at hdg
        unfold touchesOther at hoth
        rw [hdg, hfvs] at hoth
        exact hoth
      have habs_d1 : ∀ e ∈ nd, secAbsorbed res2 e :=
        fun e he => validate_keepAbsorbed hv (hside e he) (habs_b e he)
      have hfix : (mergeSections res2 nd).1 = res2 := by
        refine mergeSections_fix nd res2 ?_
        intro e he
        have hsd : dmem QUICKBASE_SCHEMA e.1 = true ∧ e.2.isDict = true := by
          unfold ndSchemaDicts at hsh
          have h3 := List.all_eq_true.mp hsh e he
          rw [Bool.and_eq_true] at h3
          exact h3
        obtain ⟨s, v⟩ := e
        exact mergeOneSection_absorb hsd.1 (isDict_exists hsd.2)
          (habs_d1 (s, v) he) hNd1
      have hval2 : validate_merged_data res2 = .ok res2 := validate_idem hv hNd1
      refine ⟨(mergeSections res2 nd).2, ?_⟩
      unfold merge_parsed_data
      dsimp only
      rw [hfix, hval2]

set_option maxHeartbeats 4000000 in
theorem C7_amended_remerge_idempotent_witness :
    NodupKeys ([] : List (String × PyVal)) ∧ ndWellFormed ndC7 ∧
    ndSchemaDicts ndC7 = true ∧ mergeTotalB ndC7 = true ∧
    touchesOther ndC7 = false ∧
    ∃ ch2, merge_parsed_data (.vdict (mergeOk (.vdict []) (.vdict ndC7)))
      (.vdict ndC7) = .ok (mergeOk (.vdict []) (.vdict ndC7), ch2) := by
  have hod : NodupKeys ([] : List (String × PyVal)) := by
    unfold NodupKeys
    decide
  have hnd : ndWellFormed ndC7 := by
    refine ⟨by unfold NodupKeys ndC7; decide, ?_⟩
    intro e he fvs hfv
    simp only [ndC7, List.mem_singleton] at he
    subst he
    have h2 : PyVal.vdict [("Wind", PyVal.vbool true)] = PyVal.vdict fvs := hfv
    injection h2 with h
    rw [← h]
    unfold NodupKeys
    decide
  have h1 : merge_parsed_data (.vdict []) (.vdict ndC7) =
      .ok (mergeOk (.vdict []) (.vdict ndC7),
           mergeChanges (.vdict []) (.vdict ndC7)) := by decide
  exact ⟨hod, hnd, by decide, by decide, by decide,
    C7_amended_remerge_idempotent [] ndC7 _ _ hod hnd (by decide) (by decide)
      (by decide) h1⟩
